import Mathlib

/-!
# Axis: single-axis position control (`cnc_ctrl_v1/libraries/Axis/axis.cpp`)

A shallow embedding of `axis.cpp` and theorems about it.

The source is embedded twice.

* The exact embedding (`Axis`): `float`/`double` quantities are rationals
  and their arithmetic is exact.  Values are forced into a machine format
  only at the conversion to the sensor's integer count (`toLong`) and at the
  four-byte image of a `float` kept in the non-volatile store
  (`floatToBytes` / `bytesToFloat`).  It carries the theorems about control
  flow, order of effects and frames, which no rounding step can reach:
  which branch runs, which member or store byte changes, how often the
  integrator is flushed, what the calibration routines command.
* The single-precision embedding (`F32`, `Axis32`): a `float` is its
  32-bit IEEE-754 word and every arithmetic operation, conversion and
  comparison is the rounded one (round to nearest, ties to even; `double`
  is the same 32-bit type on the AVR target).  It carries the theorems
  about the values the operations return: the arrival test of `write`, the
  `set`/`read` conversion, the thresholds of the gain selection, and what
  `detach` stores and the constructor loads.  A conversion to `long` that
  C++ leaves undefined has no result (`none`).

Conventions common to both.

* `abs` is the Arduino macro `((x)>0?(x):-(x))`, see `absMacro` and
  `F32.absMacro`.  The macro evaluates its argument twice; the calibration
  routines, which run while the motor is driven, therefore read the sensor
  twice per `abs` (`absOfReads`).  In every other operation the sensor count
  is taken to be steady for the duration of the call.
* The collaborators whose sources are not part of `axis.cpp` (`Encoder`,
  `GearMotor`, `PID`, `EEPROM`, `millis`) are modelled by small records:
  the sensor is its count, the motor is its attach flag plus the list of
  calls it received, the controller is the tunings last handed to it plus a
  counter of integrator flushes, the store is a function from addresses to
  bytes, and the clock is an argument of the operations that read it.
* `unsigned int` is 16 bits, `long` and `unsigned long` 32 bits (AVR).
-/

/-- The constant `NUMBER_OF_ENCODER_STEPS`. -/
def NUMBER_OF_ENCODER_STEPS : ℚ := 8148

/-- The constant `EEPROMVALIDDATA`. -/
def EEPROMVALIDDATA : Fin 256 := 56

/-- The constant `EEPROMFLAG`. -/
def EEPROMFLAG : Nat := 18

/-- The constant `FORWARD`. -/
def FORWARD : Int := 1

/-- The `abs` of `Arduino.h`, a macro: `((x)>0?(x):-(x))`. -/
def absMacro (x : ℚ) : ℚ := if x > 0 then x else -x

/-- Conversion of a floating value to `long`: the fractional part is
discarded (truncation toward zero).  C++ defines the conversion only when
the truncated value fits the 32-bit type. -/
def toLong (q : ℚ) : Int := if 0 ≤ q then ⌊q⌋ else ⌈q⌉

/-! ## The four-byte image of a `float` -/

/-- The `byte b[4]` member of the union in `_readFloat` / `_writeFloat`. -/
abbrev Float4 := Fin 4 → Fin 256

/-- The 32-bit word whose bytes, least significant first, are `b`. -/
def float4Bits (b : Float4) : Nat :=
  (b 0).val + 256 * (b 1).val + 65536 * (b 2).val + 16777216 * (b 3).val

/-- The bytes of a 32-bit word, least significant first. -/
def bitsFloat4 (w : Nat) : Float4 := fun i => Fin.ofNat (w / 256 ^ i.val)

/-- Modelled from the spec: the value of an IEEE-754 single-precision word
(sign bit, 8 exponent bits, 23 fraction bits).  An infinity or NaN has no
rational value and is read as `0`. -/
def bitsToRat (w : Nat) : ℚ :=
  let sgn : ℚ := if w / 2147483648 % 2 = 1 then -1 else 1
  let e := w / 8388608 % 256
  let m := w % 8388608
  if e = 0 then sgn * m / 2 ^ 149
  else if e = 255 then 0
  else sgn * (8388608 + m) * 2 ^ e / 2 ^ 150

/-- Round-to-nearest, ties to even, of the fraction `n / d`. -/
def roundHalfEven (n d : Nat) : Nat :=
  let q := n / d
  let r := n % d
  if 2 * r < d then q else if d < 2 * r then q + 1 else q + q % 2

/-- Modelled from the spec: the IEEE-754 single-precision word nearest to
the positive fraction `n / d` (sign bit clear). -/
def fracToBits (n d : Nat) : Nat :=
  -- `k` is the exponent of the leading bit of `n / d`, biased by 127
  let k0 : Int := 127 + (Nat.log2 n : Int) - (Nat.log2 d : Int)
  let k1 : Int := if n * 2 ^ (127 - k0).toNat < d * 2 ^ (k0 - 127).toNat then k0 - 1 else k0
  -- subnormals share the exponent of the smallest normal number
  let k : Int := if k1 < 1 then 1 else k1
  let m := roundHalfEven (n * 2 ^ (150 - k).toNat) (d * 2 ^ (k - 150).toNat)
  -- `m < 2 ^ 23` for a subnormal; `m = 2 ^ 24` when rounding carried
  let w := if m < 8388608 then m else (k.toNat - 1) * 8388608 + m
  if 2139095040 ≤ w then 2139095040 else w

/-- Modelled from the spec: the IEEE-754 single-precision word of a value. -/
def ratToBits (x : ℚ) : Nat :=
  if x = 0 then 0
  else if x < 0 then 2147483648 + fracToBits x.num.natAbs x.den
  else fracToBits x.num.natAbs x.den

/-- The assignment `data.f = x` followed by reading `data.b`: the bytes of the `float`
holding `x`, least significant first. -/
def floatToBytes (x : ℚ) : Float4 := bitsFloat4 (ratToBits x)

/-- Writing `data.b` and then reading `data.f`. -/
def bytesToFloat (b : Float4) : ℚ := bitsToRat (float4Bits b)

/-! ## Collaborators -/

/-- Modelled from the spec: the non-volatile store adapter (`EEPROM`, not
among the sources), byte-addressable, one byte per address. -/
abbrev EEPROMClass := Nat → Fin 256

/-- Modelled from the spec: the call `EEPROM.read(addr)`. -/
def EEPROMClass.read (e : EEPROMClass) (addr : Nat) : Fin 256 := e addr

/-- Modelled from the spec: the call `EEPROM.write(addr, v)`, which changes
the byte at `addr` and no other. -/
def EEPROMClass.write (e : EEPROMClass) (addr : Nat) (v : Fin 256) : EEPROMClass :=
  fun a => if a = addr then v else e a

/-- The sum `addr + i` of `_readFloat` / `_writeFloat`, an `unsigned int`. -/
def addrPlus (addr i : Nat) : Nat := (addr + i) % 65536

/-- Modelled from the spec: a call received by the actuation adapter
(`GearMotor`, not among the sources). -/
inductive MotorCall
  | setupMotor
  | write (cmd : ℚ)
  | attach
  | detach
  | setBoost (negBoost posBoost : Int)
  deriving DecidableEq

/-- Modelled from the spec: the actuation adapter (`GearMotor`, not among
the sources) as `axis.cpp` sees it: the flag answered by `attached()` and
the calls received so far, most recent first. -/
structure GearMotor where
  isAttached : Bool
  calls : List MotorCall

/-- Modelled from the spec: the call `_motor.attached()`. -/
def GearMotor.attached (m : GearMotor) : Bool := m.isAttached

/-- Modelled from the spec: the call `_motor.attach(1)`, which enables the
actuator. -/
def GearMotor.attach (m : GearMotor) : GearMotor :=
  { isAttached := true, calls := MotorCall.attach :: m.calls }

/-- Modelled from the spec: the call `_motor.detach()`, which disables the
actuator. -/
def GearMotor.detach (m : GearMotor) : GearMotor :=
  { isAttached := false, calls := MotorCall.detach :: m.calls }

/-- Modelled from the spec: the call `_motor.write(cmd)`. -/
def GearMotor.write (m : GearMotor) (cmd : ℚ) : GearMotor :=
  { m with calls := MotorCall.write cmd :: m.calls }

/-- Modelled from the spec: the call `_motor.setBoost(negBoost, posBoost)`. -/
def GearMotor.setBoost (m : GearMotor) (negBoost posBoost : Int) : GearMotor :=
  { m with calls := MotorCall.setBoost negBoost posBoost :: m.calls }

/-- Modelled from the spec: the call
`_motor.setupMotor(pwmPin, directionPin1, directionPin2)`. -/
def GearMotor.setupMotor (m : GearMotor) : GearMotor :=
  { m with calls := MotorCall.setupMotor :: m.calls }

/-- Modelled from the spec: the feedback controller (`PID`, not among the
sources) as `axis.cpp` sees it: the tunings last handed to it, the number
of `FlipIntegrator` calls it received, whether it is in automatic mode with
its output limits, and its private memory. -/
structure PID where
  kp : ℚ
  ki : ℚ
  kd : ℚ
  flips : Nat
  automatic : Bool
  outMin : ℚ
  outMax : ℚ
  mem : List ℚ

/-- Modelled from the spec: the call `_pidController.SetTunings(Kp, Ki, Kd)`,
which puts the three gains in force. -/
def PID.SetTunings (p : PID) (Kp Ki Kd : ℚ) : PID := { p with kp := Kp, ki := Ki, kd := Kd }

/-- Modelled from the spec: the call `_pidController.FlipIntegrator()`, the
flush of the integrator accumulator; the flushes are counted. -/
def PID.FlipIntegrator (p : PID) : PID := { p with flips := p.flips + 1 }

/-- Modelled from the spec: what one `_pidController.Compute()` does, given
the controller, the input, the setpoint and the previous output: the
controller's new private memory and the new output. -/
abbrev PIDLaw := PID → ℚ → ℚ → ℚ → List ℚ × ℚ

/-! ## The axis -/

/-- The members of `Axis` that `axis.cpp` uses (the class declaration,
`Axis.h`, is not among the sources), together with the global store
`EEPROM`.  The sensor `_encoder` is its cumulative count. -/
structure Axis where
  _motor : GearMotor
  _axisTarget : ℚ
  _direction : Int
  _encoder : Int
  _axisName : String
  _disableAxisForTesting : Bool
  _pidSetpoint : ℚ
  _pidInput : ℚ
  _pidOutput : ℚ
  _Kp : ℚ
  _KiClose : ℚ
  _KiMid : ℚ
  _KiFar : ℚ
  _Kd : ℚ
  _pidController : PID
  _eepromAdr : Nat
  _mmPerRotation : ℚ
  _oldSetpoint : ℚ
  _oldVal : ℚ
  _timeLastMoved : Nat
  EEPROM : EEPROMClass

/-- The loop of `Axis::_readFloat`: `data.b[i] = EEPROM.read(addr+i)` for
`i = 0..3`. -/
def Axis.readData (e : EEPROMClass) (addr : Nat) : Float4 :=
  fun i => e.read (addrPlus addr i.val)

/-- Source function `Axis::_readFloat`: the loop, then `return data.f`. -/
def Axis._readFloat (e : EEPROMClass) (addr : Nat) : ℚ :=
  bytesToFloat (Axis.readData e addr)

/-- The loop of `Axis::_writeFloat`: `EEPROM.write(addr+i, data.b[i])` for
`i = 0..3`. -/
def Axis.writeData (e : EEPROMClass) (addr : Nat) (data : Float4) : EEPROMClass :=
  (List.finRange 4).foldl (fun st i => st.write (addrPlus addr i.val) (data i)) e

/-- Source function `Axis::_writeFloat`: `data.f = x`, then the loop. -/
def Axis._writeFloat (e : EEPROMClass) (addr : Nat) (x : ℚ) : EEPROMClass :=
  Axis.writeData e addr (floatToBytes x)

/-- Source function `Axis::set`. -/
def Axis.set (s : Axis) (newAxisPosition : ℚ) : Axis :=
  { s with
    _axisTarget := newAxisPosition / s._mmPerRotation
    _encoder := toLong ((newAxisPosition * NUMBER_OF_ENCODER_STEPS) / s._mmPerRotation) }

/-- The constructor `Axis::Axis`, run on the members `mem` as they are
before the constructor body (the values the class declaration gives them)
and on the store `store`; the freshly built sensor counts from zero. -/
def Axis.construct (mem : Axis) (store : EEPROMClass) (axisName : String) (eepromAdr : Nat)
    (mmPerRotation : ℚ) : Axis :=
  let s : Axis :=
    { mem with
      EEPROM := store
      _encoder := 0
      _motor := mem._motor.setupMotor
      _pidController := mem._pidController.SetTunings mem._Kp mem._KiFar mem._Kd
      _direction := FORWARD
      _axisName := axisName
      _axisTarget := 0
      _eepromAdr := eepromAdr
      _mmPerRotation := mmPerRotation }
  if s.EEPROM.read EEPROMFLAG = EEPROMVALIDDATA then
    s.set (Axis._readFloat s.EEPROM s._eepromAdr)
  else s

/-- Source function `Axis::initializePID`. -/
def Axis.initializePID (s : Axis) : Axis :=
  { s with _pidController := { s._pidController with automatic := true, outMin := -90, outMax := 90 } }

/-- Source function `Axis::write`: the new state and the returned `int`. -/
def Axis.write (s : Axis) (targetPosition : ℚ) : Axis × Int :=
  let s1 := { s with _pidSetpoint := targetPosition / s._mmPerRotation }
  let acceptableError : ℚ := 20
  if absMacro (((s1._encoder : ℚ) / NUMBER_OF_ENCODER_STEPS - s1._pidSetpoint) * 1000)
      < acceptableError then (s1, 1)
  else (s1, 0)

/-- Source function `Axis::read`. -/
def Axis.read (s : Axis) : ℚ :=
  if s._motor.attached then ((s._encoder : ℚ) / NUMBER_OF_ENCODER_STEPS) * s._mmPerRotation
  else ((s._encoder : ℚ) / NUMBER_OF_ENCODER_STEPS) * s._mmPerRotation

/-- Source function `Axis::target`. -/
def Axis.target (s : Axis) : ℚ := s._axisTarget * s._mmPerRotation

/-- Source function `Axis::setpoint`. -/
def Axis.setpoint (s : Axis) : ℚ := s._pidSetpoint * s._mmPerRotation

/-- Source function `Axis::error`. -/
def Axis.error (s : Axis) : ℚ :=
  absMacro (((s._encoder : ℚ) / NUMBER_OF_ENCODER_STEPS) - s._pidSetpoint) * s._mmPerRotation

/-- Source function `Axis::_sign`. -/
def Axis._sign (val : ℚ) : Int :=
  if val < 0 then -1 else if val = 0 then 0 else 1

/-- Source function `Axis::_change`: the new state and the returned truth value. -/
def Axis._change (s : Axis) (val : ℚ) : Axis × Bool :=
  if val ≠ s._oldVal then ({ s with _oldVal := val }, true)
  else ({ s with _oldVal := val }, false)

/-- The part of `Axis::computePID` between the test-mode check and the call
of `_pidController.Compute()`: direction-change detection, anti-windup gain
selection and the refresh of the controller input. -/
def Axis.computePIDPrepare (s : Axis) : Axis :=
  let r := s._change (Axis._sign (s._oldSetpoint - s._pidSetpoint))
  let s1 := if r.2 then { r.1 with _pidController := r.1._pidController.FlipIntegrator } else r.1
  let s2 := { s1 with _oldSetpoint := s1._pidSetpoint }
  let s3 :=
    if absMacro s2._pidOutput > 20 then
      { s2 with _pidController := s2._pidController.SetTunings s2._Kp s2._KiFar s2._Kd }
    else
      let s4 :=
        if absMacro (s2._pidInput - s2._pidSetpoint) < 2 / 100 then
          { s2 with _pidController := s2._pidController.SetTunings s2._Kp s2._KiClose s2._Kd }
        else s2
      if absMacro (s4._pidInput - s4._pidSetpoint) < 6 / 100 then
        { s4 with _pidController := s4._pidController.SetTunings s4._Kp s4._KiMid s4._Kd }
      else s4
  { s3 with _pidInput := (s3._encoder : ℚ) / NUMBER_OF_ENCODER_STEPS }

/-- Source function `Axis::computePID`, with `law` standing for `_pidController.Compute()`. -/
def Axis.computePID (law : PIDLaw) (s : Axis) : Axis :=
  if s._disableAxisForTesting then s
  else
    let s1 := s.computePIDPrepare
    let r := law s1._pidController s1._pidInput s1._pidSetpoint s1._pidOutput
    let s2 := { s1 with _pidController := { s1._pidController with mem := r.1 }, _pidOutput := r.2 }
    { s2 with _motor := s2._motor.write (90 + s2._pidOutput) }

/-- Source function `Axis::detach`. -/
def Axis.detach (s : Axis) : Axis :=
  let s1 :=
    if s._motor.attached then
      let e1 := Axis._writeFloat s.EEPROM s._eepromAdr s.read
      { s with EEPROM := e1.write EEPROMFLAG EEPROMVALIDDATA }
    else s
  { s1 with _motor := s1._motor.detach }

/-- Source function `Axis::attach`. -/
def Axis.attach (s : Axis) : Axis := { s with _motor := s._motor.attach }

/-- The difference `millis() - _timeLastMoved` of two `unsigned long`. -/
def elapsedMillis (now last : Nat) : Nat :=
  (now % 4294967296 + 4294967296 - last % 4294967296) % 4294967296

/-- Source function `Axis::hold`, called when `millis()` answers `now`. -/
def Axis.hold (s : Axis) (now : Nat) : Axis :=
  let timeout := 2000
  if elapsedMillis now s._timeLastMoved < timeout then (s.write (s._axisTarget * s._mmPerRotation)).1
  else s.detach

/-- Source function `Axis::endMove`, called when `millis()` answers `now`. -/
def Axis.endMove (s : Axis) (now : Nat) (finalTarget : ℚ) : Axis :=
  { s with _timeLastMoved := now, _axisTarget := finalTarget / s._mmPerRotation }

/-- The macro call `abs(originalEncoderPos - _encoder.read())`: the macro
evaluates its argument once for the test and once for the value, so the
sensor is read twice (`r`, then `r2`). -/
def absOfReads (originalEncoderPos r r2 : Int) : Int :=
  if originalEncoderPos - r > 0 then originalEncoderPos - r2 else -(originalEncoderPos - r2)

/-- A statement that changes a member: it is applied to the current state
and the new state is appended to the record of the states passed through. -/
def Axis.step (f : Axis → Axis) (t : Axis × List Axis) : Axis × List Axis :=
  (f t.1, t.2 ++ [f t.1])

/-- Source function `Axis::computeSymetryOfMotor`, statement by statement;
`sensor k` is what the `k`-th `_encoder.read()` of the routine answers.  The
result is the final state with the states passed through (one per
statement that changes a member, the last being the final state), and the
number printed last. -/
def Axis.computeSymetryOfMotorTraced (s : Axis) (speed : Int) (sensor : Nat → Int) :
    (Axis × List Axis) × Int :=
  let t1 := Axis.step (fun st => { st with _disableAxisForTesting := true }) (s, [])
  let t2 := Axis.step Axis.attach t1
  let originalEncoderPos := sensor 0
  let t3 := Axis.step (fun st => { st with _motor := st._motor.write (90 + speed) }) t2
  let posEncoderDelta := absOfReads originalEncoderPos (sensor 1) (sensor 2)
  let originalEncoderPos2 := sensor 3
  let t4 := Axis.step (fun st => { st with _motor := st._motor.write (90 - speed) }) t3
  let negEncoderDelta := absOfReads originalEncoderPos2 (sensor 4) (sensor 5)
  let t5 := Axis.step (fun st => { st with _motor := st._motor.write 90 }) t4
  -- the sensor stands at its last reading
  let t6 := Axis.step (fun st => { st with _encoder := sensor 5 }) t5
  let t7 := Axis.step (fun st => { st with _disableAxisForTesting := false }) t6
  (t7, posEncoderDelta - negEncoderDelta)

/-- Source function `Axis::computeSymetryOfMotor`: the final state and the
number printed last. -/
def Axis.computeSymetryOfMotor (s : Axis) (speed : Int) (sensor : Nat → Int) : Axis × Int :=
  ((s.computeSymetryOfMotorTraced speed sensor).1.1, (s.computeSymetryOfMotorTraced speed sensor).2)

/-- One `while (i < 35)` loop of `Axis::computeBoost` as the motor sees it.
`cmd i` is the command of step `i`, `k` the number of sensor reads made so
far; the result is the final `i`, the number of reads made, and the motor.
The first argument bounds the number of iterations. -/
def Axis.boostRamp (cmd : Nat → ℚ) (originalEncoderPos : Int) (sensor : Nat → Int) :
    Nat → Nat → Nat → GearMotor → Nat × Nat × GearMotor
  | 0, i, k, m => (i, k, m)
  | fuel + 1, i, k, m =>
    if i < 35 then
      let m1 := m.write (cmd i)
      if absOfReads originalEncoderPos (sensor k) (sensor (k + 1)) > 200 then (i, k + 2, m1)
      else Axis.boostRamp cmd originalEncoderPos sensor fuel (i + 1) (k + 2) m1
    else (i, k, m)

/-- One `while (i < 35)` loop of `Axis::computeBoost`, statement by
statement on the axis: `cmd i` is the command of step `i`, `k` the number of
sensor reads made so far; the result is the final `i`, the number of reads
made, and the state with the states passed through.  The first argument
bounds the number of iterations. -/
def Axis.boostLoop (cmd : Nat → ℚ) (originalEncoderPos : Int) (sensor : Nat → Int) :
    Nat → Nat → Nat → Axis × List Axis → Nat × Nat × (Axis × List Axis)
  | 0, i, k, t => (i, k, t)
  | fuel + 1, i, k, t =>
    if i < 35 then
      let t1 := Axis.step (fun st => { st with _motor := st._motor.write (cmd i) }) t
      if absOfReads originalEncoderPos (sensor k) (sensor (k + 1)) > 200 then (i, k + 2, t1)
      else Axis.boostLoop cmd originalEncoderPos sensor fuel (i + 1) (k + 2) t1
    else (i, k, t)

/-- Source function `Axis::computeBoost`, statement by statement; `sensor k`
is what the `k`-th `_encoder.read()` of the routine answers.  The result is
the final state with the states passed through (one per statement that
changes a member, the last being the final state). -/
def Axis.computeBoostTraced (s : Axis) (sensor : Nat → Int) : Axis × List Axis :=
  let t1 := Axis.step (fun st => { st with _disableAxisForTesting := true }) (s, [])
  let originalEncoderPos := sensor 0
  let t2 := Axis.step Axis.attach t1
  let r1 := Axis.boostLoop (fun i => 90 + (i : ℚ)) originalEncoderPos sensor 35 0 1 t2
  let posBoost := r1.1
  let t3 := Axis.step (fun st => { st with _motor := st._motor.write 90 }) r1.2.2
  let originalEncoderPos2 := sensor r1.2.1
  let r2 := Axis.boostLoop (fun i => 90 - (i : ℚ)) originalEncoderPos2 sensor 35 0
    (r1.2.1 + 1) t3
  let negBoost := r2.1
  let t4 := Axis.step (fun st => { st with _motor := st._motor.write 90 }) r2.2.2
  let t5 := Axis.step (fun st => { st with _motor := st._motor.setBoost negBoost posBoost }) t4
  -- the sensor stands at its last reading
  let t6 := Axis.step (fun st => { st with _encoder := sensor (r2.2.1 - 1) }) t5
  Axis.step (fun st => { st with _disableAxisForTesting := false }) t6

/-- Source function `Axis::computeBoost`: the final state. -/
def Axis.computeBoost (s : Axis) (sensor : Nat → Int) : Axis :=
  (s.computeBoostTraced sensor).1

/-! ## Runs of operations -/

/-- A call of one of the public operations of `Axis`, or a movement of the
sensor between two calls (`sensorMoves`). -/
inductive AxisCall
  | initializePID
  | write (targetPosition : ℚ)
  | set (newAxisPosition : ℚ)
  | computePID
  | detach
  | attach
  | hold (now : Nat)
  | endMove (now : Nat) (finalTarget : ℚ)
  | computeSymetryOfMotor (speed : Int) (sensor : Nat → Int)
  | computeBoost (sensor : Nat → Int)
  | sensorMoves (count : Int)

/-- Whether the call is a control tick, `computePID()`. -/
def AxisCall.isTick : AxisCall → Bool
  | AxisCall.computePID => true
  | _ => false

/-- The state after one call. -/
def Axis.call (law : PIDLaw) (s : Axis) : AxisCall → Axis
  | AxisCall.initializePID => s.initializePID
  | AxisCall.write targetPosition => (s.write targetPosition).1
  | AxisCall.set newAxisPosition => s.set newAxisPosition
  | AxisCall.computePID => s.computePID law
  | AxisCall.detach => s.detach
  | AxisCall.attach => s.attach
  | AxisCall.hold now => s.hold now
  | AxisCall.endMove now finalTarget => s.endMove now finalTarget
  | AxisCall.computeSymetryOfMotor speed sensor => (s.computeSymetryOfMotor speed sensor).1
  | AxisCall.computeBoost sensor => s.computeBoost sensor
  | AxisCall.sensorMoves count => { s with _encoder := count }

/-- The state after a sequence of calls. -/
def Axis.calls (law : PIDLaw) (s : Axis) (cs : List AxisCall) : Axis :=
  cs.foldl (Axis.call law) s

/-- The value `_sign(_oldSetpoint - _pidSetpoint)` that `computePID`
computes when started in `s`. -/
def Axis.directionSign (s : Axis) : Int := Axis._sign (s._oldSetpoint - s._pidSetpoint)

/-- A run of `hold()` calls at the clock readings `nows`. -/
def Axis.holds : Axis → List Nat → Axis
  | s, [] => s
  | s, now :: nows => Axis.holds (s.hold now) nows

/-- The number of `_motor.detach()` calls received so far; `Axis::detach`
makes exactly one such call each time it runs, and nothing else does. -/
def Axis.detachCalls (s : Axis) : Nat := s._motor.calls.count MotorCall.detach

/-- One control tick with the sensor standing at `count`. -/
def Axis.tickAt (law : PIDLaw) (s : Axis) (count : Int) : Axis :=
  Axis.computePID law { s with _encoder := count }

/-- A run of control ticks, the sensor standing at `counts[j]` when the
`j`-th tick runs; nothing else happens in between, so the setpoint is held. -/
def Axis.ticksAt (law : PIDLaw) (s : Axis) (counts : List Int) : Axis :=
  counts.foldl (Axis.tickAt law) s

/-! ## Observations of the calibration routines -/

/-- The value of `abs(originalEncoderPos - _encoder.read())` in step `i` of
a ramp whose first sensor read is the `k`-th of the routine. -/
def Axis.rampDisplacement (originalEncoderPos : Int) (sensor : Nat → Int) (k i : Nat) : Int :=
  absOfReads originalEncoderPos (sensor (k + 2 * i)) (sensor (k + 2 * i + 1))

/-- The displacement over step `i` alone, in the spec's words "since the
step began": from the last sensor value read before the step (the original
position for step 0) to the value read at the end of the step. -/
def Axis.stepDisplacement (originalEncoderPos : Int) (sensor : Nat → Int) (k i : Nat) : Int :=
  |sensor (k + 2 * i + 1) - (if i = 0 then originalEncoderPos else sensor (k + 2 * i - 1))|

/-- The positive ramp of `computeBoost` as it runs from `s`: final `i`,
number of sensor reads made so far, motor. -/
def Axis.posRamp (s : Axis) (sensor : Nat → Int) : Nat × Nat × GearMotor :=
  Axis.boostRamp (fun i => 90 + (i : ℚ)) (sensor 0) sensor 35 0 1
    ({ s with _disableAxisForTesting := true } : Axis).attach._motor

/-- The negative ramp of `computeBoost` as it runs from `s`. -/
def Axis.negRamp (s : Axis) (sensor : Nat → Int) : Nat × Nat × GearMotor :=
  Axis.boostRamp (fun i => 90 - (i : ℚ)) (sensor (s.posRamp sensor).2.1) sensor 35 0
    ((s.posRamp sensor).2.1 + 1) ((s.posRamp sensor).2.2.write 90)

/-- The local `posBoost` of `computeBoost`. -/
def Axis.posBoost (s : Axis) (sensor : Nat → Int) : Nat := (s.posRamp sensor).1

/-- The local `negBoost` of `computeBoost`. -/
def Axis.negBoost (s : Axis) (sensor : Nat → Int) : Nat := (s.negRamp sensor).1

/-- The drive command of a motor call, if it is a `write`. -/
def MotorCall.command : MotorCall → Option ℚ
  | MotorCall.write cmd => some cmd
  | _ => none

/-- The last drive command written to the motor, if any. -/
def GearMotor.lastCommand (m : GearMotor) : Option ℚ := m.calls.findSome? MotorCall.command

/-! ## Concrete data used by the instances below -/

/-- An attached axis at rest with `mmPerRotation = 10`, store address 0 and
an erased store (every byte `255`). -/
def benchAxis : Axis :=
  { _motor := { isAttached := true, calls := [] }
    _axisTarget := 0
    _direction := 1
    _encoder := 0
    _axisName := "bench"
    _disableAxisForTesting := false
    _pidSetpoint := 0
    _pidInput := 0
    _pidOutput := 0
    _Kp := 300
    _KiClose := 250
    _KiMid := 50
    _KiFar := 0
    _Kd := 34
    _pidController :=
      { kp := 300, ki := 0, kd := 34, flips := 0, automatic := true, outMin := -90, outMax := 90,
        mem := [] }
    _eepromAdr := 0
    _mmPerRotation := 10
    _oldSetpoint := 0
    _oldVal := 0
    _timeLastMoved := 0
    EEPROM := fun _ => 255 }

/-- The bench axis with a saturated previous output and the close gain in
the controller. -/
def saturatedAxis : Axis :=
  { benchAxis with
    _pidOutput := 45
    _pidController := { benchAxis._pidController with ki := 250 } }

/-- The bench axis whose previous output is exactly 20. -/
def thresholdAxis : Axis := { benchAxis with _pidOutput := 20 }

/-- A controller law used for instances: proportional action only. -/
def benchLaw : PIDLaw := fun c input setpoint _ => (c.mem, c.kp * (setpoint - input) / 100)

/-- The bench axis in test mode. -/
def testingAxis : Axis := { benchAxis with _disableAxisForTesting := true }

/-- A sensor that creeps 150 counts during each of the first two ramp
steps and then stands still: it answers 0 to the first read, 150 to the
next two, and 300 from then on. -/
def creepingSensor : Nat → Int := fun k => if k = 0 then 0 else if k ≤ 2 then 150 else 300

/-- A sensor that stands still at 0. -/
def stillSensor : Nat → Int := fun _ => 0

/-- A sensor that answers 0 to the first two reads and -1 from then on: the
count drops by one between the two reads of the first `abs`. -/
def slippingSensor : Nat → Int := fun k => if k < 2 then 0 else -1

/-- A sensor that moves 500 counts in each leg: it answers 0, 500, 500,
500, 0, 0. -/
def swingingSensor : Nat → Int := fun k => if k = 0 then 0 else if k ≤ 3 then 500 else 0

/-! ## Single-precision arithmetic -/

/-- Modelled from the spec: a `float` (`double` is the same type on the AVR
target), as its IEEE-754 single-precision word: sign bit, 8 exponent bits,
23 fraction bits. -/
structure F32 where
  bits : Nat
  deriving DecidableEq

/-- The sign bit. -/
def F32.sign (x : F32) : Nat := x.bits / 2147483648 % 2

/-- The biased exponent. -/
def F32.expo (x : F32) : Nat := x.bits / 8388608 % 256

/-- The fraction field. -/
def F32.mant (x : F32) : Nat := x.bits % 8388608

/-- The word is a number: zero, subnormal or normal. -/
def F32.isFinite (x : F32) : Prop := x.expo < 255

instance (x : F32) : Decidable x.isFinite := inferInstanceAs (Decidable (x.expo < 255))

/-- The word is an infinity. -/
def F32.isInf (x : F32) : Prop := x.expo = 255 ∧ x.mant = 0

instance (x : F32) : Decidable x.isInf :=
  inferInstanceAs (Decidable (x.expo = 255 ∧ x.mant = 0))

/-- The word is a NaN. -/
def F32.isNaN (x : F32) : Prop := x.expo = 255 ∧ x.mant ≠ 0

instance (x : F32) : Decidable x.isNaN :=
  inferInstanceAs (Decidable (x.expo = 255 ∧ x.mant ≠ 0))

/-- The magnitude in units of `2 ^ -149`, the spacing of the subnormals.
An infinity gets `2 ^ 277`, above every number. -/
def F32.units (x : F32) : Nat :=
  if x.expo = 0 then x.mant else (8388608 + x.mant) * 2 ^ (x.expo - 1)

/-- The value in units of `2 ^ -149`. -/
def F32.signedUnits (x : F32) : Int := if x.sign = 1 then -(x.units : Int) else (x.units : Int)

/-- The value of a number. -/
def F32.toRat (x : F32) : ℚ := (x.signedUnits : ℚ) / 2 ^ 149

/-- The position of the leading bit of `n` (`0` for `n < 2`), found by
halving at most `fuel` times. -/
def F32.leadingBit : Nat → Nat → Nat
  | 0, _ => 0
  | fuel + 1, n => if n < 2 then 0 else F32.leadingBit fuel (n / 2) + 1

/-- The exponent of the leading bit of the positive fraction `n / d`,
biased by 127: `2 ^ (k - 127) ≤ n / d < 2 ^ (k - 126)`. -/
def F32.leadExp (n d : Nat) : Int :=
  let k0 : Int := 127 + (F32.leadingBit n n : Int) - (F32.leadingBit d d : Int)
  if n * 2 ^ (127 - k0).toNat < d * 2 ^ (k0 - 127).toNat then k0 - 1 else k0

/-- Modelled from the spec: the single-precision word nearest to the
positive fraction `n / d` (round to nearest, ties to even; the infinity on
overflow), sign bit clear. -/
def F32.roundBits (n d : Nat) : Nat :=
  -- subnormals share the exponent of the smallest normal number
  let k : Int := if F32.leadExp n d < 1 then 1 else F32.leadExp n d
  let m := roundHalfEven (n * 2 ^ (150 - k).toNat) (d * 2 ^ (k - 150).toNat)
  -- `m < 2 ^ 23` for a subnormal; `m = 2 ^ 24` when rounding carried
  let w := if m < 8388608 then m else (k.toNat - 1) * 8388608 + m
  if 2139095040 ≤ w then 2139095040 else w

/-- Modelled from the spec: the word nearest to `n / d` (round to nearest,
ties to even; an infinity on overflow), negated when `neg`. -/
def F32.round (neg : Bool) (n d : Nat) : F32 :=
  ⟨(if neg then 2147483648 else 0) + (if n = 0 then 0 else F32.roundBits n d)⟩

/-- The quiet NaN. -/
def F32.nan : F32 := ⟨2143289344⟩

/-- The infinities. -/
def F32.inf (neg : Bool) : F32 := ⟨(if neg then 2147483648 else 0) + 2139095040⟩

/-- The zeros. -/
def F32.zero (neg : Bool) : F32 := ⟨if neg then 2147483648 else 0⟩

/-- Modelled from the spec: unary minus, which flips the sign bit. -/
def F32.neg (x : F32) : F32 :=
  ⟨if x.sign = 1 then x.bits - 2147483648 else x.bits + 2147483648⟩

/-- Modelled from the spec: the product, rounded. -/
def F32.mul (a b : F32) : F32 :=
  if a.isNaN ∨ b.isNaN then F32.nan
  else if (a.isInf ∧ b.units = 0) ∨ (b.isInf ∧ a.units = 0) then F32.nan
  else if a.isInf ∨ b.isInf then F32.inf (decide (a.sign ≠ b.sign))
  else F32.round (decide (a.sign ≠ b.sign)) (a.units * b.units) (2 ^ 149 * 2 ^ 149)

/-- Modelled from the spec: the quotient, rounded. -/
def F32.div (a b : F32) : F32 :=
  if a.isNaN ∨ b.isNaN then F32.nan
  else if a.isInf then (if b.isInf then F32.nan else F32.inf (decide (a.sign ≠ b.sign)))
  else if b.isInf then F32.zero (decide (a.sign ≠ b.sign))
  else if b.units = 0 then
    (if a.units = 0 then F32.nan else F32.inf (decide (a.sign ≠ b.sign)))
  else F32.round (decide (a.sign ≠ b.sign)) a.units b.units

/-- Modelled from the spec: the difference, rounded.  An exact zero
difference is `+0`, except `(-0) - (+0) = -0`. -/
def F32.sub (a b : F32) : F32 :=
  if a.isNaN ∨ b.isNaN then F32.nan
  else if a.isInf then (if b.isInf ∧ a.sign = b.sign then F32.nan else a)
  else if b.isInf then b.neg
  else
    let d : Int := a.signedUnits - b.signedUnits
    if d = 0 then F32.zero (decide (a.sign = 1 ∧ b.sign = 0))
    else F32.round (decide (d < 0)) d.natAbs (2 ^ 149)

/-- Modelled from the spec: the comparison `a < b`, false when either is a
NaN; the two zeros are equal. -/
def F32.lt (a b : F32) : Prop := ¬ a.isNaN ∧ ¬ b.isNaN ∧ a.signedUnits < b.signedUnits

instance (a b : F32) : Decidable (F32.lt a b) :=
  inferInstanceAs (Decidable (¬ a.isNaN ∧ ¬ b.isNaN ∧ a.signedUnits < b.signedUnits))

/-- Modelled from the spec: the comparison `a == b`. -/
def F32.eq (a b : F32) : Prop := ¬ a.isNaN ∧ ¬ b.isNaN ∧ a.signedUnits = b.signedUnits

instance (a b : F32) : Decidable (F32.eq a b) :=
  inferInstanceAs (Decidable (¬ a.isNaN ∧ ¬ b.isNaN ∧ a.signedUnits = b.signedUnits))

/-- Modelled from the spec: the conversion of a `long` (or `int`) to
`float`, rounded. -/
def F32.ofInt (n : Int) : F32 := F32.round (decide (n < 0)) n.natAbs 1

/-- Modelled from the spec: the conversion of a `float` to `long`, which
discards the fractional part.  C++ leaves the conversion undefined when the
truncated value does not fit the 32-bit type (or the operand is an infinity
or a NaN): `none`. -/
def F32.toLong (x : F32) : Option Int :=
  if x.isFinite then
    let t : Int := if x.sign = 1 then -((x.units / 2 ^ 149 : Nat) : Int)
      else ((x.units / 2 ^ 149 : Nat) : Int)
    if -2147483648 ≤ t ∧ t ≤ 2147483647 then some t else none
  else none

/-- The `abs` of `Arduino.h` on a `float`: `((x)>0?(x):-(x))`. -/
def F32.absMacro (x : F32) : F32 := if F32.lt (F32.ofInt 0) x then x else x.neg

/-- The `float` whose bytes, least significant first, are `b`. -/
def F32.ofBytes (b : Float4) : F32 := ⟨float4Bits b⟩

/-- The bytes of a `float`, least significant first. -/
def F32.toBytes (x : F32) : Float4 := bitsFloat4 x.bits

/-- The constant `NUMBER_OF_ENCODER_STEPS`, `8148.0`. -/
def F32.encoderSteps : F32 := F32.round false 8148 1

/-- The literal `.02`. -/
def F32.lit02 : F32 := F32.round false 2 100

/-- The literal `.06`. -/
def F32.lit06 : F32 := F32.round false 6 100

/-- The word `r` is a number within the rounding error of the exact
result `q`: half a unit in the last place, which is at most
`|q| / 2 ^ 24` for a normal result and `2 ^ -150` for a subnormal one, and
nothing when `q` is itself a subnormal number. -/
def F32.isRounded (r : F32) (q : ℚ) : Prop :=
  r.isFinite ∧ r.bits < 4294967296 ∧
    (1 / 2 ^ 126 ≤ |q| → |r.toRat - q| ≤ |q| / 2 ^ 24) ∧
    (|q| ≤ 1 / 2 ^ 126 → |r.toRat - q| ≤ 1 / 2 ^ 150) ∧
    (∀ j : Nat, |q| * 2 ^ 149 = j → |q| < 1 / 2 ^ 126 → r.toRat = q)

/-! ## The axis in single precision

The operations whose results depend on the rounding of `float` arithmetic,
embedded a second time with every `float` held as its 32-bit word and every
arithmetic operation rounded. -/

/-- Modelled from the spec: the sum, rounded: `a + b` is `a - (-b)`. -/
def F32.add (a b : F32) : F32 := F32.sub a b.neg

/-- Modelled from the spec: a call received by the actuation adapter
(`GearMotor`, not among the sources), the drive command a `float`. -/
inductive MotorCall32
  | setupMotor
  | write (cmd : F32)
  | attach
  | detach
  deriving DecidableEq

/-- Modelled from the spec: the actuation adapter (`GearMotor`, not among
the sources) as `axis.cpp` sees it: the flag answered by `attached()` and
the calls received so far, most recent first. -/
structure GearMotor32 where
  isAttached : Bool
  calls : List MotorCall32

/-- Modelled from the spec: the call `_motor.attached()`. -/
def GearMotor32.attached (m : GearMotor32) : Bool := m.isAttached

/-- Modelled from the spec: the call `_motor.detach()`, which disables the
actuator. -/
def GearMotor32.detach (m : GearMotor32) : GearMotor32 :=
  { isAttached := false, calls := MotorCall32.detach :: m.calls }

/-- Modelled from the spec: the call `_motor.write(cmd)`. -/
def GearMotor32.write (m : GearMotor32) (cmd : F32) : GearMotor32 :=
  { m with calls := MotorCall32.write cmd :: m.calls }

/-- Modelled from the spec: the call
`_motor.setupMotor(pwmPin, directionPin1, directionPin2)`. -/
def GearMotor32.setupMotor (m : GearMotor32) : GearMotor32 :=
  { m with calls := MotorCall32.setupMotor :: m.calls }

/-- Modelled from the spec: the feedback controller (`PID`, not among the
sources) as `axis.cpp` sees it, with single-precision tunings: the tunings
last handed to it, the number of `FlipIntegrator` calls it received and its
private memory. -/
structure PID32 where
  kp : F32
  ki : F32
  kd : F32
  flips : Nat
  mem : List F32

/-- Modelled from the spec: the call `_pidController.SetTunings(Kp, Ki, Kd)`,
which puts the three gains in force. -/
def PID32.SetTunings (p : PID32) (Kp Ki Kd : F32) : PID32 :=
  { p with kp := Kp, ki := Ki, kd := Kd }

/-- Modelled from the spec: the call `_pidController.FlipIntegrator()`, the
flush of the integrator accumulator; the flushes are counted. -/
def PID32.FlipIntegrator (p : PID32) : PID32 := { p with flips := p.flips + 1 }

/-- Modelled from the spec: what one `_pidController.Compute()` does, given
the controller, the input, the setpoint and the previous output: the
controller's new private memory and the new output. -/
abbrev PIDLaw32 := PID32 → F32 → F32 → F32 → List F32 × F32

/-- The members of `Axis` that `axis.cpp` uses, every `float` and `double`
as a single-precision word, together with the global store `EEPROM`.  The
sensor `_encoder` is its cumulative count, a `long`. -/
structure Axis32 where
  _motor : GearMotor32
  _axisTarget : F32
  _direction : Int
  _encoder : Int
  _axisName : String
  _disableAxisForTesting : Bool
  _pidSetpoint : F32
  _pidInput : F32
  _pidOutput : F32
  _Kp : F32
  _KiClose : F32
  _KiMid : F32
  _KiFar : F32
  _Kd : F32
  _pidController : PID32
  _eepromAdr : Nat
  _mmPerRotation : F32
  _oldSetpoint : F32
  _oldVal : F32
  _timeLastMoved : Nat
  EEPROM : EEPROMClass

/-- Source function `Axis::_readFloat`: the loop, then `return data.f`. -/
def Axis32._readFloat (e : EEPROMClass) (addr : Nat) : F32 :=
  F32.ofBytes (Axis.readData e addr)

/-- Source function `Axis::_writeFloat`: `data.f = x`, then the loop. -/
def Axis32._writeFloat (e : EEPROMClass) (addr : Nat) (x : F32) : EEPROMClass :=
  Axis.writeData e addr x.toBytes

/-- Source function `Axis::set`.  The argument of `_encoder.write` is
converted to the sensor's `long`; where C++ leaves that conversion undefined
the call has no result. -/
def Axis32.set (s : Axis32) (newAxisPosition : F32) : Option Axis32 :=
  match (F32.div (F32.mul newAxisPosition F32.encoderSteps) s._mmPerRotation).toLong with
  | some count =>
    some { s with
      _axisTarget := F32.div newAxisPosition s._mmPerRotation
      _encoder := count }
  | none => none

/-- The members after the initialisations of the constructor `Axis::Axis`
and before its `if`: `mem` holds the members as they are before the
constructor body, the freshly built sensor counts from zero. -/
def Axis32.constructMembers (mem : Axis32) (store : EEPROMClass) (axisName : String)
    (eepromAdr : Nat) (mmPerRotation : F32) : Axis32 :=
  { mem with
    EEPROM := store
    _encoder := 0
    _motor := mem._motor.setupMotor
    _pidController := mem._pidController.SetTunings mem._Kp mem._KiFar mem._Kd
    _direction := FORWARD
    _axisName := axisName
    _axisTarget := F32.zero false
    _eepromAdr := eepromAdr
    _mmPerRotation := mmPerRotation }

/-- The constructor `Axis::Axis`. -/
def Axis32.construct (mem : Axis32) (store : EEPROMClass) (axisName : String) (eepromAdr : Nat)
    (mmPerRotation : F32) : Option Axis32 :=
  let s := Axis32.constructMembers mem store axisName eepromAdr mmPerRotation
  if s.EEPROM.read EEPROMFLAG = EEPROMVALIDDATA then
    s.set (Axis32._readFloat s.EEPROM s._eepromAdr)
  else some s

/-- The quantity `abs(((_encoder.read()/NUMBER_OF_ENCODER_STEPS) - _pidSetpoint)*1000)`
that `Axis::write` compares with `acceptableError`. -/
def Axis32.writeError (s : Axis32) : F32 :=
  F32.absMacro
    (F32.mul (F32.sub (F32.div (F32.ofInt s._encoder) F32.encoderSteps) s._pidSetpoint)
      (F32.ofInt 1000))

/-- Source function `Axis::write`: the new state and the returned `int`. -/
def Axis32.write (s : Axis32) (targetPosition : F32) : Axis32 × Int :=
  let s1 := { s with _pidSetpoint := F32.div targetPosition s._mmPerRotation }
  let acceptableError : Int := 20
  if F32.lt s1.writeError (F32.ofInt acceptableError) then (s1, 1)
  else (s1, 0)

/-- Source function `Axis::read`. -/
def Axis32.read (s : Axis32) : F32 :=
  if s._motor.attached then
    F32.mul (F32.div (F32.ofInt s._encoder) F32.encoderSteps) s._mmPerRotation
  else F32.mul (F32.div (F32.ofInt s._encoder) F32.encoderSteps) s._mmPerRotation

/-- Source function `Axis::target`. -/
def Axis32.target (s : Axis32) : F32 := F32.mul s._axisTarget s._mmPerRotation

/-- Source function `Axis::setpoint`. -/
def Axis32.setpoint (s : Axis32) : F32 := F32.mul s._pidSetpoint s._mmPerRotation

/-- Source function `Axis::_sign`. -/
def Axis32._sign (val : F32) : Int :=
  if F32.lt val (F32.ofInt 0) then -1 else if F32.eq val (F32.ofInt 0) then 0 else 1

/-- Source function `Axis::_change`: the new state and the returned truth value. -/
def Axis32._change (s : Axis32) (val : F32) : Axis32 × Bool :=
  if ¬ F32.eq val s._oldVal then ({ s with _oldVal := val }, true)
  else ({ s with _oldVal := val }, false)

/-- The part of `Axis::computePID` between the test-mode check and the call
of `_pidController.Compute()`: direction-change detection, anti-windup gain
selection and the refresh of the controller input. -/
def Axis32.computePIDPrepare (s : Axis32) : Axis32 :=
  let r := s._change (F32.ofInt (Axis32._sign (F32.sub s._oldSetpoint s._pidSetpoint)))
  let s1 := if r.2 then { r.1 with _pidController := r.1._pidController.FlipIntegrator } else r.1
  let s2 := { s1 with _oldSetpoint := s1._pidSetpoint }
  let s3 :=
    if F32.lt (F32.ofInt 20) (F32.absMacro s2._pidOutput) then
      { s2 with _pidController := s2._pidController.SetTunings s2._Kp s2._KiFar s2._Kd }
    else
      let s4 :=
        if F32.lt (F32.absMacro (F32.sub s2._pidInput s2._pidSetpoint)) F32.lit02 then
          { s2 with _pidController := s2._pidController.SetTunings s2._Kp s2._KiClose s2._Kd }
        else s2
      if F32.lt (F32.absMacro (F32.sub s4._pidInput s4._pidSetpoint)) F32.lit06 then
        { s4 with _pidController := s4._pidController.SetTunings s4._Kp s4._KiMid s4._Kd }
      else s4
  { s3 with _pidInput := F32.div (F32.ofInt s3._encoder) F32.encoderSteps }

/-- Source function `Axis::computePID`, with `law` standing for
`_pidController.Compute()`. -/
def Axis32.computePID (law : PIDLaw32) (s : Axis32) : Axis32 :=
  if s._disableAxisForTesting then s
  else
    let s1 := s.computePIDPrepare
    let r := law s1._pidController s1._pidInput s1._pidSetpoint s1._pidOutput
    let s2 := { s1 with _pidController := { s1._pidController with mem := r.1 }, _pidOutput := r.2 }
    { s2 with _motor := s2._motor.write (F32.add (F32.ofInt 90) s2._pidOutput) }

/-- Source function `Axis::detach`. -/
def Axis32.detach (s : Axis32) : Axis32 :=
  let s1 :=
    if s._motor.attached then
      let e1 := Axis32._writeFloat s.EEPROM s._eepromAdr s.read
      { s with EEPROM := e1.write EEPROMFLAG EEPROMVALIDDATA }
    else s
  { s1 with _motor := s1._motor.detach }

/-- Source function `Axis::endMove`, called when `millis()` answers `now`. -/
def Axis32.endMove (s : Axis32) (now : Nat) (finalTarget : F32) : Axis32 :=
  { s with _timeLastMoved := now, _axisTarget := F32.div finalTarget s._mmPerRotation }

/-! ## Concrete single-precision data -/

/-- An attached axis at rest with `mmPerRotation = 10.0`, store address 0
and an erased store (every byte `255`). -/
def benchAxis32 : Axis32 :=
  { _motor := { isAttached := true, calls := [] }
    _axisTarget := F32.zero false
    _direction := 1
    _encoder := 0
    _axisName := "bench"
    _disableAxisForTesting := false
    _pidSetpoint := F32.zero false
    _pidInput := F32.zero false
    _pidOutput := F32.zero false
    _Kp := F32.ofInt 1000
    _KiClose := F32.ofInt 250
    _KiMid := F32.ofInt 50
    _KiFar := F32.zero false
    _Kd := F32.ofInt 10
    _pidController :=
      { kp := F32.ofInt 1000, ki := F32.zero false, kd := F32.ofInt 10, flips := 0, mem := [] }
    _eepromAdr := 0
    _mmPerRotation := F32.ofInt 10
    _oldSetpoint := F32.zero false
    _oldVal := F32.zero false
    _timeLastMoved := 0
    EEPROM := fun _ => 255 }

/-- The bench axis with the position sensor one count from zero. -/
def oneCountAxis32 : Axis32 := { benchAxis32 with _encoder := 1 }

/-- The bench axis with the position sensor at 31 counts. -/
def creptAxis32 : Axis32 := { benchAxis32 with _encoder := 31 }

/-- The bench axis one rotation from zero (8148 counts), its float kept at
the store addresses 15..18, the last of which is the marker address. -/
def overlapAxis32 : Axis32 := { benchAxis32 with _encoder := 8148, _eepromAdr := 15 }

/-- The bench axis with the mid gain in force and the setpoint one
rotation away from the input. -/
def driftedAxis32 : Axis32 :=
  { benchAxis32 with
    _pidSetpoint := F32.ofInt 1
    _pidController := { benchAxis32._pidController with ki := F32.ofInt 50 } }

/-- The bench axis with the setpoint 0.04 rotation away from the input. -/
def midAxis32 : Axis32 := { benchAxis32 with _pidSetpoint := F32.round false 4 100 }

/-- The bench axis with the setpoint at the `float` `.06`. -/
def edgeAxis32 : Axis32 :=
  { benchAxis32 with
    _pidSetpoint := F32.lit06
    _pidController := { benchAxis32._pidController with ki := F32.ofInt 250 } }

/-- A controller law for the instances: a proportional step. -/
def benchLaw32 : PIDLaw32 := fun c input setpoint _ => (c.mem, F32.mul c.kp (F32.sub setpoint input))

/-! ## Basic facts -/

theorem absMacro_eq_abs (x : ℚ) : absMacro x = |x| := by
  unfold absMacro
  split_ifs with h
  · exact (abs_of_pos h).symm
  · exact (abs_of_nonpos (not_lt.mp h)).symm

theorem write_fst (s : Axis) (t : ℚ) :
    (s.write t).1 = { s with _pidSetpoint := t / s._mmPerRotation } := by
  simp only [Axis.write]
  split_ifs <;> rfl

theorem detach_of_attached (s : Axis) (h : s._motor.attached = true) :
    s.detach =
      { s with
        EEPROM := (Axis.writeData s.EEPROM s._eepromAdr (floatToBytes s.read)).write
          EEPROMFLAG EEPROMVALIDDATA
        _motor := s._motor.detach } := by
  simp [Axis.detach, Axis._writeFloat, h]

theorem detach_of_not_attached (s : Axis) (h : s._motor.attached = false) :
    s.detach = { s with _motor := s._motor.detach } := by
  simp [Axis.detach, h]

theorem hold_eq (s : Axis) (now : Nat) :
    s.hold now =
      if elapsedMillis now s._timeLastMoved < 2000 then
        { s with _pidSetpoint := s._axisTarget * s._mmPerRotation / s._mmPerRotation }
      else s.detach := by
  simp only [Axis.hold, write_fst]

theorem boostLoop_eq (cmd : Nat → ℚ) (o : Int) (sensor : Nat → Int) :
    ∀ (fuel i k : Nat) (t : Axis × List Axis),
      (Axis.boostLoop cmd o sensor fuel i k t).1
          = (Axis.boostRamp cmd o sensor fuel i k t.1._motor).1 ∧
        (Axis.boostLoop cmd o sensor fuel i k t).2.1
          = (Axis.boostRamp cmd o sensor fuel i k t.1._motor).2.1 ∧
        (Axis.boostLoop cmd o sensor fuel i k t).2.2.1
          = { t.1 with _motor := (Axis.boostRamp cmd o sensor fuel i k t.1._motor).2.2 } := by
  intro fuel
  induction fuel with
  | zero => intro i k t; exact ⟨rfl, rfl, rfl⟩
  | succ fuel ih =>
    intro i k t
    by_cases hlt : i < 35
    · by_cases hd : absOfReads o (sensor k) (sensor (k + 1)) > 200
      · simp only [Axis.boostLoop, Axis.boostRamp, hlt, hd, if_true]
        exact ⟨trivial, trivial, rfl⟩
      · simp only [Axis.boostLoop, Axis.boostRamp, hlt, hd, if_true, if_false]
        exact ih (i + 1) (k + 2)
          (Axis.step (fun st => { st with _motor := st._motor.write (cmd i) }) t)
    · simp only [Axis.boostLoop, Axis.boostRamp, hlt, if_false]
      exact ⟨trivial, trivial, trivial⟩

theorem computeBoost_eq (s : Axis) (sensor : Nat → Int) :
    s.computeBoost sensor =
      { ({ s with _disableAxisForTesting := true } : Axis).attach with
        _motor := ((s.negRamp sensor).2.2.write 90).setBoost (s.negBoost sensor)
          (s.posBoost sensor)
        _disableAxisForTesting := false
        _encoder := sensor ((s.negRamp sensor).2.1 - 1) } := by
  obtain ⟨p1, p2, p3⟩ := boostLoop_eq (fun i => 90 + (i : ℚ)) (sensor 0) sensor 35 0 1
    (Axis.step Axis.attach
      (Axis.step (fun st => { st with _disableAxisForTesting := true }) (s, [])))
  obtain ⟨n1, n2, n3⟩ := boostLoop_eq (fun i => 90 - (i : ℚ))
    (sensor (Axis.boostLoop (fun i => 90 + (i : ℚ)) (sensor 0) sensor 35 0 1
      (Axis.step Axis.attach
        (Axis.step (fun st => { st with _disableAxisForTesting := true }) (s, [])))).2.1)
    sensor 35 0
    ((Axis.boostLoop (fun i => 90 + (i : ℚ)) (sensor 0) sensor 35 0 1
      (Axis.step Axis.attach
        (Axis.step (fun st => { st with _disableAxisForTesting := true }) (s, [])))).2.1 + 1)
    (Axis.step (fun st => { st with _motor := st._motor.write 90 })
      (Axis.boostLoop (fun i => 90 + (i : ℚ)) (sensor 0) sensor 35 0 1
        (Axis.step Axis.attach
          (Axis.step (fun st => { st with _disableAxisForTesting := true }) (s, [])))).2.2)
  simp only [Axis.step] at p1 p2 p3 n1 n2 n3
  rw [p2, p3] at n1 n2 n3
  simp only [Axis.computeBoost, Axis.computeBoostTraced, Axis.step, n1, n2, n3, p1, p2, p3]
  rfl

/-! ## C4: a saturated previous output forces the far gain -/

theorem computePIDPrepare_ki (s : Axis) :
    s.computePIDPrepare._pidController.ki =
      if 20 < |s._pidOutput| then s._KiFar
      else if |s._pidInput - s._pidSetpoint| < 6 / 100 then s._KiMid
      else s._pidController.ki := by
  simp only [Axis.computePIDPrepare, Axis._change, absMacro_eq_abs, gt_iff_lt]
  by_cases hc : (Axis._sign (s._oldSetpoint - s._pidSetpoint) : ℚ) ≠ s._oldVal <;>
  by_cases h20 : 20 < |s._pidOutput| <;>
  by_cases h2 : |s._pidInput - s._pidSetpoint| < 2 / 100 <;>
  by_cases h6 : |s._pidInput - s._pidSetpoint| < 6 / 100 <;>
  simp [hc, h20, h2, h6, PID.SetTunings, PID.FlipIntegrator] <;>
  linarith

theorem computePID_ki (law : PIDLaw) (s : Axis) (h : s._disableAxisForTesting = false) :
    (s.computePID law)._pidController.ki = s.computePIDPrepare._pidController.ki := by
  simp [Axis.computePID, h, GearMotor.write]

/-- C4. On a non-test-mode tick whose previous output has magnitude above
20, the integral gain handed to the PID iteration (and left in the
controller by the tick) is the far gain, whatever the error and whatever
gain was in force; the comparison is strict: when the magnitude is exactly
20 the far gain is not forced, the gain is the mid gain if the error is
below 0.06 and otherwise the gain already in force. -/
theorem computePID_saturation_forces_far (law : PIDLaw) (s : Axis)
    (htest : s._disableAxisForTesting = false) :
    (20 < |s._pidOutput| →
        s.computePIDPrepare._pidController.ki = s._KiFar ∧
        (s.computePID law)._pidController.ki = s._KiFar) ∧
      (|s._pidOutput| = 20 → |s._pidInput - s._pidSetpoint| < 6 / 100 →
        s.computePIDPrepare._pidController.ki = s._KiMid ∧
        (s.computePID law)._pidController.ki = s._KiMid) ∧
      (|s._pidOutput| = 20 → ¬ |s._pidInput - s._pidSetpoint| < 6 / 100 →
        s.computePIDPrepare._pidController.ki = s._pidController.ki ∧
        (s.computePID law)._pidController.ki = s._pidController.ki) := by
  rw [computePID_ki law s htest, computePIDPrepare_ki]
  refine ⟨fun h => ?_, fun h h6 => ?_, fun h h6 => ?_⟩
  · simp [h]
  · simp [h, h6]
  · simp [h, h6]

/-- Instances of `computePID_saturation_forces_far`: the saturated axis
(previous output 45, error 0, close gain 250 in force) ends with the far
gain 0; the threshold axis (previous output exactly 20, error 0) ends with
the mid gain 50. -/
theorem computePID_saturation_forces_far_witness :
    saturatedAxis._disableAxisForTesting = false ∧ 20 < |saturatedAxis._pidOutput| ∧
      |saturatedAxis._pidInput - saturatedAxis._pidSetpoint| < 2 / 100 ∧
      saturatedAxis._pidController.ki = 250 ∧
      (saturatedAxis.computePID benchLaw)._pidController.ki = 0 ∧
      thresholdAxis._disableAxisForTesting = false ∧ |thresholdAxis._pidOutput| = 20 ∧
      (thresholdAxis.computePID benchLaw)._pidController.ki = 50 :=
  ⟨rfl, by norm_num [saturatedAxis, benchAxis], by norm_num [saturatedAxis, benchAxis], rfl,
    ((computePID_saturation_forces_far benchLaw saturatedAxis rfl).1
      (by norm_num [saturatedAxis, benchAxis])).2,
    rfl, by norm_num [thresholdAxis, benchAxis],
    ((computePID_saturation_forces_far benchLaw thresholdAxis rfl).2.1
      (by norm_num [thresholdAxis, benchAxis]) (by norm_num [thresholdAxis, benchAxis])).2⟩

/-! ## C5: integrator flush on a change of the direction sign -/

theorem computePID_flush_step (law : PIDLaw) (s : Axis) (h : s._disableAxisForTesting = false) :
    (s.computePID law)._pidController.flips =
        s._pidController.flips + (if (s.directionSign : ℚ) = s._oldVal then 0 else 1) ∧
      (s.computePID law)._oldVal = s.directionSign ∧
      (s.computePID law)._disableAxisForTesting = false := by
  by_cases hc : (Axis._sign (s._oldSetpoint - s._pidSetpoint) : ℚ) = s._oldVal <;>
  by_cases h20 : 20 < |s._pidOutput| <;>
  by_cases h2 : |s._pidInput - s._pidSetpoint| < 2 / 100 <;>
  by_cases h6 : |s._pidInput - s._pidSetpoint| < 6 / 100 <;>
  simp [Axis.computePID, h, Axis.computePIDPrepare, Axis._change, Axis.directionSign,
    absMacro_eq_abs, GearMotor.write, PID.SetTunings, PID.FlipIntegrator, hc, h20, h2, h6]

theorem computePID_frame (law : PIDLaw) (s : Axis) (h : s._disableAxisForTesting = false) :
    (s.computePID law)._oldSetpoint = s._pidSetpoint ∧
      (s.computePID law)._pidSetpoint = s._pidSetpoint ∧
      (s.computePID law)._mmPerRotation = s._mmPerRotation := by
  by_cases hc : (Axis._sign (s._oldSetpoint - s._pidSetpoint) : ℚ) = s._oldVal <;>
  by_cases h20 : 20 < |s._pidOutput| <;>
  by_cases h2 : |s._pidInput - s._pidSetpoint| < 2 / 100 <;>
  by_cases h6 : |s._pidInput - s._pidSetpoint| < 6 / 100 <;>
  simp [Axis.computePID, h, Axis.computePIDPrepare, Axis._change,
    absMacro_eq_abs, GearMotor.write, PID.SetTunings, PID.FlipIntegrator, hc, h20, h2, h6]

theorem detach_fields (s : Axis) :
    s.detach._disableAxisForTesting = s._disableAxisForTesting ∧
      s.detach._oldVal = s._oldVal ∧ s.detach._oldSetpoint = s._oldSetpoint ∧
      s.detach._pidController = s._pidController ∧
      s.detach._timeLastMoved = s._timeLastMoved := by
  by_cases h : s._motor.attached = true
  · rw [detach_of_attached s h]
    exact ⟨rfl, rfl, rfl, rfl, rfl⟩
  · rw [detach_of_not_attached s (by simpa using h)]
    exact ⟨rfl, rfl, rfl, rfl, rfl⟩

theorem call_between_ticks (law : PIDLaw) (s : Axis) (c : AxisCall) (hc : c.isTick = false)
    (h : s._disableAxisForTesting = false) :
    (s.call law c)._disableAxisForTesting = false ∧
      (s.call law c)._oldVal = s._oldVal ∧
      (s.call law c)._oldSetpoint = s._oldSetpoint ∧
      (s.call law c)._pidController.flips = s._pidController.flips := by
  cases c with
  | initializePID => exact ⟨h, rfl, rfl, rfl⟩
  | write t => rw [Axis.call, write_fst]; exact ⟨h, rfl, rfl, rfl⟩
  | set p => exact ⟨h, rfl, rfl, rfl⟩
  | computePID => exact absurd hc (by decide)
  | detach =>
    obtain ⟨h1, h2, h3, h4, _⟩ := detach_fields s
    exact ⟨h1.trans h, h2, h3, by rw [Axis.call, h4]⟩
  | attach => exact ⟨h, rfl, rfl, rfl⟩
  | hold now =>
    simp only [Axis.call, hold_eq]
    split_ifs
    · exact ⟨h, rfl, rfl, rfl⟩
    · obtain ⟨h1, h2, h3, h4, _⟩ := detach_fields s
      exact ⟨h1.trans h, h2, h3, by rw [h4]⟩
  | endMove now t => exact ⟨h, rfl, rfl, rfl⟩
  | computeSymetryOfMotor speed sensor => exact ⟨rfl, rfl, rfl, rfl⟩
  | computeBoost sensor => rw [Axis.call, computeBoost_eq]; exact ⟨rfl, rfl, rfl, rfl⟩
  | sensorMoves count => exact ⟨h, rfl, rfl, rfl⟩

theorem call_not_testing (law : PIDLaw) (s : Axis) (c : AxisCall)
    (h : s._disableAxisForTesting = false) : (s.call law c)._disableAxisForTesting = false := by
  by_cases hc : c.isTick = false
  · exact (call_between_ticks law s c hc h).1
  · cases c <;> first | exact absurd rfl hc | exact (computePID_flush_step law s h).2.2

theorem calls_not_testing (law : PIDLaw) (cs : List AxisCall) :
    ∀ s : Axis, s._disableAxisForTesting = false →
      (s.calls law cs)._disableAxisForTesting = false := by
  induction cs with
  | nil => intro s h; exact h
  | cons c cs ih =>
    intro s h
    exact ih (s.call law c) (call_not_testing law s c h)

theorem calls_between_ticks (law : PIDLaw) (cs : List AxisCall) :
    ∀ s : Axis, (∀ c ∈ cs, c.isTick = false) → s._disableAxisForTesting = false →
      (s.calls law cs)._oldVal = s._oldVal ∧
      (s.calls law cs)._oldSetpoint = s._oldSetpoint ∧
      (s.calls law cs)._pidController.flips = s._pidController.flips := by
  induction cs with
  | nil => intro s _ _; exact ⟨rfl, rfl, rfl⟩
  | cons c cs ih =>
    intro s hall h
    obtain ⟨h0, h1, h2, h3⟩ := call_between_ticks law s c (hall c (List.mem_cons_self _ _)) h
    obtain ⟨i1, i2, i3⟩ := ih (s.call law c) (fun d hd => hall d (List.mem_cons_of_mem _ hd)) h0
    exact ⟨i1.trans h1, i2.trans h2, i3.trans h3⟩

/-- C5. In every sequence of calls on an axis that starts out of test mode
(any calls `pre`, a tick, any calls `mid` that are not ticks, a tick): a
tick records the direction sign `sign(previousSetpoint - setpoint)` it
computed, the record is still there when the next tick starts, and that
next tick increases the count of integrator flushes by exactly one if the
sign it computes differs from the recorded one and leaves the count as it
is if the two signs are equal; nothing between the two ticks flushes. -/
theorem computePID_flush_iff_sign_change (law : PIDLaw) (s : Axis) (pre mid : List AxisCall)
    (h : s._disableAxisForTesting = false) (hmid : ∀ c ∈ mid, c.isTick = false) :
    ((s.calls law pre).computePID law)._oldVal = (s.calls law pre).directionSign ∧
      ((((s.calls law pre).computePID law).calls law mid)._oldVal
        = (s.calls law pre).directionSign) ∧
      ((((s.calls law pre).computePID law).calls law mid)._pidController.flips
        = ((s.calls law pre).computePID law)._pidController.flips) ∧
      ((((((s.calls law pre).computePID law).calls law mid).computePID law)._pidController.flips
          = (((s.calls law pre).computePID law).calls law mid)._pidController.flips + 1)
        ↔ (((s.calls law pre).computePID law).calls law mid).directionSign
            ≠ (s.calls law pre).directionSign) ∧
      ((((((s.calls law pre).computePID law).calls law mid).computePID law)._pidController.flips
          = (((s.calls law pre).computePID law).calls law mid)._pidController.flips)
        ↔ (((s.calls law pre).computePID law).calls law mid).directionSign
            = (s.calls law pre).directionSign) := by
  have ha := calls_not_testing law pre s h
  obtain ⟨_, hb2, hb3⟩ := computePID_flush_step law (s.calls law pre) ha
  obtain ⟨hc1, _, hc3⟩ := calls_between_ticks law mid ((s.calls law pre).computePID law) hmid hb3
  have hc := calls_not_testing law mid _ hb3
  obtain ⟨hd1, _, _⟩ := computePID_flush_step law
    (((s.calls law pre).computePID law).calls law mid) hc
  rw [hc1, hb2] at hd1
  refine ⟨hb2, hc1.trans hb2, hc3, ?_, ?_⟩
  · rw [hd1]
    by_cases he : (((s.calls law pre).computePID law).calls law mid).directionSign
        = (s.calls law pre).directionSign
    · simp [he]
    · have hq : ¬ (((((s.calls law pre).computePID law).calls law mid).directionSign : Int) : ℚ)
          = (((s.calls law pre).directionSign : Int) : ℚ) := fun e => he (Int.cast_injective e)
      simp [he, hq]
  · rw [hd1]
    by_cases he : (((s.calls law pre).computePID law).calls law mid).directionSign
        = (s.calls law pre).directionSign
    · simp [he]
    · have hq : ¬ (((((s.calls law pre).computePID law).calls law mid).directionSign : Int) : ℚ)
          = (((s.calls law pre).directionSign : Int) : ℚ) := fun e => he (Int.cast_injective e)
      simp [he, hq]

/-- An instance of `computePID_flush_iff_sign_change` on the bench axis:
`write(10)`, a tick, `write(0)`, a tick; the commanded direction reverses
(sign `-1`, then `1`) and the second tick flushes once. -/
theorem computePID_flush_iff_sign_change_witness :
    benchAxis._disableAxisForTesting = false ∧
      (∀ c ∈ [AxisCall.write 0], c.isTick = false) ∧
      ((((benchAxis.calls benchLaw [AxisCall.write 10]).computePID benchLaw).calls benchLaw
          [AxisCall.write 0]).computePID benchLaw)._pidController.flips
        = (((benchAxis.calls benchLaw [AxisCall.write 10]).computePID benchLaw).calls benchLaw
          [AxisCall.write 0])._pidController.flips + 1 := by
  have hmid : ∀ c ∈ [AxisCall.write 0], c.isTick = false := by
    intro c hc
    rw [List.mem_singleton] at hc
    rw [hc]; rfl
  refine ⟨rfl, hmid, ((computePID_flush_iff_sign_change benchLaw benchAxis [AxisCall.write 10]
    [AxisCall.write 0] rfl hmid).2.2.2.1).2 ?_⟩
  have ha : benchAxis.calls benchLaw [AxisCall.write 10] = { benchAxis with _pidSetpoint := 1 } := by
    simp only [Axis.calls, List.foldl, Axis.call, write_fst]
    norm_num [benchAxis]
  have h1 : (benchAxis.calls benchLaw [AxisCall.write 10]).directionSign = -1 := by
    rw [ha]
    simp only [Axis.directionSign, Axis._sign]
    norm_num [benchAxis]
  obtain ⟨ho, _, hm⟩ := computePID_frame benchLaw (benchAxis.calls benchLaw [AxisCall.write 10])
    (by rw [ha]; rfl)
  have h2 : (((benchAxis.calls benchLaw [AxisCall.write 10]).computePID benchLaw).calls benchLaw
      [AxisCall.write 0]).directionSign = 1 := by
    simp only [Axis.calls, List.foldl, Axis.call, write_fst, Axis.directionSign] at ho hm ⊢
    rw [ho, Axis._sign]
    norm_num [benchAxis]
  rw [h1, h2]
  decide

/-! ## C8: `_writeFloat` and `_readFloat` -/

theorem writeData_unfold (e : EEPROMClass) (addr : Nat) (x : Float4) :
    Axis.writeData e addr x =
      (((e.write (addrPlus addr 0) (x 0)).write (addrPlus addr 1) (x 1)).write
        (addrPlus addr 2) (x 2)).write (addrPlus addr 3) (x 3) := by
  rfl

theorem addrPlus_injective (addr : Nat) (i j : Fin 4) (h : addrPlus addr i.val = addrPlus addr j.val) :
    i = j := by
  unfold addrPlus at h
  have hi := i.isLt
  have hj := j.isLt
  apply Fin.ext
  omega

theorem writeData_at (e : EEPROMClass) (addr : Nat) (x : Float4) (i : Fin 4) :
    Axis.writeData e addr x (addrPlus addr i.val) = x i := by
  have h01 : addrPlus addr 0 ≠ addrPlus addr 1 := fun h => by
    have := addrPlus_injective addr 0 1 h; exact absurd this (by decide)
  have h02 : addrPlus addr 0 ≠ addrPlus addr 2 := fun h => by
    have := addrPlus_injective addr 0 2 h; exact absurd this (by decide)
  have h03 : addrPlus addr 0 ≠ addrPlus addr 3 := fun h => by
    have := addrPlus_injective addr 0 3 h; exact absurd this (by decide)
  have h12 : addrPlus addr 1 ≠ addrPlus addr 2 := fun h => by
    have := addrPlus_injective addr 1 2 h; exact absurd this (by decide)
  have h13 : addrPlus addr 1 ≠ addrPlus addr 3 := fun h => by
    have := addrPlus_injective addr 1 3 h; exact absurd this (by decide)
  have h23 : addrPlus addr 2 ≠ addrPlus addr 3 := fun h => by
    have := addrPlus_injective addr 2 3 h; exact absurd this (by decide)
  rw [writeData_unfold]
  fin_cases i <;> simp [EEPROMClass.write, h01, h02, h03, h12, h13, h23]

theorem writeData_other (e : EEPROMClass) (addr : Nat) (x : Float4) (a : Nat)
    (h : ∀ i : Fin 4, a ≠ addrPlus addr i.val) :
    Axis.writeData e addr x a = e a := by
  have h0 : a ≠ addrPlus addr 0 := h 0
  have h1 : a ≠ addrPlus addr 1 := h 1
  have h2 : a ≠ addrPlus addr 2 := h 2
  have h3 : a ≠ addrPlus addr 3 := h 3
  rw [writeData_unfold]
  simp only [EEPROMClass.write, if_neg h0, if_neg h1, if_neg h2, if_neg h3]

/-- C8. For every store, address `a` and byte quadruple `x` (least
significant byte first), the loop of `_writeFloat` leaves byte `x i` at
address `a + i` (an `unsigned int` sum) for `i = 0..3` and changes no other
address, and the loop of `_readFloat` on the result gives `x` back; so for
every value `v`, `_writeFloat(a, v)` stores the four bytes of the float
holding `v`, and `_readFloat(a)` then returns that float (`v` itself when
`v` is a float value). -/
theorem readFloat_writeFloat (e : EEPROMClass) (a : Nat) (x : Float4) :
    (∀ i : Fin 4, Axis.writeData e a x (addrPlus a i.val) = x i) ∧
      (a + 3 < 65536 → ∀ i : Fin 4, Axis.writeData e a x (a + i.val) = x i) ∧
      (∀ b : Nat, (∀ i : Fin 4, b ≠ addrPlus a i.val) → Axis.writeData e a x b = e b) ∧
      Axis.readData (Axis.writeData e a x) a = x ∧
      (∀ v : ℚ,
        (∀ i : Fin 4, Axis._writeFloat e a v (addrPlus a i.val) = floatToBytes v i) ∧
        (∀ i : Fin 4, (floatToBytes v i).val = ratToBits v / 256 ^ i.val % 256) ∧
        (∀ b : Nat, (∀ i : Fin 4, b ≠ addrPlus a i.val) → Axis._writeFloat e a v b = e b) ∧
        Axis._readFloat (Axis._writeFloat e a v) a = bytesToFloat (floatToBytes v) ∧
        (bytesToFloat (floatToBytes v) = v → Axis._readFloat (Axis._writeFloat e a v) a = v)) := by
  have hread : ∀ y : Float4, Axis.readData (Axis.writeData e a y) a = y := by
    intro y
    funext i
    exact writeData_at e a y i
  have hfloat : ∀ v : ℚ, Axis._readFloat (Axis._writeFloat e a v) a
      = bytesToFloat (floatToBytes v) := by
    intro v
    rw [Axis._readFloat, Axis._writeFloat, hread]
  refine ⟨writeData_at e a x, ?_, writeData_other e a x, hread x, fun v =>
    ⟨writeData_at e a _, ?_, writeData_other e a _, hfloat v, fun hv => (hfloat v).trans hv⟩⟩
  · intro hlt i
    have hi := i.isLt
    have := writeData_at e a x i
    rwa [addrPlus, Nat.mod_eq_of_lt (by omega)] at this
  · intro i
    simp [floatToBytes, bitsFloat4, Fin.ofNat]

/-! ## C6: what `detach` writes to the store -/

/-- C6. For every axis state: `detach()` on a detached actuator leaves the
store unchanged; `detach()` on an attached actuator leaves the marker 56 at
address 18, leaves byte `i` of the float `read()` at address
`eepromAdr + i` (`i = 0..3`, where that address is not 18), and changes no
other address; in both cases the actuator ends detached. The constructor,
`initializePID`, `write`, `set`, `computePID`, `attach`, `endMove`,
`computeSymetryOfMotor`, `computeBoost`, and `hold` before its timeout
leave the store as it is. -/
theorem detach_store_frame (s : Axis) :
    (s._motor.attached = false → s.detach.EEPROM = s.EEPROM) ∧
      (s._motor.attached = true →
        s.detach.EEPROM EEPROMFLAG = EEPROMVALIDDATA ∧
        (∀ i : Fin 4, addrPlus s._eepromAdr i.val ≠ EEPROMFLAG →
          s.detach.EEPROM (addrPlus s._eepromAdr i.val) = floatToBytes s.read i) ∧
        (∀ a : Nat, a ≠ EEPROMFLAG → (∀ i : Fin 4, a ≠ addrPlus s._eepromAdr i.val) →
          s.detach.EEPROM a = s.EEPROM a)) ∧
      s.detach._motor.attached = false ∧
      (∀ (store : EEPROMClass) (axisName : String) (eepromAdr : Nat) (mmPerRotation : ℚ),
        (Axis.construct s store axisName eepromAdr mmPerRotation).EEPROM = store) ∧
      s.initializePID.EEPROM = s.EEPROM ∧
      (∀ t : ℚ, (s.write t).1.EEPROM = s.EEPROM) ∧
      (∀ p : ℚ, (s.set p).EEPROM = s.EEPROM) ∧
      (∀ law : PIDLaw, (s.computePID law).EEPROM = s.EEPROM) ∧
      s.attach.EEPROM = s.EEPROM ∧
      (∀ (now : Nat) (t : ℚ), (s.endMove now t).EEPROM = s.EEPROM) ∧
      (∀ (speed : Int) (sensor : Nat → Int),
        (s.computeSymetryOfMotor speed sensor).1.EEPROM = s.EEPROM) ∧
      (∀ sensor : Nat → Int, (s.computeBoost sensor).EEPROM = s.EEPROM) ∧
      (∀ now : Nat, elapsedMillis now s._timeLastMoved < 2000 →
        (s.hold now).EEPROM = s.EEPROM) := by
  refine ⟨fun h => ?_, fun h => ⟨?_, ?_, ?_⟩, ?_, ?_, rfl, ?_, fun _ => rfl, ?_, rfl,
    fun _ _ => rfl, fun _ _ => rfl, fun sensor => by rw [computeBoost_eq]; rfl, ?_⟩
  · rw [detach_of_not_attached s h]
  · rw [detach_of_attached s h]
    simp [EEPROMClass.write]
  · intro i hi
    rw [detach_of_attached s h]
    simp only [EEPROMClass.write, if_neg hi]
    exact writeData_at _ _ _ i
  · intro a ha hother
    rw [detach_of_attached s h]
    simp only [EEPROMClass.write, if_neg ha]
    exact writeData_other _ _ _ a hother
  · simp [Axis.detach, GearMotor.detach, GearMotor.attached]
  · intro store axisName eepromAdr mmPerRotation
    simp only [Axis.construct]
    split_ifs <;> rfl
  · intro t
    rw [write_fst]
  · intro law
    by_cases ht : s._disableAxisForTesting = true
    · simp [Axis.computePID, ht]
    · by_cases hc : (Axis._sign (s._oldSetpoint - s._pidSetpoint) : ℚ) = s._oldVal <;>
      by_cases h20 : 20 < |s._pidOutput| <;>
      by_cases h2 : |s._pidInput - s._pidSetpoint| < 2 / 100 <;>
      by_cases h6 : |s._pidInput - s._pidSetpoint| < 6 / 100 <;>
      simp [Axis.computePID, ht, Axis.computePIDPrepare, Axis._change,
        absMacro_eq_abs, GearMotor.write, PID.SetTunings, PID.FlipIntegrator, hc, h20, h2, h6]
  · intro now hlt
    rw [hold_eq, if_pos hlt]

/-- An instance of `detach_store_frame` on the bench axis (attached, store
address 0, erased store): after `detach()` address 18 holds 56 and address
100 still holds 255. -/
theorem detach_store_frame_witness :
    benchAxis._motor.attached = true ∧ benchAxis.detach.EEPROM 18 = 56 ∧
      benchAxis.detach.EEPROM 100 = 255 := by
  obtain ⟨h18, _, hother⟩ := (detach_store_frame benchAxis).2.1 rfl
  refine ⟨rfl, h18, ?_⟩
  have := hother 100 (by decide) (by
    intro i
    fin_cases i <;> simp [addrPlus, benchAxis])
  rw [this]
  rfl

/-! ## C9: `hold` before and after the timeout -/

theorem holds_of_detached (nows : List Nat) :
    ∀ t : Axis, t._motor.isAttached = false →
      (∀ now ∈ nows, 2000 ≤ elapsedMillis now t._timeLastMoved) →
      t.holds nows =
        { t with
          _motor :=
            { isAttached := false
              calls := List.replicate nows.length MotorCall.detach ++ t._motor.calls } } := by
  induction nows with
  | nil =>
    intro t hdet _
    obtain ⟨m, _⟩ := t
    obtain ⟨a, c⟩ := m
    simp only at hdet
    subst hdet
    rfl
  | cons now rest ih =>
    intro t hdet hall
    have hnow : 2000 ≤ elapsedMillis now t._timeLastMoved := hall now (List.mem_cons_self _ _)
    have hstep : t.hold now = { t with _motor := t._motor.detach } := by
      rw [hold_eq, if_neg (not_lt.mpr hnow)]
      exact detach_of_not_attached t hdet
    have hrest : ∀ n ∈ rest, 2000 ≤ elapsedMillis n
        ({ t with _motor := t._motor.detach } : Axis)._timeLastMoved :=
      fun n hn => hall n (List.mem_cons_of_mem _ hn)
    rw [Axis.holds, hstep, ih _ rfl hrest]
    simp [GearMotor.detach, List.replicate_succ']

theorem holds_after_timeout_eq (s : Axis) (now : Nat) (rest : List Nat)
    (hall : ∀ n ∈ now :: rest, 2000 ≤ elapsedMillis n s._timeLastMoved) :
    s.holds (now :: rest) =
      { s.detach with
        _motor :=
          { isAttached := false
            calls := List.replicate (rest.length + 1) MotorCall.detach ++ s._motor.calls } } := by
  have hnow : 2000 ≤ elapsedMillis now s._timeLastMoved := hall now (List.mem_cons_self _ _)
  have hstep : s.hold now = s.detach := by
    rw [hold_eq, if_neg (not_lt.mpr hnow)]
  have htime : s.detach._timeLastMoved = s._timeLastMoved := by
    simp only [Axis.detach]; split_ifs <;> rfl
  have hcalls : s.detach._motor.calls = MotorCall.detach :: s._motor.calls := by
    simp only [Axis.detach, GearMotor.detach]; split_ifs <;> rfl
  have hdet : s.detach._motor.isAttached = false := by
    simp only [Axis.detach, GearMotor.detach]
  have hrest : ∀ n ∈ rest, 2000 ≤ elapsedMillis n s.detach._timeLastMoved := by
    intro n hn
    rw [htime]
    exact hall n (List.mem_cons_of_mem _ hn)
  rw [Axis.holds, hstep, holds_of_detached rest s.detach hdet hrest, hcalls]
  simp [List.replicate_succ']

/-- C10, as stated, fails: on the bench axis (attached, last move at time
0) the two calls `hold()` at 2000 ms and at 3000 ms are both timed out, and
`detach()` runs in each of them: the motor has received two `detach` calls
where it had received none. -/
theorem holds_detach_twice :
    2000 ≤ elapsedMillis 2000 benchAxis._timeLastMoved ∧
      2000 ≤ elapsedMillis 3000 benchAxis._timeLastMoved ∧
      benchAxis.detachCalls = 0 ∧ (benchAxis.holds [2000, 3000]).detachCalls = 2 := by
  refine ⟨by decide, by decide, rfl, ?_⟩
  rw [holds_after_timeout_eq benchAxis 2000 [3000] (by decide)]
  rfl

/-- C10, amended. For every run of `n ≥ 1` calls of `hold()`, each at least
2000 ms after the last `endMove`, `detach()` runs in every call, `n` times
in all; the state after the run is the state after one `detach()` except
for the motor's record of `n` calls instead of one, so only the first call
can write the store (and does so only if the actuator was attached), and
the actuator ends detached. -/
theorem holds_after_timeout (s : Axis) (nows : List Nat) (hne : nows ≠ [])
    (hall : ∀ now ∈ nows, 2000 ≤ elapsedMillis now s._timeLastMoved) :
    (s.holds nows).detachCalls = s.detachCalls + nows.length ∧
      s.holds nows =
        { s.detach with
          _motor :=
            { isAttached := false
              calls := List.replicate nows.length MotorCall.detach ++ s._motor.calls } } ∧
      (s.holds nows).EEPROM = s.detach.EEPROM ∧
      (s._motor.attached = false → (s.holds nows).EEPROM = s.EEPROM) ∧
      (s.holds nows)._motor.attached = false := by
  obtain ⟨now, rest, rfl⟩ := List.exists_cons_of_ne_nil hne
  have heq := holds_after_timeout_eq s now rest hall
  refine ⟨?_, heq, ?_, ?_, ?_⟩
  · rw [heq]
    simp [Axis.detachCalls, List.count_append, List.count_replicate_self]
    omega
  · rw [heq]
  · intro h
    rw [heq, detach_of_not_attached s h]
  · rw [heq]; rfl

/-- An instance of `holds_after_timeout`: three timed-out calls on the bench
axis. -/
theorem holds_after_timeout_witness :
    ([2000, 2500, 3000] : List Nat) ≠ [] ∧
      (∀ now ∈ ([2000, 2500, 3000] : List Nat), 2000 ≤ elapsedMillis now benchAxis._timeLastMoved) ∧
      (benchAxis.holds [2000, 2500, 3000]).detachCalls = benchAxis.detachCalls + 3 ∧
      (benchAxis.holds [2000, 2500, 3000]).EEPROM = benchAxis.detach.EEPROM :=
  ⟨by decide, by decide,
    (holds_after_timeout benchAxis [2000, 2500, 3000] (by decide) (by decide)).1,
    (holds_after_timeout benchAxis [2000, 2500, 3000] (by decide) (by decide)).2.2.1⟩

/-! ## C11: `computePID` in test mode -/

/-- C11. For every axis state with the test-mode flag set, `computePID()`
returns the state it was given: the motor receives no call, the count of
integrator flushes and the gains are unchanged, and so are the previous
setpoint, the recorded sign, the PID input and the PID output. -/
theorem computePID_test_mode_noop (law : PIDLaw) (s : Axis)
    (h : s._disableAxisForTesting = true) :
    s.computePID law = s ∧
      (s.computePID law)._motor.calls = s._motor.calls ∧
      (s.computePID law)._pidController.flips = s._pidController.flips ∧
      (s.computePID law)._pidController.kp = s._pidController.kp ∧
      (s.computePID law)._pidController.ki = s._pidController.ki ∧
      (s.computePID law)._pidController.kd = s._pidController.kd ∧
      (s.computePID law)._oldSetpoint = s._oldSetpoint ∧
      (s.computePID law)._oldVal = s._oldVal ∧
      (s.computePID law)._pidInput = s._pidInput ∧
      (s.computePID law)._pidOutput = s._pidOutput := by
  have he : s.computePID law = s := by
    simp [Axis.computePID, h]
  rw [he]
  exact ⟨rfl, rfl, rfl, rfl, rfl, rfl, rfl, rfl, rfl, rfl⟩

/-- An instance of `computePID_test_mode_noop`: the bench axis in test
mode. -/
theorem computePID_test_mode_noop_witness :
    testingAxis._disableAxisForTesting = true ∧ testingAxis.computePID benchLaw = testingAxis :=
  ⟨rfl, (computePID_test_mode_noop benchLaw testingAxis rfl).1⟩

/-! ## C12, C13: the ramps of `computeBoost` -/

theorem absOfReads_same (o r : Int) : absOfReads o r r = |o - r| := by
  unfold absOfReads
  split_ifs with h
  · exact (abs_of_pos h).symm
  · exact (abs_of_nonpos (not_lt.mp h)).symm

theorem rampDisplacement_succ (o : Int) (sensor : Nat → Int) (k j : Nat) :
    Axis.rampDisplacement o sensor k (j + 1) = Axis.rampDisplacement o sensor (k + 2) j := by
  unfold Axis.rampDisplacement
  have h1 : k + 2 * (j + 1) = k + 2 + 2 * j := by omega
  rw [h1]

theorem boostRamp_spec (cmd : Nat → ℚ) (o : Int) (sensor : Nat → Int) :
    ∀ (fuel i k : Nat) (m : GearMotor), 35 ≤ i + fuel → i ≤ 35 →
      i ≤ (Axis.boostRamp cmd o sensor fuel i k m).1 ∧
      (Axis.boostRamp cmd o sensor fuel i k m).1 ≤ 35 ∧
      (∀ j, j < (Axis.boostRamp cmd o sensor fuel i k m).1 - i →
        ¬ Axis.rampDisplacement o sensor k j > 200) ∧
      ((Axis.boostRamp cmd o sensor fuel i k m).1 < 35 →
        Axis.rampDisplacement o sensor k ((Axis.boostRamp cmd o sensor fuel i k m).1 - i) > 200 ∧
        (Axis.boostRamp cmd o sensor fuel i k m).2.1
          = k + 2 * ((Axis.boostRamp cmd o sensor fuel i k m).1 - i + 1)) ∧
      ((Axis.boostRamp cmd o sensor fuel i k m).1 = 35 →
        (Axis.boostRamp cmd o sensor fuel i k m).2.1 = k + 2 * (35 - i)) := by
  intro fuel
  induction fuel with
  | zero =>
    intro i k m h1 h2
    have hi : i = 35 := by omega
    subst hi
    simp [Axis.boostRamp]
  | succ fuel ih =>
    intro i k m h1 h2
    by_cases hlt : i < 35
    · by_cases hd : absOfReads o (sensor k) (sensor (k + 1)) > 200
      · have hr : Axis.boostRamp cmd o sensor (fuel + 1) i k m = (i, k + 2, m.write (cmd i)) := by
          simp [Axis.boostRamp, hlt, hd]
        rw [hr]
        refine ⟨le_refl _, h2, ?_, ?_, ?_⟩
        · intro j hj
          simp at hj
        · intro _
          refine ⟨?_, ?_⟩
          · simpa [Axis.rampDisplacement] using hd
          · simp
        · intro h35
          have h35' : i = 35 := h35
          omega
      · have hr : Axis.boostRamp cmd o sensor (fuel + 1) i k m
            = Axis.boostRamp cmd o sensor fuel (i + 1) (k + 2) (m.write (cmd i)) := by
          simp [Axis.boostRamp, hlt, hd]
        rw [hr]
        obtain ⟨g1, g2, g3, g4, g5⟩ := ih (i + 1) (k + 2) (m.write (cmd i)) (by omega) (by omega)
        refine ⟨by omega, g2, ?_, ?_, ?_⟩
        · intro j hj
          cases j with
          | zero => simpa [Axis.rampDisplacement] using hd
          | succ j =>
            rw [rampDisplacement_succ]
            exact g3 j (by omega)
        · intro h35
          obtain ⟨a1, a2⟩ := g4 h35
          have he : (Axis.boostRamp cmd o sensor fuel (i + 1) (k + 2) (m.write (cmd i))).1 - i
              = ((Axis.boostRamp cmd o sensor fuel (i + 1) (k + 2) (m.write (cmd i))).1 - (i + 1))
                + 1 := by omega
          rw [he, rampDisplacement_succ]
          exact ⟨a1, by omega⟩
        · intro h35
          have := g5 h35
          omega
    · have hi : i = 35 := by omega
      subst hi
      simp [Axis.boostRamp]

theorem boostRamp_fuel (cmd : Nat → ℚ) (o : Int) (sensor : Nat → Int) (n : Nat) :
    ∀ (fuel i k : Nat) (m : GearMotor), 35 ≤ i + fuel →
      Axis.boostRamp cmd o sensor (fuel + n) i k m = Axis.boostRamp cmd o sensor fuel i k m := by
  intro fuel
  induction fuel with
  | zero =>
    intro i k m h
    have hi : ¬ i < 35 := by omega
    cases n with
    | zero => rfl
    | succ n => simp [Axis.boostRamp, hi]
  | succ fuel ih =>
    intro i k m h
    have hs : fuel + 1 + n = (fuel + n) + 1 := by omega
    rw [hs]
    by_cases hlt : i < 35
    · by_cases hd : absOfReads o (sensor k) (sensor (k + 1)) > 200
      · simp [Axis.boostRamp, hlt, hd]
      · simp only [Axis.boostRamp, hlt, hd, if_true, if_false]
        exact ih (i + 1) (k + 2) (m.write (cmd i)) (by omega)
    · simp [Axis.boostRamp, hlt]

theorem boostRamp_first (cmd : Nat → ℚ) (o : Int) (sensor : Nat → Int) (k : Nat)
    (m : GearMotor) :
    (Axis.boostRamp cmd o sensor 35 0 k m).1 ≤ 35 ∧
      (∀ j, j < (Axis.boostRamp cmd o sensor 35 0 k m).1 →
        ¬ Axis.rampDisplacement o sensor k j > 200) ∧
      ((Axis.boostRamp cmd o sensor 35 0 k m).1 < 35 →
        Axis.rampDisplacement o sensor k (Axis.boostRamp cmd o sensor 35 0 k m).1 > 200 ∧
        (Axis.boostRamp cmd o sensor 35 0 k m).2.1
          = k + 2 * ((Axis.boostRamp cmd o sensor 35 0 k m).1 + 1)) ∧
      ((Axis.boostRamp cmd o sensor 35 0 k m).1 = 35 →
        (Axis.boostRamp cmd o sensor 35 0 k m).2.1 = k + 70) ∧
      ((∀ j, j < 35 → ¬ Axis.rampDisplacement o sensor k j > 200) →
        (Axis.boostRamp cmd o sensor 35 0 k m).1 = 35) := by
  obtain ⟨_, g2, g3, g4, g5⟩ := boostRamp_spec cmd o sensor 35 0 k m (by omega) (by omega)
  simp only [Nat.sub_zero] at g3 g4 g5
  refine ⟨g2, g3, g4, fun h => by have := g5 h; omega, fun hall => ?_⟩
  by_contra hne
  have hlt : (Axis.boostRamp cmd o sensor 35 0 k m).1 < 35 := by omega
  exact hall _ hlt (g4 hlt).1

theorem computeBoost_setBoost (s : Axis) (sensor : Nat → Int) :
    (s.computeBoost sensor)._motor.calls.head?
      = some (MotorCall.setBoost (s.negBoost sensor) (s.posBoost sensor)) := by
  rw [computeBoost_eq]
  rfl

theorem boostRamp_motor (cmd : Nat → ℚ) (o : Int) (sensor : Nat → Int) :
    ∀ (fuel i k : Nat) (m : GearMotor),
      2 * (Axis.boostRamp cmd o sensor fuel i k m).2.2.calls.length + k
          = 2 * m.calls.length + (Axis.boostRamp cmd o sensor fuel i k m).2.1 ∧
        (35 ≤ i + fuel → (Axis.boostRamp cmd o sensor fuel i k m).1 < 35 →
          (Axis.boostRamp cmd o sensor fuel i k m).2.2.calls.head?
            = some (MotorCall.write (cmd (Axis.boostRamp cmd o sensor fuel i k m).1))) := by
  intro fuel
  induction fuel with
  | zero =>
    intro i k m
    refine ⟨by simp [Axis.boostRamp], fun h1 h2 => ?_⟩
    have h2' : i < 35 := h2
    omega
  | succ fuel ih =>
    intro i k m
    by_cases hlt : i < 35
    · by_cases hd : absOfReads o (sensor k) (sensor (k + 1)) > 200
      · have hr : Axis.boostRamp cmd o sensor (fuel + 1) i k m = (i, k + 2, m.write (cmd i)) := by
          simp [Axis.boostRamp, hlt, hd]
        rw [hr]
        refine ⟨?_, fun _ _ => rfl⟩
        simp only [GearMotor.write, List.length_cons]
        omega
      · have hr : Axis.boostRamp cmd o sensor (fuel + 1) i k m
            = Axis.boostRamp cmd o sensor fuel (i + 1) (k + 2) (m.write (cmd i)) := by
          simp [Axis.boostRamp, hlt, hd]
        rw [hr]
        obtain ⟨g1, g2⟩ := ih (i + 1) (k + 2) (m.write (cmd i))
        refine ⟨?_, fun h1 h2 => g2 (by omega) h2⟩
        have hlen : (m.write (cmd i)).calls.length = m.calls.length + 1 := rfl
        rw [hlen] at g1
        omega
    · have hr : Axis.boostRamp cmd o sensor (fuel + 1) i k m = (i, k, m) := by
        simp [Axis.boostRamp, hlt]
      rw [hr]
      refine ⟨rfl, fun _ h2 => ?_⟩
      have h2' : i < 35 := h2
      omega

/-- C12, as stated, fails: with the creeping sensor (0 at the start, 150
at the end of step 0, 300 at the end of step 1) no step of the positive
ramp sees the sensor move more than 200 counts since that step began (150
in each of the steps 0 and 1, nothing afterwards), yet the positive boost
value passed to `setBoost` is 1: step 1 compares the reading 300 with the
position read before the ramp. -/
theorem computeBoost_measures_from_ramp_start :
    (benchAxis.computeBoost creepingSensor)._motor.calls.head?
        = some (MotorCall.setBoost 35 1) ∧
      benchAxis.posBoost creepingSensor = 1 ∧
      (∀ i, i < 35 → Axis.stepDisplacement (creepingSensor 0) creepingSensor 1 i ≤ 200) ∧
      Axis.stepDisplacement (creepingSensor 0) creepingSensor 1 1 = 150 ∧
      Axis.rampDisplacement (creepingSensor 0) creepingSensor 1 1 = 300 := by
  refine ⟨?_, by decide, by decide, by decide, by decide⟩
  rw [computeBoost_setBoost]
  have h1 : benchAxis.posBoost creepingSensor = 1 := by decide
  have h2 : benchAxis.negBoost creepingSensor = 35 := by decide
  rw [h1, h2]
  rfl

/-- C12, amended. For every sensor trace, the positive boost value `p`
passed to `setBoost` is such that at no step before `p` the displacement
`abs(original - reading)`, taken from the position read before the ramp,
exceeded 200 counts, and, when `p < 35`, it did at step `p`: `p` is the
first such step, the ramp stopped there (it made `p + 1` commands, the last
one that of step `p`, and two sensor reads per step), and the same holds
for the negative boost value with the position read before the negative
ramp. Where the two reads of one `abs` agree the displacement is
`|original - reading|`. -/
theorem computeBoost_first_exceeding (s : Axis) (sensor : Nat → Int) :
    (s.computeBoost sensor)._motor.calls.head?
        = some (MotorCall.setBoost (s.negBoost sensor) (s.posBoost sensor)) ∧
      (∀ j, j < s.posBoost sensor → ¬ Axis.rampDisplacement (sensor 0) sensor 1 j > 200) ∧
      (s.posBoost sensor < 35 →
        Axis.rampDisplacement (sensor 0) sensor 1 (s.posBoost sensor) > 200 ∧
        (s.posRamp sensor).2.1 = 1 + 2 * (s.posBoost sensor + 1) ∧
        (s.posRamp sensor).2.2.calls.length
          = ({ s with _disableAxisForTesting := true } : Axis).attach._motor.calls.length
            + (s.posBoost sensor + 1) ∧
        (s.posRamp sensor).2.2.calls.head?
          = some (MotorCall.write (90 + (s.posBoost sensor : ℚ)))) ∧
      (∀ j, j < s.negBoost sensor →
        ¬ Axis.rampDisplacement (sensor (s.posRamp sensor).2.1) sensor
          ((s.posRamp sensor).2.1 + 1) j > 200) ∧
      (s.negBoost sensor < 35 →
        Axis.rampDisplacement (sensor (s.posRamp sensor).2.1) sensor
          ((s.posRamp sensor).2.1 + 1) (s.negBoost sensor) > 200 ∧
        (s.negRamp sensor).2.1 = (s.posRamp sensor).2.1 + 1 + 2 * (s.negBoost sensor + 1) ∧
        (s.negRamp sensor).2.2.calls.length
          = ((s.posRamp sensor).2.2.write 90).calls.length + (s.negBoost sensor + 1) ∧
        (s.negRamp sensor).2.2.calls.head?
          = some (MotorCall.write (90 - (s.negBoost sensor : ℚ)))) ∧
      (∀ (o : Int) (k j : Nat), sensor (k + 2 * j + 1) = sensor (k + 2 * j) →
        Axis.rampDisplacement o sensor k j = |o - sensor (k + 2 * j)|) := by
  obtain ⟨_, p2, p3, _, _⟩ := boostRamp_first (fun i => 90 + (i : ℚ)) (sensor 0) sensor 1
    ({ s with _disableAxisForTesting := true } : Axis).attach._motor
  obtain ⟨pm1, pm2⟩ := boostRamp_motor (fun i => 90 + (i : ℚ)) (sensor 0) sensor 35 0 1
    ({ s with _disableAxisForTesting := true } : Axis).attach._motor
  obtain ⟨_, n2, n3, _, _⟩ := boostRamp_first (fun i => 90 - (i : ℚ))
    (sensor (s.posRamp sensor).2.1) sensor ((s.posRamp sensor).2.1 + 1)
    ((s.posRamp sensor).2.2.write 90)
  obtain ⟨nm1, nm2⟩ := boostRamp_motor (fun i => 90 - (i : ℚ))
    (sensor (s.posRamp sensor).2.1) sensor 35 0 ((s.posRamp sensor).2.1 + 1)
    ((s.posRamp sensor).2.2.write 90)
  refine ⟨computeBoost_setBoost s sensor, p2, fun h => ?_, n2, fun h => ?_, fun o k j h => ?_⟩
  · obtain ⟨a1, a2⟩ := p3 h
    refine ⟨a1, a2, ?_, pm2 (by omega) h⟩
    have a2' : (s.posRamp sensor).2.1 = 1 + 2 * (s.posBoost sensor + 1) := a2
    have pm1' : 2 * (s.posRamp sensor).2.2.calls.length + 1
        = 2 * ({ s with _disableAxisForTesting := true } : Axis).attach._motor.calls.length
          + (s.posRamp sensor).2.1 := pm1
    omega
  · obtain ⟨a1, a2⟩ := n3 h
    refine ⟨a1, a2, ?_, nm2 (by omega) h⟩
    have a2' : (s.negRamp sensor).2.1
        = (s.posRamp sensor).2.1 + 1 + 2 * (s.negBoost sensor + 1) := a2
    have nm1' : 2 * (s.negRamp sensor).2.2.calls.length + ((s.posRamp sensor).2.1 + 1)
        = 2 * ((s.posRamp sensor).2.2.write 90).calls.length + (s.negRamp sensor).2.1 := nm1
    omega
  · rw [Axis.rampDisplacement, h, absOfReads_same]

/-- C13. For every sensor trace, both boost values passed to `setBoost` lie
in `[0, 35]`; each ramp makes at most 35 steps (at most 70 sensor reads and
35 commands) and stops by itself (a larger bound on the iterations gives
the same result); and a ramp during which `abs(original - reading)` never
exceeds 200 yields exactly 35, which is passed to `setBoost` like any other
value. -/
theorem computeBoost_bounded (s : Axis) (sensor : Nat → Int) :
    (s.computeBoost sensor)._motor.calls.head?
        = some (MotorCall.setBoost (s.negBoost sensor) (s.posBoost sensor)) ∧
      (0 ≤ (s.posBoost sensor : Int) ∧ (s.posBoost sensor : Int) ≤ 35) ∧
      (0 ≤ (s.negBoost sensor : Int) ∧ (s.negBoost sensor : Int) ≤ 35) ∧
      (s.posRamp sensor).2.1 ≤ 1 + 70 ∧
      (s.negRamp sensor).2.1 ≤ (s.posRamp sensor).2.1 + 1 + 70 ∧
      (s.posRamp sensor).2.2.calls.length
        ≤ ({ s with _disableAxisForTesting := true } : Axis).attach._motor.calls.length + 35 ∧
      (s.negRamp sensor).2.2.calls.length
        ≤ ((s.posRamp sensor).2.2.write 90).calls.length + 35 ∧
      (∀ (cmd : Nat → ℚ) (o : Int) (k n : Nat) (m : GearMotor),
        Axis.boostRamp cmd o sensor (35 + n) 0 k m = Axis.boostRamp cmd o sensor 35 0 k m) ∧
      ((∀ j, j < 35 → ¬ Axis.rampDisplacement (sensor 0) sensor 1 j > 200) →
        s.posBoost sensor = 35) ∧
      ((∀ j, j < 35 → ¬ Axis.rampDisplacement (sensor (s.posRamp sensor).2.1) sensor
          ((s.posRamp sensor).2.1 + 1) j > 200) →
        s.negBoost sensor = 35) := by
  obtain ⟨p1, _, p3, p4, p5⟩ := boostRamp_first (fun i => 90 + (i : ℚ)) (sensor 0) sensor 1
    ({ s with _disableAxisForTesting := true } : Axis).attach._motor
  obtain ⟨pm1, _⟩ := boostRamp_motor (fun i => 90 + (i : ℚ)) (sensor 0) sensor 35 0 1
    ({ s with _disableAxisForTesting := true } : Axis).attach._motor
  obtain ⟨n1, _, n3, n4, n5⟩ := boostRamp_first (fun i => 90 - (i : ℚ))
    (sensor (s.posRamp sensor).2.1) sensor ((s.posRamp sensor).2.1 + 1)
    ((s.posRamp sensor).2.2.write 90)
  obtain ⟨nm1, _⟩ := boostRamp_motor (fun i => 90 - (i : ℚ))
    (sensor (s.posRamp sensor).2.1) sensor 35 0 ((s.posRamp sensor).2.1 + 1)
    ((s.posRamp sensor).2.2.write 90)
  have p1' : s.posBoost sensor ≤ 35 := p1
  have n1' : s.negBoost sensor ≤ 35 := n1
  have hp : (s.posRamp sensor).2.1 ≤ 1 + 70 := by
    by_cases h : s.posBoost sensor < 35
    · have a2 : (s.posRamp sensor).2.1 = 1 + 2 * (s.posBoost sensor + 1) := (p3 h).2
      omega
    · have h35 : s.posBoost sensor = 35 := by omega
      have a2 : (s.posRamp sensor).2.1 = 1 + 70 := p4 h35
      omega
  have hn : (s.negRamp sensor).2.1 ≤ (s.posRamp sensor).2.1 + 1 + 70 := by
    by_cases h : s.negBoost sensor < 35
    · have a2 : (s.negRamp sensor).2.1
          = (s.posRamp sensor).2.1 + 1 + 2 * (s.negBoost sensor + 1) := (n3 h).2
      omega
    · have h35 : s.negBoost sensor = 35 := by omega
      have a2 : (s.negRamp sensor).2.1 = (s.posRamp sensor).2.1 + 1 + 70 := n4 h35
      omega
  have pm1' : 2 * (s.posRamp sensor).2.2.calls.length + 1
      = 2 * ({ s with _disableAxisForTesting := true } : Axis).attach._motor.calls.length
        + (s.posRamp sensor).2.1 := pm1
  have nm1' : 2 * (s.negRamp sensor).2.2.calls.length + ((s.posRamp sensor).2.1 + 1)
      = 2 * ((s.posRamp sensor).2.2.write 90).calls.length + (s.negRamp sensor).2.1 := nm1
  refine ⟨computeBoost_setBoost s sensor, ⟨by omega, by omega⟩, ⟨by omega, by omega⟩, hp, hn,
    by omega, by omega, fun cmd o k n m => ?_, p5, n5⟩
  exact boostRamp_fuel cmd o sensor n 35 0 k m (by omega)

/-- Instances of `computeBoost_first_exceeding` with the creeping sensor:
the positive boost value is 1, step 0 measured 150 and step 1 measured 300
counts from the position read before the ramp. -/
theorem computeBoost_first_exceeding_witness :
    benchAxis.posBoost creepingSensor = 1 ∧
      ¬ Axis.rampDisplacement (creepingSensor 0) creepingSensor 1 0 > 200 ∧
      Axis.rampDisplacement (creepingSensor 0) creepingSensor 1
        (benchAxis.posBoost creepingSensor) > 200 :=
  ⟨by decide,
    (computeBoost_first_exceeding benchAxis creepingSensor).2.1 0 (by decide),
    ((computeBoost_first_exceeding benchAxis creepingSensor).2.2.1 (by decide)).1⟩

/-- An instance of `computeBoost_bounded` with the sensor that stands
still: the positive boost value is 35. -/
theorem computeBoost_bounded_witness :
    (∀ j, j < 35 → ¬ Axis.rampDisplacement (stillSensor 0) stillSensor 1 j > 200) ∧
      benchAxis.posBoost stillSensor = 35 :=
  ⟨by decide, (computeBoost_bounded benchAxis stillSensor).2.2.2.2.2.2.2.2.1 (by decide)⟩

/-! ## C14: the value reported by `computeSymetryOfMotor` -/

theorem computeSymetryOfMotor_report (s : Axis) (speed : Int) (sensor : Nat → Int) :
    (s.computeSymetryOfMotor speed sensor).2
      = absOfReads (sensor 0) (sensor 1) (sensor 2)
        - absOfReads (sensor 3) (sensor 4) (sensor 5) := by
  rfl

/-- When the two sensor reads of each `abs` agree, the reported value is
`|r0 - r1| - |r2 - r3|` for the four distinct readings: it is 0 exactly
when the two displacements have the same magnitude and positive exactly
when the positive leg is the longer one. -/
theorem computeSymetryOfMotor_steady (s : Axis) (speed : Int) (sensor : Nat → Int)
    (h1 : sensor 2 = sensor 1) (h2 : sensor 5 = sensor 4) :
    (s.computeSymetryOfMotor speed sensor).2
        = |sensor 0 - sensor 1| - |sensor 3 - sensor 4| ∧
      ((s.computeSymetryOfMotor speed sensor).2 = 0
        ↔ |sensor 0 - sensor 1| = |sensor 3 - sensor 4|) ∧
      (0 < (s.computeSymetryOfMotor speed sensor).2
        ↔ |sensor 3 - sensor 4| < |sensor 0 - sensor 1|) := by
  rw [computeSymetryOfMotor_report, h1, h2, absOfReads_same, absOfReads_same]
  refine ⟨rfl, ?_, ?_⟩ <;> constructor <;> intro h <;> omega

/-- C14. The routine on the slipping sensor, whose six reads are
0, 0, -1, -1, -1, -1: the sensor moved one count during the positive leg
and not at all during the negative leg, and the reported value is -1. The
first `abs` tests the sign on the read 0 and takes the value from the read
-1. Whichever of the two reads of each `abs` is taken for `r1` and `r3`,
`|r0 - r1| - |r2 - r3|` is 0 or 1. -/
theorem computeSymetryOfMotor_negative_report :
    (List.range 6).map slippingSensor = [0, 0, -1, -1, -1, -1] ∧
      (benchAxis.computeSymetryOfMotor 20 slippingSensor).2 = -1 ∧
      |slippingSensor 0 - slippingSensor 1| - |slippingSensor 3 - slippingSensor 4| = 0 ∧
      |slippingSensor 0 - slippingSensor 1| - |slippingSensor 3 - slippingSensor 5| = 0 ∧
      |slippingSensor 0 - slippingSensor 2| - |slippingSensor 3 - slippingSensor 4| = 1 ∧
      |slippingSensor 0 - slippingSensor 2| - |slippingSensor 3 - slippingSensor 5| = 1 := by
  refine ⟨by decide, by decide, by decide, by decide, by decide, by decide⟩

/-! ## C19: flushes at the start and at the end of a setpoint change -/

theorem axisSign_zero : Axis._sign 0 = 0 := by
  simp [Axis._sign]

theorem axisSign_of_ne_zero (x : ℚ) (hx : x ≠ 0) : Axis._sign x = 1 ∨ Axis._sign x = -1 := by
  unfold Axis._sign
  by_cases h1 : x < 0
  · exact Or.inr (by rw [if_pos h1])
  · exact Or.inl (by rw [if_neg h1, if_neg hx])

theorem tickAt_step (law : PIDLaw) (s : Axis) (c : Int) (h : s._disableAxisForTesting = false) :
    (s.tickAt law c)._pidController.flips
        = s._pidController.flips + (if (s.directionSign : ℚ) = s._oldVal then 0 else 1) ∧
      (s.tickAt law c)._oldVal = s.directionSign ∧
      (s.tickAt law c)._disableAxisForTesting = false ∧
      (s.tickAt law c)._oldSetpoint = s._pidSetpoint ∧
      (s.tickAt law c)._pidSetpoint = s._pidSetpoint := by
  obtain ⟨a1, a2, a3⟩ := computePID_flush_step law { s with _encoder := c } h
  obtain ⟨b1, b2, _⟩ := computePID_frame law { s with _encoder := c } h
  exact ⟨a1, a2, a3, b1, b2⟩

theorem tickAt_held (law : PIDLaw) (s : Axis) (c : Int) (h : s._disableAxisForTesting = false)
    (h0 : s._oldVal = 0) (hp : s._oldSetpoint = s._pidSetpoint) :
    (s.tickAt law c)._pidController.flips = s._pidController.flips ∧
      (s.tickAt law c)._oldVal = 0 ∧
      (s.tickAt law c)._disableAxisForTesting = false ∧
      (s.tickAt law c)._oldSetpoint = (s.tickAt law c)._pidSetpoint := by
  obtain ⟨a1, a2, a3, a4, a5⟩ := tickAt_step law s c h
  have hd : s.directionSign = 0 := by
    rw [Axis.directionSign, hp, sub_self, axisSign_zero]
  refine ⟨?_, ?_, a3, a4.trans a5.symm⟩
  · rw [a1, hd, h0]; simp
  · rw [a2, hd]; simp

theorem ticksAt_steady (law : PIDLaw) (counts : List Int) :
    ∀ s : Axis, s._disableAxisForTesting = false → s._oldVal = 0 →
      s._oldSetpoint = s._pidSetpoint →
      (s.ticksAt law counts)._pidController.flips = s._pidController.flips ∧
      (s.ticksAt law counts)._oldVal = 0 := by
  induction counts with
  | nil => intro s _ h0 _; exact ⟨rfl, h0⟩
  | cons c cs ih =>
    intro s ht h0 hp
    obtain ⟨a1, a2, a3, a4⟩ := tickAt_held law s c ht h0 hp
    obtain ⟨i1, i2⟩ := ih (s.tickAt law c) a3 a2 a4
    exact ⟨i1.trans a1, i2⟩

/-- C19. From a state out of test mode whose recorded sign is 0 and whose
previous setpoint equals the setpoint: after one `write` that changes the
setpoint, the first tick flushes the integrator once and records the sign
1 or -1, the second tick flushes it once more and records the sign 0, and
however many ticks follow with the setpoint held, the count of flushes
stays at two more than before. -/
theorem setpoint_change_flushes_twice (law : PIDLaw) (s : Axis) (t : ℚ) (c1 c2 : Int)
    (rest : List Int) (htest : s._disableAxisForTesting = false) (hsign : s._oldVal = 0)
    (hprev : s._oldSetpoint = s._pidSetpoint)
    (hchg : t / s._mmPerRotation ≠ s._pidSetpoint) :
    ((s.write t).1.ticksAt law [c1])._pidController.flips = s._pidController.flips + 1 ∧
      (((s.write t).1.ticksAt law [c1])._oldVal = 1 ∨
        ((s.write t).1.ticksAt law [c1])._oldVal = -1) ∧
      ((s.write t).1.ticksAt law [c1, c2])._pidController.flips
        = s._pidController.flips + 2 ∧
      ((s.write t).1.ticksAt law [c1, c2])._oldVal = 0 ∧
      ((s.write t).1.ticksAt law (c1 :: c2 :: rest))._pidController.flips
        = s._pidController.flips + 2 ∧
      ((s.write t).1.ticksAt law (c1 :: c2 :: rest))._oldVal = 0 := by
  have w1 : (s.write t).1._disableAxisForTesting = false := by rw [write_fst]; exact htest
  have w2 : (s.write t).1._oldVal = 0 := by rw [write_fst]; exact hsign
  have w3 : (s.write t).1._pidController.flips = s._pidController.flips := by rw [write_fst]
  have w4 : (s.write t).1.directionSign
      = Axis._sign (s._oldSetpoint - t / s._mmPerRotation) := by rw [write_fst]; rfl
  have hne : s._oldSetpoint - t / s._mmPerRotation ≠ 0 := by
    rw [hprev]
    exact sub_ne_zero.mpr (Ne.symm hchg)
  have hpm := axisSign_of_ne_zero _ hne
  have hq : ¬ ((Axis._sign (s._oldSetpoint - t / s._mmPerRotation) : Int) : ℚ) = 0 := by
    rcases hpm with h | h <;> rw [h] <;> norm_num
  obtain ⟨a1, a2, a3, a4, a5⟩ := tickAt_step law (s.write t).1 c1 w1
  rw [w4, w2, w3, if_neg hq] at a1
  rw [w4] at a2
  obtain ⟨b1, b2, b3, b4, b5⟩ := tickAt_step law ((s.write t).1.tickAt law c1) c2 a3
  have hd2 : ((s.write t).1.tickAt law c1).directionSign = 0 := by
    rw [Axis.directionSign, a4, a5, sub_self, axisSign_zero]
  rw [hd2, a2, a1, if_neg (fun e => hq e.symm)] at b1
  rw [hd2] at b2
  have b2' : (((s.write t).1.tickAt law c1).tickAt law c2)._oldVal = 0 := by
    rw [b2]; norm_num
  obtain ⟨r1, r2⟩ := ticksAt_steady law rest _ b3 b2' (b4.trans b5.symm)
  refine ⟨a1, ?_, b1, b2', r1.trans b1, r2⟩
  show ((s.write t).1.tickAt law c1)._oldVal = 1 ∨ ((s.write t).1.tickAt law c1)._oldVal = -1
  rw [a2]
  rcases hpm with h | h
  · left; rw [h]; norm_num
  · right; rw [h]; norm_num

/-- An instance of `setpoint_change_flushes_twice` on the bench axis:
`write(10)` moves the setpoint from 0 to 1, and five ticks follow. -/
theorem setpoint_change_flushes_twice_witness :
    benchAxis._disableAxisForTesting = false ∧ benchAxis._oldVal = 0 ∧
      benchAxis._oldSetpoint = benchAxis._pidSetpoint ∧
      (10 : ℚ) / benchAxis._mmPerRotation ≠ benchAxis._pidSetpoint ∧
      ((benchAxis.write 10).1.ticksAt benchLaw [0])._pidController.flips
        = benchAxis._pidController.flips + 1 ∧
      ((benchAxis.write 10).1.ticksAt benchLaw [0, 3, 5, 8, 8])._pidController.flips
        = benchAxis._pidController.flips + 2 := by
  have hchg : (10 : ℚ) / benchAxis._mmPerRotation ≠ benchAxis._pidSetpoint := by
    norm_num [benchAxis]
  exact ⟨rfl, rfl, rfl, hchg,
    (setpoint_change_flushes_twice benchLaw benchAxis 10 0 3 [] rfl rfl rfl hchg).1,
    (setpoint_change_flushes_twice benchLaw benchAxis 10 0 3 [5, 8, 8] rfl rfl rfl hchg).2.2.2.2.1⟩

/-! ## C16: the calibration routines hold the test-mode flag and end at neutral -/

theorem step_flag (f : Axis → Axis) (t : Axis × List Axis)
    (hf : ∀ st, (f st)._disableAxisForTesting = st._disableAxisForTesting)
    (h : t.1._disableAxisForTesting = true ∧ ∀ st ∈ t.2, st._disableAxisForTesting = true) :
    (Axis.step f t).1._disableAxisForTesting = true ∧
      ∀ st ∈ (Axis.step f t).2, st._disableAxisForTesting = true := by
  have h1 : (f t.1)._disableAxisForTesting = true := by rw [hf]; exact h.1
  refine ⟨h1, fun st hst => ?_⟩
  rcases List.mem_append.mp hst with e | e
  · exact h.2 st e
  · rw [List.mem_singleton.mp e]; exact h1

theorem step_head (f : Axis → Axis) (t : Axis × List Axis) (a : Axis)
    (h : t.2.head? = some a) : (Axis.step f t).2.head? = some a := by
  obtain ⟨t1, t2⟩ := t
  cases t2 with
  | nil => simp at h
  | cons b l => simpa [Axis.step] using h

theorem boostLoop_flag (cmd : Nat → ℚ) (o : Int) (sensor : Nat → Int) :
    ∀ (fuel i k : Nat) (t : Axis × List Axis),
      (t.1._disableAxisForTesting = true ∧ ∀ st ∈ t.2, st._disableAxisForTesting = true) →
      (Axis.boostLoop cmd o sensor fuel i k t).2.2.1._disableAxisForTesting = true ∧
        ∀ st ∈ (Axis.boostLoop cmd o sensor fuel i k t).2.2.2,
          st._disableAxisForTesting = true := by
  intro fuel
  induction fuel with
  | zero => intro i k t h; exact h
  | succ fuel ih =>
    intro i k t h
    by_cases hlt : i < 35
    · by_cases hd : absOfReads o (sensor k) (sensor (k + 1)) > 200
      · simp only [Axis.boostLoop, hlt, hd, if_true]
        exact step_flag _ t (fun _ => rfl) h
      · simp only [Axis.boostLoop, hlt, hd, if_true, if_false]
        exact ih (i + 1) (k + 2) _ (step_flag _ t (fun _ => rfl) h)
    · simp only [Axis.boostLoop, hlt, if_false]
      exact h

theorem boostLoop_head (cmd : Nat → ℚ) (o : Int) (sensor : Nat → Int) (a : Axis) :
    ∀ (fuel i k : Nat) (t : Axis × List Axis), t.2.head? = some a →
      (Axis.boostLoop cmd o sensor fuel i k t).2.2.2.head? = some a := by
  intro fuel
  induction fuel with
  | zero => intro i k t h; exact h
  | succ fuel ih =>
    intro i k t h
    by_cases hlt : i < 35
    · by_cases hd : absOfReads o (sensor k) (sensor (k + 1)) > 200
      · simp only [Axis.boostLoop, hlt, hd, if_true]
        exact step_head _ t a h
      · simp only [Axis.boostLoop, hlt, hd, if_true, if_false]
        exact ih (i + 1) (k + 2) _ (step_head _ t a h)
    · simp only [Axis.boostLoop, hlt, if_false]
      exact h

theorem computeBoostTraced_flag (s : Axis) (sensor : Nat → Int) :
    ∃ t : Axis × List Axis,
      s.computeBoostTraced sensor
          = Axis.step (fun st => { st with _disableAxisForTesting := false }) t ∧
        t.2.head? = some { s with _disableAxisForTesting := true } ∧
        (t.1._disableAxisForTesting = true ∧ ∀ st ∈ t.2, st._disableAxisForTesting = true) := by
  refine ⟨?t, ?e, ?h, ?g⟩
  case e => exact rfl
  case h =>
    apply step_head; apply step_head; apply step_head; apply boostLoop_head
    apply step_head; apply boostLoop_head; apply step_head
    rfl
  case g =>
    refine step_flag _ _ ?_ ?_
    · intro st; rfl
    refine step_flag _ _ ?_ ?_
    · intro st; rfl
    refine step_flag _ _ ?_ ?_
    · intro st; rfl
    apply boostLoop_flag
    refine step_flag _ _ ?_ ?_
    · intro st; rfl
    apply boostLoop_flag
    refine step_flag _ _ ?_ ?_
    · intro st; rfl
    refine ⟨rfl, fun st hst => ?_⟩
    rw [List.mem_singleton.mp hst]

/-- C16. For every initial state (whatever its test-mode flag), speed and
sensor trace, take the states of the axis after each statement of
`computeSymetryOfMotor` and of `computeBoost`, as the routine itself produces
them: the first is the initial state with the test-mode flag set, every
state but the last has the flag set, the last is the state the routine
returns, in which the flag is cleared, and the last drive command the motor
has received is 90 (in `computeBoost` the only later call is `setBoost`). -/
theorem calibration_flag_trace_and_neutral (s : Axis) (speed : Int) (sensor : Nat → Int) :
    ((s.computeSymetryOfMotorTraced speed sensor).1.2.head?
          = some { s with _disableAxisForTesting := true } ∧
        (s.computeSymetryOfMotorTraced speed sensor).1.2.getLast?
          = some (s.computeSymetryOfMotor speed sensor).1 ∧
        (∀ st ∈ (s.computeSymetryOfMotorTraced speed sensor).1.2.dropLast,
          st._disableAxisForTesting = true) ∧
        (s.computeSymetryOfMotor speed sensor).1._disableAxisForTesting = false ∧
        (s.computeSymetryOfMotor speed sensor).1._motor.calls.head?
          = some (MotorCall.write 90) ∧
        (s.computeSymetryOfMotor speed sensor).1._motor.lastCommand = some 90) ∧
      ((s.computeBoostTraced sensor).2.head?
          = some { s with _disableAxisForTesting := true } ∧
        (s.computeBoostTraced sensor).2.getLast? = some (s.computeBoost sensor) ∧
        (∀ st ∈ (s.computeBoostTraced sensor).2.dropLast, st._disableAxisForTesting = true) ∧
        (s.computeBoost sensor)._disableAxisForTesting = false ∧
        (s.computeBoost sensor)._motor.calls
          = MotorCall.setBoost (s.negBoost sensor) (s.posBoost sensor)
            :: MotorCall.write 90 :: (s.negRamp sensor).2.2.calls ∧
        (s.computeBoost sensor)._motor.lastCommand = some 90) := by
  refine ⟨⟨rfl, rfl, ?_, rfl, rfl, rfl⟩, ?_⟩
  · intro st hst
    simp only [Axis.computeSymetryOfMotorTraced, Axis.step, List.nil_append, List.cons_append,
      List.dropLast, List.mem_cons, List.not_mem_nil, or_false] at hst
    rcases hst with h | h | h | h | h | h <;> rw [h] <;> rfl
  · obtain ⟨t, e, h, g⟩ := computeBoostTraced_flag s sensor
    have hres : s.computeBoost sensor = { t.1 with _disableAxisForTesting := false } := by
      rw [Axis.computeBoost, e]; rfl
    refine ⟨?_, ?_, ?_, ?_, ?_, ?_⟩
    · rw [e]; exact step_head _ t _ h
    · rw [hres, e, Axis.step, List.getLast?_append]; rfl
    · rw [e, Axis.step, List.dropLast_concat]; exact g.2
    · rw [hres]
    · rw [computeBoost_eq]; rfl
    · rw [computeBoost_eq]; rfl

/-! ## Single-precision arithmetic: the rounding of one operation -/

theorem leadingBit_spec : ∀ (fuel n : Nat), 0 < n → n < 2 ^ fuel →
    2 ^ F32.leadingBit fuel n ≤ n ∧ n < 2 ^ (F32.leadingBit fuel n + 1) := by
  intro fuel
  induction fuel with
  | zero =>
    intro n hn h
    simp at h
    omega
  | succ fuel ih =>
    intro n hn h
    by_cases h2 : n < 2
    · simp only [F32.leadingBit, h2, if_true]
      constructor
      · simpa using hn
      · simpa using h2
    · simp only [F32.leadingBit, h2, if_false]
      have hpos : 0 < n / 2 := Nat.div_pos (by omega) (by norm_num)
      have hlt : n / 2 < 2 ^ fuel := by
        rw [Nat.div_lt_iff_lt_mul (by norm_num)]
        rw [pow_succ] at h
        exact h
      obtain ⟨h1, h3⟩ := ih (n / 2) hpos hlt
      constructor
      · rw [pow_succ]
        have := Nat.div_mul_le_self n 2
        calc 2 ^ F32.leadingBit fuel (n / 2) * 2 ≤ n / 2 * 2 := Nat.mul_le_mul_right 2 h1
          _ ≤ n := this
      · rw [pow_succ]
        have := Nat.lt_succ_iff.mp (Nat.lt_succ_of_le (Nat.le_refl (n / 2)))
        omega

theorem leadingBit_self (n : Nat) (hn : 0 < n) :
    2 ^ F32.leadingBit n n ≤ n ∧ n < 2 ^ (F32.leadingBit n n + 1) :=
  leadingBit_spec n n hn (Nat.lt_two_pow n)

theorem roundHalfEven_spec (n d : Nat) (hd : 0 < d) :
    |((roundHalfEven n d : Nat) : ℚ) - (n : ℚ) / d| ≤ 1 / 2 := by
  have hdq : (0 : ℚ) < d := by exact_mod_cast hd
  have hdiv : (n : ℚ) = (d : ℚ) * ((n / d : Nat) : ℚ) + ((n % d : Nat) : ℚ) := by
    exact_mod_cast (Nat.div_add_mod n d).symm
  have hr : n % d < d := Nat.mod_lt n hd
  have hrq : ((n % d : Nat) : ℚ) < d := by exact_mod_cast hr
  have hr0 : (0 : ℚ) ≤ ((n % d : Nat) : ℚ) := by positivity
  have hx : (n : ℚ) / d = ((n / d : Nat) : ℚ) + ((n % d : Nat) : ℚ) / d := by
    rw [hdiv]; field_simp; ring
  rw [hx]
  unfold roundHalfEven
  simp only []
  by_cases h1 : 2 * (n % d) < d
  · rw [if_pos h1]
    have h1q : 2 * ((n % d : Nat) : ℚ) < d := by exact_mod_cast h1
    rw [abs_le]
    constructor
    · have : ((n % d : Nat) : ℚ) / d ≤ 1 / 2 := by
        rw [div_le_iff₀ hdq]; linarith
      linarith
    · have : 0 ≤ ((n % d : Nat) : ℚ) / d := by positivity
      linarith
  · rw [if_neg h1]
    by_cases h2 : d < 2 * (n % d)
    · rw [if_pos h2]
      have h2q : (d : ℚ) < 2 * ((n % d : Nat) : ℚ) := by exact_mod_cast h2
      push_cast
      rw [abs_le]
      constructor
      · have : ((n % d : Nat) : ℚ) / d ≤ 1 := by
          rw [div_le_iff₀ hdq]; linarith
        linarith
      · have : 1 / 2 ≤ ((n % d : Nat) : ℚ) / d := by
          rw [le_div_iff₀ hdq]; linarith
        linarith
    · rw [if_neg h2]
      have he : 2 * (n % d) = d := by omega
      have heq : 2 * ((n % d : Nat) : ℚ) = d := by exact_mod_cast he
      have hhalf : ((n % d : Nat) : ℚ) / d = 1 / 2 := by
        rw [div_eq_iff (ne_of_gt hdq)]; linarith
      rw [hhalf]
      have hm : n / d % 2 = 0 ∨ n / d % 2 = 1 := by omega
      push_cast
      rcases hm with hm | hm
      · rw [hm]; norm_num
        rw [abs_le]; constructor <;> norm_num
      · rw [hm]; norm_num
        rw [abs_le]; constructor <;> norm_num

theorem two_zpow_toNat (z w : ℤ) (h : w = -z) :
    ((2 : ℚ) ^ z.toNat) / (2 : ℚ) ^ w.toNat = (2 : ℚ) ^ z := by
  subst h
  rcases le_total 0 z with hz | hz
  · have h1 : (-z).toNat = 0 := Int.toNat_eq_zero.mpr (by omega)
    rw [h1, pow_zero, div_one]
    conv_rhs => rw [← Int.toNat_of_nonneg hz]
    rw [zpow_natCast]
  · have h1 : z.toNat = 0 := Int.toNat_eq_zero.mpr hz
    rw [h1, pow_zero]
    have h2 : z = -(((-z).toNat : ℕ) : ℤ) := by
      rw [Int.toNat_of_nonneg (by omega)]; ring
    conv_rhs => rw [h2]
    rw [zpow_neg, zpow_natCast, one_div]

theorem leadExp_aux (n d a b : Nat) (hn : 0 < n) (hd : 0 < d)
    (ha1 : 2 ^ a ≤ n) (ha2 : n < 2 ^ (a + 1)) (hb1 : 2 ^ b ≤ d) (hb2 : d < 2 ^ (b + 1))
    (k1 : ℤ)
    (hk : k1 = if n * 2 ^ (127 - (127 + (a : ℤ) - b)).toNat
        < d * 2 ^ ((127 + (a : ℤ) - b) - 127).toNat
      then 127 + (a : ℤ) - b - 1 else 127 + (a : ℤ) - b) :
    (2 : ℚ) ^ (k1 - 127) ≤ (n : ℚ) / d ∧ (n : ℚ) / d < (2 : ℚ) ^ (k1 - 126) := by
  have hnq : (0 : ℚ) < n := by exact_mod_cast hn
  have hdq : (0 : ℚ) < d := by exact_mod_cast hd
  have ha1q : (2 : ℚ) ^ a ≤ n := by exact_mod_cast ha1
  have ha2q : (n : ℚ) < 2 ^ (a + 1) := by exact_mod_cast ha2
  have hb1q : (2 : ℚ) ^ b ≤ d := by exact_mod_cast hb1
  have hb2q : (d : ℚ) < 2 ^ (b + 1) := by exact_mod_cast hb2
  have hlow : (2 : ℚ) ^ ((a : ℤ) - b - 1) < (n : ℚ) / d := by
    have e : (2 : ℚ) ^ ((a : ℤ) - b - 1) = (2 : ℚ) ^ a / 2 ^ (b + 1) := by
      rw [show (a : ℤ) - b - 1 = (a : ℤ) - ((b + 1 : ℕ) : ℤ) by push_cast; ring]
      rw [zpow_sub₀ (by norm_num), zpow_natCast, zpow_natCast]
    rw [e, div_lt_div_iff₀ (by positivity) hdq]
    calc (2 : ℚ) ^ a * d < 2 ^ a * 2 ^ (b + 1) := by
          apply mul_lt_mul_of_pos_left hb2q (by positivity)
      _ ≤ n * 2 ^ (b + 1) := by
          apply mul_le_mul_of_nonneg_right ha1q (by positivity)
  have hup : (n : ℚ) / d < (2 : ℚ) ^ ((a : ℤ) - b + 1) := by
    have e : (2 : ℚ) ^ ((a : ℤ) - b + 1) = (2 : ℚ) ^ (a + 1) / 2 ^ b := by
      rw [show (a : ℤ) - b + 1 = ((a + 1 : ℕ) : ℤ) - (b : ℤ) by push_cast; ring]
      rw [zpow_sub₀ (by norm_num), zpow_natCast, zpow_natCast]
    rw [e, div_lt_div_iff₀ hdq (by positivity)]
    calc (n : ℚ) * 2 ^ b < 2 ^ (a + 1) * 2 ^ b := by
          apply mul_lt_mul_of_pos_right ha2q (by positivity)
      _ ≤ 2 ^ (a + 1) * d := by
          apply mul_le_mul_of_nonneg_left hb1q (by positivity)
  have htest : (n * 2 ^ (127 - (127 + (a : ℤ) - b)).toNat
        < d * 2 ^ ((127 + (a : ℤ) - b) - 127).toNat)
      ↔ (n : ℚ) / d < (2 : ℚ) ^ ((a : ℤ) - b) := by
    have hz := two_zpow_toNat ((127 + (a : ℤ) - b) - 127) (127 - (127 + (a : ℤ) - b)) (by ring)
    generalize (127 - (127 + (a : ℤ) - b)).toNat = u at hz ⊢
    generalize ((127 + (a : ℤ) - b) - 127).toNat = v at hz ⊢
    rw [show (127 + (a : ℤ) - b) - 127 = (a : ℤ) - b by ring] at hz
    rw [← hz, lt_div_iff₀ (by positivity), div_mul_eq_mul_div, div_lt_iff₀ hdq]
    have hc : (n * 2 ^ u < d * 2 ^ v) ↔ ((n : ℚ) * 2 ^ u < (d : ℚ) * 2 ^ v) := by
      constructor
      · intro h; exact_mod_cast h
      · intro h; exact_mod_cast h
    rw [hc, mul_comm (d : ℚ)]
  by_cases ht : n * 2 ^ (127 - (127 + (a : ℤ) - b)).toNat
      < d * 2 ^ ((127 + (a : ℤ) - b) - 127).toNat
  · rw [if_pos ht] at hk
    have := htest.mp ht
    subst hk
    constructor
    · rw [show 127 + (a : ℤ) - b - 1 - 127 = (a : ℤ) - b - 1 by ring]
      exact le_of_lt hlow
    · rw [show 127 + (a : ℤ) - b - 1 - 126 = (a : ℤ) - b by ring]
      exact this
  · rw [if_neg ht] at hk
    have := not_lt.mp (fun h => ht (htest.mpr h))
    subst hk
    constructor
    · rw [show 127 + (a : ℤ) - b - 127 = (a : ℤ) - b by ring]
      exact this
    · rw [show 127 + (a : ℤ) - b - 126 = (a : ℤ) - b + 1 by ring]
      exact hup

theorem leadExp_spec (n d : Nat) (hn : 0 < n) (hd : 0 < d) :
    (2 : ℚ) ^ (F32.leadExp n d - 127) ≤ (n : ℚ) / d ∧
      (n : ℚ) / d < (2 : ℚ) ^ (F32.leadExp n d - 126) := by
  obtain ⟨ha1, ha2⟩ := leadingBit_self n hn
  obtain ⟨hb1, hb2⟩ := leadingBit_self d hd
  exact leadExp_aux n d _ _ hn hd ha1 ha2 hb1 hb2 _ rfl

theorem roundBits_spec (n d : Nat) (hn : 0 < n) (hd : 0 < d) :
    ∃ m K : Nat, 1 ≤ K ∧ ((n : ℚ) / d < 2 ^ 127 → K ≤ 253) ∧ m ≤ 16777216 ∧
      (2 ≤ K → 8388608 ≤ m) ∧
      F32.roundBits n d = (if 2139095040 ≤ (K - 1) * 8388608 + m then 2139095040
        else (K - 1) * 8388608 + m) ∧
      |(m : ℚ) - (n : ℚ) / d * 2 ^ 150 / 2 ^ K| ≤ 1 / 2 ∧
      ((K = 1 ∧ (n : ℚ) / d < 1 / 2 ^ 126) ∨ (2 : ℚ) ^ K / 2 ^ 127 ≤ (n : ℚ) / d) ∧
      (n : ℚ) / d < 2 ^ K / 2 ^ 126 := by
  obtain ⟨hl, hu⟩ := leadExp_spec n d hn hd
  have hnq : (0 : ℚ) < n := by exact_mod_cast hn
  have hdq : (0 : ℚ) < d := by exact_mod_cast hd
  have hxpos : (0 : ℚ) < (n : ℚ) / d := by positivity
  generalize hk1 : F32.leadExp n d = k1 at hl hu
  generalize hxe : (n : ℚ) / d = x at hl hu hxpos
  -- the exponent stays below the overflow threshold
  have hk1le : x < 2 ^ 127 → k1 ≤ 253 := by
    intro hx
    by_contra hcon
    have h254 : (254 : ℤ) ≤ k1 := by omega
    have : (2 : ℚ) ^ (127 : ℤ) ≤ (2 : ℚ) ^ (k1 - 127) :=
      zpow_le_zpow_right₀ (by norm_num) (by omega)
    have h127 : (2 : ℚ) ^ (127 : ℤ) = 2 ^ 127 := by
      rw [show (127 : ℤ) = ((127 : ℕ) : ℤ) by norm_num, zpow_natCast]
    rw [h127] at this
    linarith
  obtain ⟨K, hK⟩ : ∃ K : Nat, (K : ℤ) = if k1 < 1 then 1 else k1 := by
    refine ⟨(if k1 < 1 then 1 else k1).toNat, ?_⟩
    rw [Int.toNat_of_nonneg]
    split_ifs <;> omega
  have hK1 : 1 ≤ K := by
    have : (1 : ℤ) ≤ K := by rw [hK]; split_ifs <;> omega
    exact_mod_cast this
  have hK253 : x < 2 ^ 127 → K ≤ 253 := by
    intro hx
    have := hk1le hx
    have : (K : ℤ) ≤ 253 := by rw [hK]; split_ifs <;> omega
    exact_mod_cast this
  have hkk : k1 ≤ K := by rw [hK]; split_ifs <;> omega
  have hpowK : ∀ c : ℕ, (2 : ℚ) ^ ((K : ℤ) - (c : ℤ)) = 2 ^ K / 2 ^ c := by
    intro c
    rw [zpow_sub₀ (by norm_num), zpow_natCast, zpow_natCast]
  -- the scaled fraction
  have hy : (((n * 2 ^ (150 - (K : ℤ)).toNat : Nat) : ℚ)) / ((d * 2 ^ ((K : ℤ) - 150).toNat : Nat) : ℚ)
      = x * 2 ^ 150 / 2 ^ K := by
    have hz := two_zpow_toNat (150 - (K : ℤ)) ((K : ℤ) - 150) (by ring)
    have e : (2 : ℚ) ^ (150 - (K : ℤ)) = 2 ^ 150 / 2 ^ K := by
      rw [show (150 : ℤ) = ((150 : ℕ) : ℤ) by norm_num, zpow_sub₀ (by norm_num), zpow_natCast,
        zpow_natCast]
    rw [e] at hz
    push_cast
    rw [mul_div_assoc x, ← hz, ← hxe]
    generalize (150 - (K : ℤ)).toNat = u
    generalize ((K : ℤ) - 150).toNat = v
    field_simp
  have hD : 0 < d * 2 ^ ((K : ℤ) - 150).toNat := Nat.mul_pos hd (by positivity)
  have hm := roundHalfEven_spec (n * 2 ^ (150 - (K : ℤ)).toNat) (d * 2 ^ ((K : ℤ) - 150).toNat) hD
  rw [hy] at hm
  generalize hmdef : roundHalfEven (n * 2 ^ (150 - (K : ℤ)).toNat)
    (d * 2 ^ ((K : ℤ) - 150).toNat) = m at hm
  have hux : x < 2 ^ K / 2 ^ 126 := by
    have : (2 : ℚ) ^ (k1 - 126) ≤ (2 : ℚ) ^ ((K : ℤ) - 126) :=
      zpow_le_zpow_right₀ (by norm_num) (by omega)
    have e := hpowK 126
    simp only [Nat.cast_ofNat] at e
    rw [e] at this
    linarith
  have hp : (0 : ℚ) < 2 ^ K := by positivity
  have hylt : x * 2 ^ 150 / 2 ^ K < 16777216 := by
    rw [div_lt_iff₀ hp]
    rw [lt_div_iff₀ (by positivity)] at hux
    nlinarith
  have hm24 : m ≤ 16777216 := by
    have h1 := (abs_le.mp hm).2
    have : (m : ℚ) < 16777217 := by linarith
    have : m < 16777217 := by exact_mod_cast this
    omega
  have hnormal : ¬ k1 < 1 → (2 : ℚ) ^ K / 2 ^ 127 ≤ x ∧ 8388608 ≤ m := by
    intro hge
    rw [if_neg hge] at hK
    have hlx : (2 : ℚ) ^ K / 2 ^ 127 ≤ x := by
      have e := hpowK 127
      simp only [Nat.cast_ofNat] at e
      rw [← e, hK]
      exact hl
    refine ⟨hlx, ?_⟩
    have hyge : (8388608 : ℚ) ≤ x * 2 ^ 150 / 2 ^ K := by
      rw [le_div_iff₀ hp]
      rw [div_le_iff₀ (by positivity)] at hlx
      nlinarith
    have h1 := (abs_le.mp hm).1
    have : (8388607 : ℚ) < m := by linarith
    have : 8388607 < m := by exact_mod_cast this
    omega
  have hsub : k1 < 1 → K = 1 ∧ x < 1 / 2 ^ 126 := by
    intro hlt
    rw [if_pos hlt] at hK
    have hK' : K = 1 := by exact_mod_cast hK
    refine ⟨hK', ?_⟩
    have : (2 : ℚ) ^ (k1 - 126) ≤ (2 : ℚ) ^ (-126 : ℤ) :=
      zpow_le_zpow_right₀ (by norm_num) (by omega)
    have e : (2 : ℚ) ^ (-126 : ℤ) = 1 / 2 ^ 126 := by
      rw [zpow_neg, show (126 : ℤ) = ((126 : ℕ) : ℤ) by norm_num, zpow_natCast, one_div]
    rw [e] at this
    linarith
  have hK2 : 2 ≤ K → 8388608 ≤ m := by
    intro h2
    by_cases hlt : k1 < 1
    · have := (hsub hlt).1; omega
    · exact (hnormal hlt).2
  refine ⟨m, K, hK1, hK253, hm24, hK2, ?_, hm, ?_, hux⟩
  · unfold F32.roundBits
    simp only [hk1, ← hK, Int.toNat_ofNat, hmdef]
    have hw : (if m < 8388608 then m else (K - 1) * 8388608 + m) = (K - 1) * 8388608 + m := by
      by_cases hlt : m < 8388608
      · have : K = 1 := by
          by_contra hne
          have := hK2 (by omega)
          omega
        rw [if_pos hlt, this]
        simp
      · rw [if_neg hlt]
    rw [hw]
  · by_cases hlt : k1 < 1
    · exact Or.inl (hsub hlt)
    · exact Or.inr (hnormal hlt).1

theorem units_decode (neg : Bool) (K m : Nat) (hK1 : 1 ≤ K)
    (hK : (K - 1) * 8388608 + m < 2139095040) (hm : m ≤ 16777216)
    (hKm : 2 ≤ K → 8388608 ≤ m) :
    (⟨(if neg then 2147483648 else 0) + ((K - 1) * 8388608 + m)⟩ : F32).sign
        = (if neg then 1 else 0) ∧
      (⟨(if neg then 2147483648 else 0) + ((K - 1) * 8388608 + m)⟩ : F32).expo < 255 ∧
      (⟨(if neg then 2147483648 else 0) + ((K - 1) * 8388608 + m)⟩ : F32).units
        = m * 2 ^ (K - 1) ∧
      (⟨(if neg then 2147483648 else 0) + ((K - 1) * 8388608 + m)⟩ : F32).bits < 4294967296 := by
  have hs : ∀ s : Nat, (s = 0 ∨ s = 2147483648) →
      (s + ((K - 1) * 8388608 + m)) / 2147483648 % 2 = s / 2147483648 ∧
      (s + ((K - 1) * 8388608 + m)) / 8388608 % 256 = ((K - 1) * 8388608 + m) / 8388608 ∧
      (s + ((K - 1) * 8388608 + m)) % 8388608 = m % 8388608 ∧
      s + ((K - 1) * 8388608 + m) < 4294967296 := by
    intro s hs
    rcases hs with hs | hs <;> subst hs <;> omega
  have hs' := hs (if neg then 2147483648 else 0) (by cases neg <;> simp)
  obtain ⟨h1, h2, h3, h4⟩ := hs'
  have hsign : (if neg then 2147483648 else 0) / 2147483648 = (if neg = true then 1 else 0) := by
    cases neg <;> simp
  refine ⟨?_, ?_, ?_, h4⟩
  · show _ / 2147483648 % 2 = _
    rw [h1, hsign]
  · show _ / 8388608 % 256 < 255
    rw [h2]; omega
  · unfold F32.units F32.expo F32.mant
    simp only []
    rw [h2, h3]
    rcases Nat.lt_or_ge m 8388608 with hlt | hge
    · have hK' : K = 1 := by
        by_contra hne
        have := hKm (by omega)
        omega
      subst hK'
      have : (1 - 1) * 8388608 + m = m := by omega
      rw [this, Nat.div_eq_of_lt hlt, if_pos rfl, Nat.mod_eq_of_lt hlt]
      simp
    · rcases Nat.lt_or_ge m 16777216 with hlt2 | hge2
      · have e1 : ((K - 1) * 8388608 + m) / 8388608 = K := by omega
        have e2 : m % 8388608 = m - 8388608 := by omega
        rw [e1, e2, if_neg (by omega), show 8388608 + (m - 8388608) = m by omega]
      · have hm' : m = 16777216 := by omega
        subst hm'
        have e1 : ((K - 1) * 8388608 + 16777216) / 8388608 = K + 1 := by omega
        rw [e1, if_neg (by omega)]
        have : K + 1 - 1 = (K - 1) + 1 := by omega
        rw [this, pow_succ, show 16777216 % 8388608 = 0 from rfl]
        ring

set_option maxHeartbeats 1000000 in
theorem round_spec (neg : Bool) (n d : Nat) (hd : 0 < d)
    (hfin : (F32.round neg n d).isFinite) :
    (F32.round neg n d).bits < 4294967296 ∧
      (F32.round neg n d).sign = (if neg then 1 else 0) ∧
      (1 / 2 ^ 126 ≤ (n : ℚ) / d →
        |((F32.round neg n d).units : ℚ) / 2 ^ 149 - (n : ℚ) / d| ≤ (n : ℚ) / d / 2 ^ 24) ∧
      ((n : ℚ) / d ≤ 1 / 2 ^ 126 →
        |((F32.round neg n d).units : ℚ) / 2 ^ 149 - (n : ℚ) / d| ≤ 1 / 2 ^ 150) ∧
      (∀ q : Nat, (n : ℚ) / d * 2 ^ 149 = q → (n : ℚ) / d < 1 / 2 ^ 126 →
        ((F32.round neg n d).units : ℚ) / 2 ^ 149 = (n : ℚ) / d) := by
  have hdq : (0 : ℚ) < d := by exact_mod_cast hd
  rcases Nat.eq_zero_or_pos n with hn | hn
  · subst hn
    have hr : F32.round neg 0 d
        = ⟨(if neg then 2147483648 else 0) + ((1 - 1) * 8388608 + 0)⟩ := by
      simp [F32.round]
    obtain ⟨h1, h2, h3, h4⟩ := units_decode neg 1 0 (le_refl 1) (by norm_num) (by norm_num)
      (by intro h; omega)
    rw [← hr] at h1 h2 h3 h4
    refine ⟨h4, h1, ?_, ?_, ?_⟩
    · intro h; rw [h3]; simp
    · intro h; rw [h3]; simp
    · intro q _ _; rw [h3]; simp
  · obtain ⟨m, K, hK1, _, hm24, hK2, hbits, herr, hcase, hux⟩ := roundBits_spec n d hn hd
    have hsmall : (K - 1) * 8388608 + m < 2139095040 := by
      by_contra hge
      rw [if_pos (not_lt.mp hge)] at hbits
      have hr : F32.round neg n d = ⟨(if neg then 2147483648 else 0) + 2139095040⟩ := by
        simp [F32.round, Nat.pos_iff_ne_zero.mp hn, hbits]
      rw [hr] at hfin
      revert hfin
      cases neg <;> decide
    rw [if_neg (not_le.mpr hsmall)] at hbits
    have hr : F32.round neg n d
        = ⟨(if neg then 2147483648 else 0) + ((K - 1) * 8388608 + m)⟩ := by
      simp [F32.round, Nat.pos_iff_ne_zero.mp hn, hbits]
    obtain ⟨h1, h2, h3, h4⟩ := units_decode neg K m hK1 hsmall hm24 hK2
    rw [← hr] at h1 h2 h3 h4
    generalize F32.round neg n d = r at h1 h2 h3 h4
    generalize (n : ℚ) / d = x at herr hcase hux
    have hp : (0 : ℚ) < 2 ^ K := by positivity
    have hpow : (2 : ℚ) ^ (K - 1) = 2 ^ K / 2 := by
      obtain ⟨j, rfl⟩ : ∃ j, K = j + 1 := ⟨K - 1, by omega⟩
      rw [Nat.add_sub_cancel, pow_succ]; field_simp
    have hmag : (r.units : ℚ) / 2 ^ 149 - x = ((m : ℚ) - x * 2 ^ 150 / 2 ^ K) * (2 ^ K / 2 ^ 150) := by
      rw [h3]; push_cast; rw [hpow]; field_simp; ring
    have hbound : |(r.units : ℚ) / 2 ^ 149 - x| ≤ 2 ^ K / 2 ^ 151 := by
      rw [hmag, abs_mul, abs_of_pos (show (0 : ℚ) < 2 ^ K / 2 ^ 150 by positivity)]
      calc |(m : ℚ) - x * 2 ^ 150 / 2 ^ K| * (2 ^ K / 2 ^ 150)
          ≤ 1 / 2 * (2 ^ K / 2 ^ 150) := by
            apply mul_le_mul_of_nonneg_right herr (by positivity)
        _ = 2 ^ K / 2 ^ 151 := by rw [pow_succ (2 : ℚ) 150]; field_simp; ring
    have hK1case : K = 1 → |(r.units : ℚ) / 2 ^ 149 - x| ≤ 1 / 2 ^ 150 := by
      intro hK
      rw [hK] at hbound
      calc |(r.units : ℚ) / 2 ^ 149 - x| ≤ 2 ^ 1 / 2 ^ 151 := hbound
        _ = 1 / 2 ^ 150 := by rw [pow_succ (2 : ℚ) 150]; field_simp; ring
    have hrel : (2 : ℚ) ^ K / 2 ^ 127 ≤ x → |(r.units : ℚ) / 2 ^ 149 - x| ≤ x / 2 ^ 24 := by
      intro h
      calc |(r.units : ℚ) / 2 ^ 149 - x| ≤ 2 ^ K / 2 ^ 151 := hbound
        _ = 2 ^ K / 2 ^ 127 / 2 ^ 24 := by
            rw [show (151 : ℕ) = 127 + 24 by norm_num, pow_add]; field_simp
        _ ≤ x / 2 ^ 24 := by
            apply div_le_div_of_nonneg_right h (by positivity)
    refine ⟨h4, h1, ?_, ?_, ?_⟩
    · intro hge
      rcases hcase with ⟨_, hlt⟩ | hle
      · linarith
      · exact hrel hle
    · intro hle
      rcases hcase with ⟨hK, _⟩ | hge
      · exact hK1case hK
      · apply hK1case
        by_contra hne
        have h2K : (2 : ℚ) ^ 2 ≤ 2 ^ K := pow_le_pow_right₀ (by norm_num) (by omega)
        have : (2 : ℚ) ^ 2 / 2 ^ 127 ≤ 1 / 2 ^ 126 := by
          calc (2 : ℚ) ^ 2 / 2 ^ 127 ≤ 2 ^ K / 2 ^ 127 :=
                div_le_div_of_nonneg_right h2K (by positivity)
            _ ≤ x := hge
            _ ≤ 1 / 2 ^ 126 := hle
        rw [show (127 : ℕ) = 126 + 1 by norm_num, pow_succ] at this
        rw [div_le_div_iff₀ (by positivity) (by positivity)] at this
        have hpos : (0 : ℚ) < 2 ^ 126 := by positivity
        nlinarith
    · intro q hq hlt
      have hK : K = 1 := by
        rcases hcase with ⟨hK, _⟩ | hge
        · exact hK
        · by_contra hne
          have h2K : (2 : ℚ) ^ 2 ≤ 2 ^ K := pow_le_pow_right₀ (by norm_num) (by omega)
          have : (2 : ℚ) ^ 2 / 2 ^ 127 < 1 / 2 ^ 126 := by
            calc (2 : ℚ) ^ 2 / 2 ^ 127 ≤ 2 ^ K / 2 ^ 127 :=
                  div_le_div_of_nonneg_right h2K (by positivity)
              _ ≤ x := hge
              _ < 1 / 2 ^ 126 := hlt
          rw [show (127 : ℕ) = 126 + 1 by norm_num, pow_succ] at this
          rw [div_lt_div_iff₀ (by positivity) (by positivity)] at this
          have hpos : (0 : ℚ) < 2 ^ 126 := by positivity
          nlinarith
      subst hK
      have hy : x * 2 ^ 150 / 2 ^ 1 = q := by
        rw [← hq, pow_succ (2 : ℚ) 149]; field_simp; ring
      rw [hy] at herr
      have hmq : m = q := by
        have h1' := abs_le.mp herr
        have ha : (m : ℚ) < q + 1 := by linarith only [h1'.2]
        have hb : (q : ℚ) < m + 1 := by linarith only [h1'.1]
        have ha' : m < q + 1 := by exact_mod_cast ha
        have hb' : q < m + 1 := by exact_mod_cast hb
        omega
      rw [h3, hmq]
      simp only [Nat.sub_self, pow_zero, mul_one]
      rw [← hq]; field_simp

theorem round_finite (neg : Bool) (n d : Nat) (hd : 0 < d) (hx : (n : ℚ) / d < 2 ^ 127) :
    (F32.round neg n d).isFinite := by
  rcases Nat.eq_zero_or_pos n with hn | hn
  · subst hn
    have hr : F32.round neg 0 d = ⟨(if neg then 2147483648 else 0)⟩ := by
      simp [F32.round]
    rw [hr]
    cases neg <;> decide
  · obtain ⟨m, K, hK1, hK253, hm24, hK2, hbits, _, _, _⟩ := roundBits_spec n d hn hd
    have hsmall : (K - 1) * 8388608 + m < 2139095040 := by
      have := hK253 hx
      have : (K - 1) * 8388608 ≤ 252 * 8388608 := Nat.mul_le_mul_right _ (by omega)
      omega
    rw [if_neg (not_le.mpr hsmall)] at hbits
    have hr : F32.round neg n d
        = ⟨(if neg then 2147483648 else 0) + ((K - 1) * 8388608 + m)⟩ := by
      simp [F32.round, Nat.pos_iff_ne_zero.mp hn, hbits]
    rw [hr]
    exact (units_decode neg K m hK1 hsmall hm24 hK2).2.1

theorem roundBits_le (n d : Nat) : F32.roundBits n d ≤ 2139095040 := by
  unfold F32.roundBits
  simp only []
  split_ifs <;> omega

theorem round_bits_lt (neg : Bool) (n d : Nat) : (F32.round neg n d).bits < 4294967296 := by
  unfold F32.round
  have := roundBits_le n d
  simp only []
  cases neg <;> split_ifs <;> simp <;> omega

/-! ## Single-precision arithmetic: the operations against exact arithmetic -/

theorem sign_lt_two (x : F32) : x.sign = 0 ∨ x.sign = 1 := by
  unfold F32.sign; omega

theorem toRat_eq (x : F32) :
    x.toRat = (if x.sign = 1 then -1 else 1) * ((x.units : ℚ) / 2 ^ 149) := by
  unfold F32.toRat F32.signedUnits
  split_ifs <;> push_cast <;> ring

theorem abs_toRat (x : F32) : |x.toRat| = (x.units : ℚ) / 2 ^ 149 := by
  rw [toRat_eq]
  have h : (0 : ℚ) ≤ (x.units : ℚ) / 2 ^ 149 := by positivity
  split_ifs
  · rw [neg_one_mul, abs_neg, abs_of_nonneg h]
  · rw [one_mul, abs_of_nonneg h]

theorem not_nan_of_finite (x : F32) (h : x.isFinite) : ¬ x.isNaN := by
  unfold F32.isFinite at h; unfold F32.isNaN; omega

theorem not_inf_of_finite (x : F32) (h : x.isFinite) : ¬ x.isInf := by
  unfold F32.isFinite at h; unfold F32.isInf; omega

theorem cast_pow149 : (((2 : ℕ) ^ 149 : ℕ) : ℚ) = (2 : ℚ) ^ 149 := by
  rw [Nat.cast_pow, Nat.cast_ofNat]

theorem round_toRat (neg : Bool) (n d : Nat) (hd : 0 < d) (h1 : (F32.round neg n d).isFinite)
    (q : ℚ) (hq : q = (if neg then -1 else 1) * ((n : ℚ) / d)) :
    (F32.round neg n d).isRounded q := by
  obtain ⟨h2, h3, h4, h5, h6⟩ := round_spec neg n d hd h1
  have hdq : (0 : ℚ) < d := by exact_mod_cast hd
  have hx0 : (0 : ℚ) ≤ (n : ℚ) / d := div_nonneg (Nat.cast_nonneg n) (le_of_lt hdq)
  have habs : |q| = (n : ℚ) / d := by
    rw [hq]
    cases neg
    · rw [if_neg Bool.false_ne_true, one_mul, abs_of_nonneg hx0]
    · rw [if_pos rfl, neg_one_mul, abs_neg, abs_of_nonneg hx0]
  have hdiff : |(F32.round neg n d).toRat - q|
      = |((F32.round neg n d).units : ℚ) / 2 ^ 149 - (n : ℚ) / d| := by
    rw [toRat_eq, h3, hq]
    cases neg
    · simp
    · simp only [if_true]
      rw [← abs_neg]; congr 1; ring
  refine ⟨h1, h2, ?_, ?_, ?_⟩
  · intro h; rw [hdiff, habs]; rw [habs] at h; exact h4 h
  · intro h; rw [hdiff]; rw [habs] at h; exact h5 h
  · intro j hj hlt
    rw [habs] at hj hlt
    have := h6 j hj hlt
    rw [toRat_eq, h3, hq, this]
    cases neg <;> simp

theorem isRounded_err (r : F32) (q : ℚ) (h : r.isRounded q) :
    |r.toRat - q| ≤ |q| / 2 ^ 24 + 1 / 2 ^ 150 := by
  obtain ⟨_, _, h3, h4, _⟩ := h
  have hq : (0 : ℚ) ≤ |q| / 2 ^ 24 := div_nonneg (abs_nonneg q) (by positivity)
  have hc : (0 : ℚ) ≤ 1 / 2 ^ 150 := by positivity
  rcases le_total (1 / 2 ^ 126) |q| with hle | hle
  · have := h3 hle; linarith only [this, hc]
  · have := h4 hle; linarith only [this, hq]

theorem isRounded_zero (r : F32) (h : r.isRounded 0) : r.toRat = 0 := by
  obtain ⟨_, _, _, _, h5⟩ := h
  exact h5 0 (by simp) (by rw [abs_zero]; positivity)

theorem signFactor_mul (a b : F32) :
    ((if a.sign = 1 then -1 else 1) * (if b.sign = 1 then -1 else 1) : ℚ)
      = (if decide (a.sign ≠ b.sign) then -1 else 1) := by
  rcases sign_lt_two a with ha | ha <;> rcases sign_lt_two b with hb | hb <;>
    simp [ha, hb]

theorem nan_not_finite : ¬ F32.nan.isFinite := by decide

theorem inf_not_finite (neg : Bool) : ¬ (F32.inf neg).isFinite := by
  cases neg <;> decide

theorem nan_or_inf_of_not_finite (x : F32) (h : ¬ x.isFinite) : x.isNaN ∨ x.isInf := by
  have h255 : x.expo = 255 := by
    unfold F32.isFinite at h
    have : x.expo < 256 := by unfold F32.expo; omega
    omega
  by_cases hm : x.mant = 0
  · exact Or.inr ⟨h255, hm⟩
  · exact Or.inl ⟨h255, hm⟩

theorem zero_isRounded (neg : Bool) : (F32.zero neg).isRounded 0 := by
  have hu : (F32.zero neg).units = 0 := by cases neg <;> decide
  have ht : (F32.zero neg).toRat = 0 := by rw [toRat_eq, hu]; simp
  refine ⟨by cases neg <;> decide, by cases neg <;> decide, ?_, ?_, ?_⟩
  · intro _; rw [ht]; simp
  · intro _; rw [ht]; simp
  · intro _ _ _; exact ht

theorem zero_toRat (neg : Bool) : (F32.zero neg).toRat = 0 := isRounded_zero _ (zero_isRounded neg)

theorem zero_isFinite (neg : Bool) : (F32.zero neg).isFinite := (zero_isRounded neg).1

theorem mul_finite_args (a b : F32) (h : (F32.mul a b).isFinite) : a.isFinite ∧ b.isFinite := by
  unfold F32.mul at h
  by_cases h1 : a.isNaN ∨ b.isNaN
  · rw [if_pos h1] at h; exact absurd h nan_not_finite
  · rw [if_neg h1] at h
    by_cases h2 : (a.isInf ∧ b.units = 0) ∨ (b.isInf ∧ a.units = 0)
    · rw [if_pos h2] at h; exact absurd h nan_not_finite
    · rw [if_neg h2] at h
      by_cases h3 : a.isInf ∨ b.isInf
      · rw [if_pos h3] at h; exact absurd h (inf_not_finite _)
      · push_neg at h1 h3
        constructor
        · by_contra hc
          rcases nan_or_inf_of_not_finite a hc with hh | hh
          · exact h1.1 hh
          · exact h3.1 hh
        · by_contra hc
          rcases nan_or_inf_of_not_finite b hc with hh | hh
          · exact h1.2 hh
          · exact h3.2 hh

theorem div_finite_arg (a b : F32) (h : (F32.div a b).isFinite) : a.isFinite := by
  unfold F32.div at h
  by_cases h1 : a.isNaN ∨ b.isNaN
  · rw [if_pos h1] at h; exact absurd h nan_not_finite
  · rw [if_neg h1] at h
    by_cases h2 : a.isInf
    · rw [if_pos h2] at h
      split_ifs at h
      · exact absurd h nan_not_finite
      · exact absurd h (inf_not_finite _)
    · push_neg at h1
      by_contra hc
      rcases nan_or_inf_of_not_finite a hc with hh | hh
      · exact h1.1 hh
      · exact h2 hh

theorem mul_eq_round (a b : F32) (ha : a.isFinite) (hb : b.isFinite) :
    F32.mul a b
      = F32.round (decide (a.sign ≠ b.sign)) (a.units * b.units) (2 ^ 149 * 2 ^ 149) := by
  unfold F32.mul
  rw [if_neg (by simp [not_nan_of_finite a ha, not_nan_of_finite b hb]),
    if_neg (by simp [not_inf_of_finite a ha, not_inf_of_finite b hb]),
    if_neg (by simp [not_inf_of_finite a ha, not_inf_of_finite b hb])]

theorem mul_units_cast (a b : F32) :
    ((a.units * b.units : Nat) : ℚ) / ((2 ^ 149 * 2 ^ 149 : Nat) : ℚ)
      = (a.units : ℚ) / 2 ^ 149 * ((b.units : ℚ) / 2 ^ 149) := by
  rw [Nat.cast_mul, Nat.cast_mul, cast_pow149]
  field_simp

theorem mul_spec_fin (a b : F32) (ha : a.isFinite) (hb : b.isFinite)
    (h : (F32.mul a b).isFinite) : (F32.mul a b).isRounded (a.toRat * b.toRat) := by
  rw [mul_eq_round a b ha hb] at h ⊢
  apply round_toRat _ _ _ (by positivity) h
  rw [mul_units_cast, toRat_eq a, toRat_eq b, ← signFactor_mul]; ring

theorem mul_finite (a b : F32) (ha : a.isFinite) (hb : b.isFinite)
    (h : |a.toRat * b.toRat| < 2 ^ 127) : (F32.mul a b).isFinite := by
  rw [mul_eq_round a b ha hb]
  apply round_finite _ _ _ (by positivity)
  rw [mul_units_cast, ← abs_toRat, ← abs_toRat, ← abs_mul]; exact h

theorem mul_spec (a b : F32) (ha : a.isFinite) (hb : b.isFinite)
    (h : |a.toRat * b.toRat| < 2 ^ 127) : (F32.mul a b).isRounded (a.toRat * b.toRat) :=
  mul_spec_fin a b ha hb (mul_finite a b ha hb h)

theorem mul_bits_lt (a b : F32) : (F32.mul a b).bits < 4294967296 := by
  unfold F32.mul
  split_ifs
  · decide
  · decide
  · unfold F32.inf; simp only []; split_ifs <;> omega
  · exact round_bits_lt _ _ _

theorem units_ne_zero (b : F32) (hb0 : b.toRat ≠ 0) : b.units ≠ 0 := by
  intro hz
  apply hb0
  rw [toRat_eq, hz]; simp

theorem div_eq_round (a b : F32) (ha : a.isFinite) (hb : b.isFinite) (hb0 : b.toRat ≠ 0) :
    F32.div a b = F32.round (decide (a.sign ≠ b.sign)) a.units b.units := by
  unfold F32.div
  rw [if_neg (by simp [not_nan_of_finite a ha, not_nan_of_finite b hb]),
    if_neg (not_inf_of_finite a ha), if_neg (not_inf_of_finite b hb),
    if_neg (units_ne_zero b hb0)]

theorem div_units_cast (a b : F32) (hb0 : b.toRat ≠ 0) :
    (a.units : ℚ) / (b.units : ℚ) = (a.units : ℚ) / 2 ^ 149 / ((b.units : ℚ) / 2 ^ 149) := by
  have huq : (b.units : ℚ) ≠ 0 := by exact_mod_cast units_ne_zero b hb0
  field_simp

theorem div_spec_fin (a b : F32) (ha : a.isFinite) (hb : b.isFinite) (hb0 : b.toRat ≠ 0)
    (h : (F32.div a b).isFinite) : (F32.div a b).isRounded (a.toRat / b.toRat) := by
  rw [div_eq_round a b ha hb hb0] at h ⊢
  apply round_toRat _ _ _ (Nat.pos_of_ne_zero (units_ne_zero b hb0)) h
  rw [div_units_cast a b hb0, toRat_eq a, toRat_eq b, ← signFactor_mul]
  generalize (a.units : ℚ) / 2 ^ 149 = A
  generalize (b.units : ℚ) / 2 ^ 149 = B
  rcases sign_lt_two a with hsa | hsa <;> rcases sign_lt_two b with hsb | hsb <;>
    simp [hsa, hsb, div_neg, neg_div]

theorem div_finite (a b : F32) (ha : a.isFinite) (hb : b.isFinite) (hb0 : b.toRat ≠ 0)
    (h : |a.toRat / b.toRat| < 2 ^ 127) : (F32.div a b).isFinite := by
  rw [div_eq_round a b ha hb hb0]
  apply round_finite _ _ _ (Nat.pos_of_ne_zero (units_ne_zero b hb0))
  rw [div_units_cast a b hb0, ← abs_toRat, ← abs_toRat, ← abs_div]; exact h

theorem div_spec (a b : F32) (ha : a.isFinite) (hb : b.isFinite) (hb0 : b.toRat ≠ 0)
    (h : |a.toRat / b.toRat| < 2 ^ 127) : (F32.div a b).isRounded (a.toRat / b.toRat) :=
  div_spec_fin a b ha hb hb0 (div_finite a b ha hb hb0 h)

theorem sub_toRat_units (a b : F32) :
    a.toRat - b.toRat = ((a.signedUnits - b.signedUnits : Int) : ℚ) / 2 ^ 149 := by
  unfold F32.toRat; push_cast; ring

theorem sub_eq_round (a b : F32) (ha : a.isFinite) (hb : b.isFinite) :
    F32.sub a b = if a.signedUnits - b.signedUnits = 0
      then F32.zero (decide (a.sign = 1 ∧ b.sign = 0))
      else F32.round (decide (a.signedUnits - b.signedUnits < 0))
        (a.signedUnits - b.signedUnits).natAbs (2 ^ 149) := by
  unfold F32.sub
  rw [if_neg (by simp [not_nan_of_finite a ha, not_nan_of_finite b hb]),
    if_neg (not_inf_of_finite a ha), if_neg (not_inf_of_finite b hb)]

theorem sub_spec_fin (a b : F32) (ha : a.isFinite) (hb : b.isFinite)
    (h : (F32.sub a b).isFinite) :
    (F32.sub a b).isRounded (a.toRat - b.toRat) ∧
      |(F32.sub a b).toRat - (a.toRat - b.toRat)| ≤ |a.toRat - b.toRat| / 2 ^ 24 := by
  have hq := sub_toRat_units a b
  have e := sub_eq_round a b ha hb
  generalize a.signedUnits - b.signedUnits = d at hq e
  have hmain : (F32.sub a b).isRounded (a.toRat - b.toRat) := by
    rw [e] at h ⊢
    by_cases hz : d = 0
    · rw [if_pos hz, hq, hz]
      simpa using zero_isRounded _
    · rw [if_neg hz] at h ⊢
      have habs : ((d.natAbs : Nat) : ℚ) = |(d : ℚ)| := by
        rw [Nat.cast_natAbs, Int.cast_abs]
      apply round_toRat _ _ _ (by positivity) h
      rw [cast_pow149, habs, hq]
      by_cases hneg : d < 0
      · have : (d : ℚ) < 0 := by exact_mod_cast hneg
        simp only [hneg, decide_True, if_true]
        rw [abs_of_neg this]; ring
      · have : (0 : ℚ) ≤ d := by exact_mod_cast (not_lt.mp hneg)
        simp only [hneg, decide_False]
        rw [abs_of_nonneg this]; simp
  refine ⟨hmain, ?_⟩
  obtain ⟨_, _, h3, _, h5⟩ := hmain
  rcases le_or_lt (1 / 2 ^ 126) |a.toRat - b.toRat| with hle | hlt
  · exact h3 hle
  · have hj : |a.toRat - b.toRat| * 2 ^ 149 = (d.natAbs : ℚ) := by
      rw [hq, abs_div, abs_of_pos (show (0 : ℚ) < 2 ^ 149 by positivity), Nat.cast_natAbs,
        Int.cast_abs]
      field_simp
    rw [h5 d.natAbs hj hlt, sub_self, abs_zero]
    exact div_nonneg (abs_nonneg _) (by positivity)

theorem sub_finite (a b : F32) (ha : a.isFinite) (hb : b.isFinite)
    (h : |a.toRat - b.toRat| < 2 ^ 127) : (F32.sub a b).isFinite := by
  have hq := sub_toRat_units a b
  rw [sub_eq_round a b ha hb]
  generalize a.signedUnits - b.signedUnits = d at hq
  by_cases hz : d = 0
  · rw [if_pos hz]; exact (zero_isRounded _).1
  · rw [if_neg hz]
    apply round_finite _ _ _ (by positivity)
    have habs : ((d.natAbs : Nat) : ℚ) = |(d : ℚ)| := by
      rw [Nat.cast_natAbs, Int.cast_abs]
    rw [cast_pow149, habs]
    have : |(d : ℚ)| / 2 ^ 149 = |(d : ℚ) / 2 ^ 149| := by
      rw [abs_div, abs_of_pos (show (0 : ℚ) < 2 ^ 149 by positivity)]
    rw [this, ← hq]
    exact h

theorem sub_spec (a b : F32) (ha : a.isFinite) (hb : b.isFinite)
    (h : |a.toRat - b.toRat| < 2 ^ 127) :
    (F32.sub a b).isRounded (a.toRat - b.toRat) ∧
      |(F32.sub a b).toRat - (a.toRat - b.toRat)| ≤ |a.toRat - b.toRat| / 2 ^ 24 :=
  sub_spec_fin a b ha hb (sub_finite a b ha hb h)

theorem ofInt_spec (n : Int) (h : |(n : ℚ)| < 2 ^ 127) :
    (F32.ofInt n).isRounded n ∧ |(F32.ofInt n).toRat - n| ≤ |(n : ℚ)| / 2 ^ 24 := by
  have habs : ((n.natAbs : Nat) : ℚ) = |(n : ℚ)| := by
    rw [Nat.cast_natAbs, Int.cast_abs]
  have hmain : (F32.ofInt n).isRounded n := by
    unfold F32.ofInt
    apply round_toRat _ _ _ (by norm_num)
    · apply round_finite _ _ _ (by norm_num)
      rw [habs]; simpa using h
    · rw [habs]
      by_cases hneg : n < 0
      · have : (n : ℚ) < 0 := by exact_mod_cast hneg
        simp only [hneg, decide_True, if_true]
        rw [abs_of_neg this]; simp
      · have : (0 : ℚ) ≤ n := by exact_mod_cast (not_lt.mp hneg)
        simp only [hneg, decide_False]
        rw [abs_of_nonneg this]; simp
  refine ⟨hmain, ?_⟩
  obtain ⟨_, _, h3, _, h5⟩ := hmain
  rcases le_or_lt (1 / 2 ^ 126) |(n : ℚ)| with hle | hlt
  · exact h3 hle
  · have hj : |(n : ℚ)| * 2 ^ 149 = ((n.natAbs * 2 ^ 149 : Nat) : ℚ) := by
      rw [Nat.cast_mul, cast_pow149, habs]
    rw [h5 _ hj hlt, sub_self, abs_zero]
    exact div_nonneg (abs_nonneg _) (by positivity)

theorem neg_fields (x : F32) :
    x.neg.sign = 1 - x.sign ∧ x.neg.expo = x.expo ∧ x.neg.mant = x.mant := by
  unfold F32.neg F32.sign F32.expo F32.mant
  simp only []
  split_ifs with h <;> omega

theorem neg_spec (x : F32) :
    x.neg.toRat = -x.toRat ∧ (x.isFinite → x.neg.isFinite) ∧
      (x.bits < 4294967296 → x.neg.bits < 4294967296) := by
  obtain ⟨h1, h2, h3⟩ := neg_fields x
  have hu : x.neg.units = x.units := by
    unfold F32.units; rw [h2, h3]
  refine ⟨?_, ?_, ?_⟩
  · rw [toRat_eq, toRat_eq x, hu, h1]
    rcases sign_lt_two x with hs | hs <;> simp [hs]
  · unfold F32.isFinite; rw [h2]; exact id
  · intro hb
    unfold F32.neg
    simp only []
    have := sign_lt_two x
    unfold F32.sign at this ⊢
    split_ifs with h <;> omega

theorem sub_finite_args (a b : F32) (h : (F32.sub a b).isFinite) : a.isFinite ∧ b.isFinite := by
  unfold F32.sub at h
  by_cases h1 : a.isNaN ∨ b.isNaN
  · rw [if_pos h1] at h; exact absurd h nan_not_finite
  · rw [if_neg h1] at h
    push_neg at h1
    by_cases h2 : a.isInf
    · rw [if_pos h2] at h
      split_ifs at h
      · exact absurd h nan_not_finite
      · exact absurd h (fun hf => not_inf_of_finite a hf h2)
    · rw [if_neg h2] at h
      have ha : a.isFinite := by
        by_contra hc
        rcases nan_or_inf_of_not_finite a hc with hh | hh
        · exact h1.1 hh
        · exact h2 hh
      by_cases h3 : b.isInf
      · rw [if_pos h3] at h
        exfalso
        have hb : ¬ b.isFinite := fun hf => not_inf_of_finite b hf h3
        apply hb
        have := (neg_fields b).2.1
        unfold F32.isFinite at h ⊢
        rw [this] at h
        exact h
      · refine ⟨ha, ?_⟩
        by_contra hc
        rcases nan_or_inf_of_not_finite b hc with hh | hh
        · exact h1.2 hh
        · exact h3 hh

theorem lt_spec (a b : F32) (ha : a.isFinite) (hb : b.isFinite) :
    F32.lt a b ↔ a.toRat < b.toRat := by
  unfold F32.lt F32.toRat
  rw [div_lt_div_iff_of_pos_right (by positivity)]
  constructor
  · rintro ⟨_, _, h⟩; exact_mod_cast h
  · intro h
    exact ⟨not_nan_of_finite a ha, not_nan_of_finite b hb, by exact_mod_cast h⟩

theorem ofInt_zero_toRat : (F32.ofInt 0).toRat = 0 := by
  have := (ofInt_spec 0 (by norm_num)).2
  simpa using this

theorem absMacro_spec (x : F32) (hx : x.isFinite) :
    (F32.absMacro x).isFinite ∧ (F32.absMacro x).toRat = |x.toRat| ∧
      (x.bits < 4294967296 → (F32.absMacro x).bits < 4294967296) := by
  have h0 : (F32.ofInt 0).isFinite := (ofInt_spec 0 (by norm_num)).1.1
  unfold F32.absMacro
  by_cases h : F32.lt (F32.ofInt 0) x
  · rw [if_pos h]
    have := (lt_spec _ _ h0 hx).mp h
    rw [ofInt_zero_toRat] at this
    exact ⟨hx, (abs_of_pos this).symm, id⟩
  · rw [if_neg h]
    have := fun hh => h ((lt_spec _ _ h0 hx).mpr hh)
    rw [ofInt_zero_toRat] at this
    obtain ⟨n1, n2, n3⟩ := neg_spec x
    exact ⟨n2 hx, by rw [n1, abs_of_nonpos (not_lt.mp this)], n3⟩

theorem absMacro_finite_arg (x : F32) (h : (F32.absMacro x).isFinite) : x.isFinite := by
  unfold F32.absMacro at h
  split_ifs at h
  · exact h
  · have := (neg_fields x).2.1
    unfold F32.isFinite at h ⊢
    rw [this] at h
    exact h

theorem natDiv_bounds (u : Nat) :
    ((u / 2 ^ 149 : Nat) : ℚ) ≤ (u : ℚ) / 2 ^ 149 ∧
      (u : ℚ) / 2 ^ 149 < ((u / 2 ^ 149 : Nat) : ℚ) + 1 := by
  constructor
  · rw [le_div_iff₀ (by positivity), ← cast_pow149]
    exact_mod_cast Nat.div_mul_le_self u (2 ^ 149)
  · rw [div_lt_iff₀ (by positivity), ← cast_pow149]
    have := Nat.lt_div_mul_add (a := u) (b := 2 ^ 149) (by positivity)
    have h2 : u < (u / 2 ^ 149 + 1) * 2 ^ 149 := by
      rw [Nat.add_mul, Nat.one_mul]; exact this
    exact_mod_cast h2

theorem toLong_spec (x : F32) (t : Int) (h : x.toLong = some t) :
    x.isFinite ∧ |(t : ℚ) - x.toRat| < 1 ∧ |(t : ℚ)| ≤ |x.toRat| ∧
      -2147483648 ≤ t ∧ t ≤ 2147483647 := by
  unfold F32.toLong at h
  obtain ⟨hdiv1, hdiv2⟩ := natDiv_bounds x.units
  generalize x.units / 2 ^ 149 = k at h hdiv1 hdiv2
  have hnn : (0 : ℚ) ≤ (k : ℚ) := Nat.cast_nonneg _
  by_cases hf : x.isFinite
  · rw [if_pos hf] at h
    simp only [] at h
    by_cases hr : -2147483648 ≤ (if x.sign = 1 then -(k : ℤ) else (k : ℤ)) ∧
        (if x.sign = 1 then -(k : ℤ) else (k : ℤ)) ≤ 2147483647
    · rw [if_pos hr] at h
      have ht := Option.some.inj h
      refine ⟨hf, ?_, ?_, ht ▸ hr.1, ht ▸ hr.2⟩
      · rw [← ht, toRat_eq]
        by_cases hs : x.sign = 1
        · simp only [hs, if_true, Int.cast_neg, Int.cast_natCast]
          rw [abs_lt]; constructor <;> linarith only [hdiv1, hdiv2]
        · simp only [hs, if_false, Int.cast_natCast]
          rw [abs_lt]; constructor <;> linarith only [hdiv1, hdiv2]
      · rw [← ht, abs_toRat]
        by_cases hs : x.sign = 1
        · simp only [hs, if_true, Int.cast_neg, Int.cast_natCast]
          rw [abs_neg, abs_of_nonneg hnn]; exact hdiv1
        · simp only [hs, if_false, Int.cast_natCast]
          rw [abs_of_nonneg hnn]; exact hdiv1
    · rw [if_neg hr] at h; exact absurd h (by simp)
  · rw [if_neg hf] at h; exact absurd h (by simp)

theorem toLong_defined (x : F32) (hf : x.isFinite) (h : |x.toRat| < 2147483648) :
    ∃ t, x.toLong = some t := by
  have hu : (x.units : ℚ) / 2 ^ 149 < 2147483648 := by rw [← abs_toRat]; exact h
  obtain ⟨hdiv1, _⟩ := natDiv_bounds x.units
  have hlt : ((x.units / 2 ^ 149 : Nat) : ℚ) < 2147483648 := lt_of_le_of_lt hdiv1 hu
  have hlt' : x.units / 2 ^ 149 < 2147483648 := by exact_mod_cast hlt
  unfold F32.toLong
  rw [if_pos hf]
  simp only []
  generalize x.units / 2 ^ 149 = k at hlt'
  by_cases hs : x.sign = 1
  · simp only [hs, if_true]
    rw [if_pos (by constructor <;> omega)]
    exact ⟨_, rfl⟩
  · simp only [hs, if_false]
    rw [if_pos (by constructor <;> omega)]
    exact ⟨_, rfl⟩

theorem float4Bits_bitsFloat4 (w : Nat) (h : w < 4294967296) : float4Bits (bitsFloat4 w) = w := by
  unfold float4Bits bitsFloat4
  simp only [Fin.ofNat, Fin.val_zero, Fin.val_one, Fin.val_two, pow_zero, pow_one,
    Nat.div_one]
  have h3 : ((3 : Fin 4) : Nat) = 3 := rfl
  rw [h3]
  norm_num
  omega

theorem ofBytes_toBytes (x : F32) (h : x.bits < 4294967296) : F32.ofBytes x.toBytes = x := by
  unfold F32.ofBytes F32.toBytes
  rw [float4Bits_bitsFloat4 _ h]

theorem encoderSteps_toRat : F32.encoderSteps.toRat = 8148 := by
  have h : F32.encoderSteps.signedUnits = 8148 * 2 ^ 149 := by decide!
  rw [F32.toRat, h]
  norm_num

theorem encoderSteps_isFinite : F32.encoderSteps.isFinite := by decide!

theorem ofInt_1000_toRat : (F32.ofInt 1000).toRat = 1000 := by
  have h : (F32.ofInt 1000).signedUnits = 1000 * 2 ^ 149 := by decide!
  rw [F32.toRat, h]
  norm_num

theorem ofInt_20_toRat : (F32.ofInt 20).toRat = 20 := by
  have h : (F32.ofInt 20).signedUnits = 20 * 2 ^ 149 := by decide!
  rw [F32.toRat, h]
  norm_num

theorem ofInt_10_toRat : (F32.ofInt 10).toRat = 10 := by
  have h : (F32.ofInt 10).signedUnits = 10 * 2 ^ 149 := by decide!
  rw [F32.toRat, h]
  norm_num

theorem lit06_toRat : F32.lit06.toRat = 16106127 / 268435456 := by
  have h : F32.lit06.signedUnits = 16106127 * 2 ^ 121 := by decide!
  rw [F32.toRat, h]
  norm_num

theorem lit02_toRat : F32.lit02.toRat = 10737418 / 536870912 := by
  have h : F32.lit02.signedUnits = 10737418 * 2 ^ 120 := by decide!
  rw [F32.toRat, h]
  norm_num

theorem lt_lit02_lit06 (e : F32) (h : F32.lt e F32.lit02) : F32.lt e F32.lit06 := by
  obtain ⟨h1, _, h3⟩ := h
  have h26 : F32.lit02.signedUnits < F32.lit06.signedUnits := by decide!
  exact ⟨h1, by decide!, lt_trans h3 h26⟩

theorem finite_lt (x : F32) (h : x.isFinite) : |x.toRat| < 2 ^ 128 := by
  rw [abs_toRat, div_lt_iff₀ (by positivity)]
  have hu : x.units < 2 ^ 24 * 2 ^ 253 := by
    unfold F32.isFinite at h
    unfold F32.units
    have hm : x.mant < 8388608 := by unfold F32.mant; omega
    have h24 : (2 : ℕ) ^ 24 = 16777216 := by norm_num
    split_ifs with he
    · calc x.mant < 2 ^ 24 * 1 := by omega
        _ ≤ 2 ^ 24 * 2 ^ 253 := Nat.mul_le_mul_left _ (Nat.one_le_two_pow)
    · have h1 : 8388608 + x.mant < 2 ^ 24 := by omega
      have h2 : 2 ^ (x.expo - 1) ≤ 2 ^ 253 := Nat.pow_le_pow_right (by norm_num) (by omega)
      calc (8388608 + x.mant) * 2 ^ (x.expo - 1) < 2 ^ 24 * 2 ^ (x.expo - 1) :=
            Nat.mul_lt_mul_of_pos_right h1 (by positivity)
        _ ≤ 2 ^ 24 * 2 ^ 253 := Nat.mul_le_mul_left _ h2
  have : ((x.units : ℕ) : ℚ) < ((2 ^ 24 * 2 ^ 253 : ℕ) : ℚ) := by exact_mod_cast hu
  calc (x.units : ℚ) < ((2 ^ 24 * 2 ^ 253 : ℕ) : ℚ) := this
    _ = 2 ^ 128 * 2 ^ 149 := by
      rw [Nat.cast_mul, Nat.cast_pow, Nat.cast_pow, Nat.cast_ofNat, ← pow_add, ← pow_add]

theorem units_pos_of_toRat_pos (x : F32) (h : 0 < x.toRat) : 1 / 2 ^ 149 ≤ x.toRat := by
  have habs := abs_toRat x
  rw [abs_of_pos h] at habs
  rw [habs, div_le_div_iff_of_pos_right (by positivity)]
  have hne : x.units ≠ 0 := by
    intro hz
    rw [habs, hz] at h
    simp at h
  have : 1 ≤ x.units := Nat.one_le_iff_ne_zero.mpr hne
  exact_mod_cast this

theorem pos_of_lt_zero (M : F32) (hM : M.isFinite) (hpos : F32.lt (F32.zero false) M) :
    0 < M.toRat := by
  have := (lt_spec _ _ (zero_isFinite false) hM).mp hpos
  rwa [zero_toRat] at this

theorem mul_zero_left (a b : F32) (ha : a.isFinite) (hb : b.isFinite) (h0 : a.toRat = 0) :
    (F32.mul a b).isFinite ∧ (F32.mul a b).toRat = 0 := by
  have h := mul_spec a b ha hb (by rw [h0, zero_mul, abs_zero]; positivity)
  rw [h0, zero_mul] at h
  exact ⟨h.1, isRounded_zero _ h⟩

theorem div_zero_left (a b : F32) (ha : a.isFinite) (hb : b.isFinite) (h0 : a.toRat = 0)
    (hb0 : b.toRat ≠ 0) : (F32.div a b).isFinite ∧ (F32.div a b).toRat = 0 := by
  have h := div_spec a b ha hb hb0 (by rw [h0, zero_div, abs_zero]; positivity)
  rw [h0, zero_div] at h
  exact ⟨h.1, isRounded_zero _ h⟩

/-! ## Accumulation of rounding errors -/

theorem abs_le_add_of_sub (a b : ℚ) : |a| ≤ |b| + |a - b| := by
  have := abs_sub_abs_le_abs_sub a b
  linarith only [this]

theorem abs_sub_le3 (a b c d : ℚ) : |a - d| ≤ |a - b| + |b - c| + |c - d| := by
  have h1 := abs_sub_le a b d
  have h2 := abs_sub_le b c d
  linarith only [h1, h2]

theorem abs_abs_sub_le (a b : ℚ) : |(|a|) - (|b|)| ≤ |a - b| := abs_abs_sub_abs_le_abs_sub a b

theorem chain_step (P a b ρ γ v β : ℚ) (hv : 0 ≤ v) (h1 : |a - P| ≤ ρ * |P| + γ)
    (h2 : |b - a| ≤ v * |a| + β) :
    |b - P| ≤ (ρ + v * (1 + ρ)) * |P| + ((1 + v) * γ + β) := by
  have ha : |a| ≤ |P| + |a - P| := by
    have := abs_add (a - P) P
    rw [sub_add_cancel] at this
    linarith only [this]
  have hb : |b - P| ≤ |b - a| + |a - P| := by
    have := abs_add (b - a) (a - P)
    rw [sub_add_sub_cancel] at this
    exact this
  have hva : v * |a| ≤ v * ((1 + ρ) * |P| + γ) :=
    mul_le_mul_of_nonneg_left (by linarith only [ha, h1]) hv
  have : (ρ + v * (1 + ρ)) * |P| + ((1 + v) * γ + β)
      = v * ((1 + ρ) * |P| + γ) + β + (ρ * |P| + γ) := by ring
  rw [this]
  linarith only [hb, h1, h2, hva]

theorem chain_step_le (P a b ρ γ v β ρ' γ' : ℚ) (hv : 0 ≤ v) (h1 : |a - P| ≤ ρ * |P| + γ)
    (h2 : |b - a| ≤ v * |a| + β) (hρ : ρ + v * (1 + ρ) ≤ ρ') (hγ : (1 + v) * γ + β ≤ γ') :
    |b - P| ≤ ρ' * |P| + γ' := by
  have h := chain_step P a b ρ γ v β hv h1 h2
  have := mul_le_mul_of_nonneg_right hρ (abs_nonneg P)
  linarith only [h, this, hγ]

theorem abs_le_of_chain (P a ρ γ : ℚ) (h : |a - P| ≤ ρ * |P| + γ) : |a| ≤ (1 + ρ) * |P| + γ := by
  have ha : |a| ≤ |P| + |a - P| := by
    have := abs_add (a - P) P
    rw [sub_add_cancel] at this
    linarith only [this]
  linarith only [ha, h]

theorem scaled_err (r q c : ℚ) (hc : 0 ≤ c) (h : |r - q| ≤ |q| / 2 ^ 24 + 1 / 2 ^ 150) :
    |r * c - q * c| ≤ 1 / 2 ^ 24 * |q * c| + c / 2 ^ 150 := by
  have e1 : r * c - q * c = (r - q) * c := by ring
  rw [e1, abs_mul, abs_mul, abs_of_nonneg hc]
  have := mul_le_mul_of_nonneg_right h hc
  have e2 : (|q| / 2 ^ 24 + 1 / 2 ^ 150) * c = 1 / 2 ^ 24 * (|q| * c) + c / 2 ^ 150 := by ring
  rw [e2] at this
  exact this

theorem div_mul_roundtrip (a M : F32) (hM : M.isFinite) (hpos : F32.lt (F32.zero false) M)
    (hfin : (F32.mul (F32.div a M) M).isFinite) :
    |(F32.mul (F32.div a M) M).toRat - a.toRat|
      ≤ |a.toRat| / 2 ^ 22 + M.toRat / 2 ^ 149 + 1 / 2 ^ 150 := by
  have hMpos := pos_of_lt_zero M hM hpos
  have hsp : (F32.div a M).isFinite := (mul_finite_args _ _ hfin).1
  have ha : a.isFinite := div_finite_arg _ _ hsp
  have h1 := isRounded_err _ _ (div_spec_fin a M ha hM (ne_of_gt hMpos) hsp)
  have h2 := isRounded_err _ _ (mul_spec_fin _ M hsp hM hfin)
  have h1' := scaled_err _ _ M.toRat (le_of_lt hMpos) h1
  rw [div_mul_cancel₀ _ (ne_of_gt hMpos)] at h1'
  have h1b : |(F32.div a M).toRat * M.toRat - a.toRat|
      ≤ 1 / 2 ^ 24 * |a.toRat| + M.toRat / 2 ^ 150 := h1'
  have h2' : |(F32.mul (F32.div a M) M).toRat - (F32.div a M).toRat * M.toRat|
      ≤ 1 / 2 ^ 24 * |(F32.div a M).toRat * M.toRat| + 1 / 2 ^ 150 := by
    rw [one_div_mul_eq_div]; exact h2
  have h3 := chain_step a.toRat _ _ _ _ (1 / 2 ^ 24) _ (by positivity) h1b h2'
  have hA : (0 : ℚ) ≤ |a.toRat| := abs_nonneg _
  have hcoef : ((1 : ℚ) / 2 ^ 24 + 1 / 2 ^ 24 * (1 + 1 / 2 ^ 24)) * |a.toRat|
      ≤ |a.toRat| / 2 ^ 22 := by
    rw [div_eq_mul_one_div |a.toRat|, mul_comm |a.toRat|]
    apply mul_le_mul_of_nonneg_right _ hA
    norm_num
  have hconst : (1 + (1 : ℚ) / 2 ^ 24) * (M.toRat / 2 ^ 150) + 1 / 2 ^ 150
      ≤ M.toRat / 2 ^ 149 + 1 / 2 ^ 150 := by
    have : (1 + (1 : ℚ) / 2 ^ 24) * (M.toRat / 2 ^ 150) ≤ M.toRat / 2 ^ 149 := by
      rw [div_eq_mul_one_div M.toRat, div_eq_mul_one_div M.toRat (2 ^ 149), ← mul_assoc,
        mul_comm (1 + (1 : ℚ) / 2 ^ 24), mul_assoc]
      apply mul_le_mul_of_nonneg_left _ (le_of_lt hMpos)
      norm_num
    linarith only [this]
  linarith only [h3, hcoef, hconst]

/-! ## The axis in single precision: basic facts -/

theorem read32_eq (s : Axis32) :
    s.read = F32.mul (F32.div (F32.ofInt s._encoder) F32.encoderSteps) s._mmPerRotation := by
  unfold Axis32.read; split_ifs <;> rfl

theorem read32_zero (s : Axis32) (h0 : s._encoder = 0) (hmm : s._mmPerRotation.isFinite) :
    s.read.toRat = 0 := by
  rw [read32_eq, h0]
  have h1 := div_zero_left (F32.ofInt 0) F32.encoderSteps (by decide!) encoderSteps_isFinite
    ofInt_zero_toRat (by rw [encoderSteps_toRat]; norm_num)
  exact (mul_zero_left _ _ h1.1 hmm h1.2).2

theorem write32_fst (s : Axis32) (t : F32) :
    (s.write t).1 = { s with _pidSetpoint := F32.div t s._mmPerRotation } := by
  unfold Axis32.write
  simp only []
  split_ifs <;> rfl

theorem write32_snd (s : Axis32) (t : F32) :
    (s.write t).2 = if F32.lt (s.write t).1.writeError (F32.ofInt 20) then 1 else 0 := by
  rw [write32_fst]
  unfold Axis32.write
  simp only []
  by_cases h : F32.lt
      ({ s with _pidSetpoint := F32.div t s._mmPerRotation } : Axis32).writeError
      (F32.ofInt ((20 : Int)))
  · rw [if_pos h, if_pos h]
  · rw [if_neg h, if_neg h]

theorem set32_some (s s' : Axis32) (p : F32) (h : s.set p = some s') :
    (F32.div (F32.mul p F32.encoderSteps) s._mmPerRotation).toLong = some s'._encoder ∧
      s'._axisTarget = F32.div p s._mmPerRotation ∧ s'._mmPerRotation = s._mmPerRotation := by
  unfold Axis32.set at h
  cases hc : (F32.div (F32.mul p F32.encoderSteps) s._mmPerRotation).toLong with
  | none => rw [hc] at h; exact absurd h (by simp)
  | some n =>
    rw [hc] at h
    have := Option.some.inj h
    subst this
    exact ⟨rfl, rfl, rfl⟩

theorem set32_of_toLong (s : Axis32) (p : F32) (n : Int)
    (h : (F32.div (F32.mul p F32.encoderSteps) s._mmPerRotation).toLong = some n) :
    s.set p = some { s with _axisTarget := F32.div p s._mmPerRotation, _encoder := n } := by
  unfold Axis32.set; rw [h]

theorem construct32_eq (mem : Axis32) (store : EEPROMClass) (axisName : String) (eepromAdr : Nat)
    (mmPerRotation : F32) :
    Axis32.construct mem store axisName eepromAdr mmPerRotation =
      if store EEPROMFLAG = EEPROMVALIDDATA then
        (Axis32.constructMembers mem store axisName eepromAdr mmPerRotation).set
          (Axis32._readFloat store eepromAdr)
      else some (Axis32.constructMembers mem store axisName eepromAdr mmPerRotation) := by
  rfl

theorem detach32_of_attached (s : Axis32) (h : s._motor.attached = true) :
    s.detach.EEPROM
      = (Axis32._writeFloat s.EEPROM s._eepromAdr s.read).write EEPROMFLAG EEPROMVALIDDATA := by
  simp [Axis32.detach, h]

theorem detach32_readFloat (s : Axis32) (hatt : s._motor.attached = true)
    (hadr : ∀ i : Fin 4, addrPlus s._eepromAdr i.val ≠ EEPROMFLAG) :
    s.detach.EEPROM EEPROMFLAG = EEPROMVALIDDATA ∧
      Axis32._readFloat s.detach.EEPROM s._eepromAdr = s.read := by
  rw [detach32_of_attached s hatt]
  constructor
  · simp [EEPROMClass.write]
  · have hb : s.read.bits < 4294967296 := by rw [read32_eq]; exact mul_bits_lt _ _
    have hd : Axis.readData
        ((Axis32._writeFloat s.EEPROM s._eepromAdr s.read).write EEPROMFLAG EEPROMVALIDDATA)
        s._eepromAdr = s.read.toBytes := by
      funext i
      unfold Axis.readData EEPROMClass.read
      show (if addrPlus s._eepromAdr i.val = EEPROMFLAG then EEPROMVALIDDATA
        else Axis32._writeFloat s.EEPROM s._eepromAdr s.read (addrPlus s._eepromAdr i.val)) = _
      rw [if_neg (hadr i)]
      exact writeData_at _ _ _ i
    unfold Axis32._readFloat
    rw [hd, ofBytes_toBytes _ hb]

theorem computePIDPrepare32_ki (s : Axis32) :
    s.computePIDPrepare._pidController.ki =
      if F32.lt (F32.ofInt 20) (F32.absMacro s._pidOutput) then s._KiFar
      else if F32.lt (F32.absMacro (F32.sub s._pidInput s._pidSetpoint)) F32.lit06 then s._KiMid
      else if F32.lt (F32.absMacro (F32.sub s._pidInput s._pidSetpoint)) F32.lit02 then s._KiClose
      else s._pidController.ki := by
  simp only [Axis32.computePIDPrepare, Axis32._change]
  by_cases hc : F32.eq (F32.ofInt (Axis32._sign (F32.sub s._oldSetpoint s._pidSetpoint))) s._oldVal <;>
  by_cases h20 : F32.lt (F32.ofInt 20) (F32.absMacro s._pidOutput) <;>
  by_cases h2 : F32.lt (F32.absMacro (F32.sub s._pidInput s._pidSetpoint)) F32.lit02 <;>
  by_cases h6 : F32.lt (F32.absMacro (F32.sub s._pidInput s._pidSetpoint)) F32.lit06 <;>
  simp [hc, h20, h2, h6, PID32.SetTunings, PID32.FlipIntegrator]

theorem computePID32_ki (law : PIDLaw32) (s : Axis32) (h : s._disableAxisForTesting = false) :
    (s.computePID law)._pidController.ki = s.computePIDPrepare._pidController.ki := by
  simp [Axis32.computePID, h, GearMotor32.write]

/-- The values of the `set`-then-`read` computation, in millimetres: the
position read back is within one sensor count and rounding of the position
set. -/
theorem set32_read_chain (p M : F32) (n : Int) (hM : M.isFinite)
    (hpos : F32.lt (F32.zero false) M)
    (hn : (F32.div (F32.mul p F32.encoderSteps) M).toLong = some n) :
    (F32.mul (F32.div (F32.ofInt n) F32.encoderSteps) M).isFinite ∧
      |(F32.mul (F32.div (F32.ofInt n) F32.encoderSteps) M).toRat - p.toRat|
        ≤ M.toRat / 8148 * (1 + 1 / 2 ^ 21) + |p.toRat| / 2 ^ 21 + 1 / 2 ^ 147 := by
  have hMpos := pos_of_lt_zero M hM hpos
  have hMne : M.toRat ≠ 0 := ne_of_gt hMpos
  obtain ⟨hx2, ht1, ht2, hr1, hr2⟩ := toLong_spec _ n hn
  have hx1 : (F32.mul p F32.encoderSteps).isFinite := div_finite_arg _ _ hx2
  have hp : p.isFinite := (mul_finite_args _ _ hx1).1
  have r1 := isRounded_err _ _ (mul_spec_fin p _ hp encoderSteps_isFinite hx1)
  have r2 := isRounded_err _ _ (div_spec_fin _ M hx1 hM hMne hx2)
  rw [encoderSteps_toRat] at r1
  have hnq : |(n : ℚ)| < 2 ^ 127 := by
    have h1 : (-2147483648 : ℚ) ≤ n := by exact_mod_cast hr1
    have h2 : (n : ℚ) ≤ 2147483647 := by exact_mod_cast hr2
    rw [abs_lt]; constructor <;> linarith only [h1, h2]
  obtain ⟨⟨hf, _⟩, r3⟩ := ofInt_spec n hnq
  -- names for the values
  generalize hP : p.toRat = P at r1 ⊢
  generalize hMq : M.toRat = Mq at r2 hMpos hMne ⊢
  generalize hX1 : (F32.mul p F32.encoderSteps).toRat = X1 at r1 r2
  generalize hX2 : (F32.div (F32.mul p F32.encoderSteps) M).toRat = X2 at r2 ht1 ht2
  generalize hF : (F32.ofInt n).toRat = F at r3
  have hCpos : (0 : ℚ) ≤ Mq / 8148 := div_nonneg (le_of_lt hMpos) (by norm_num)
  have hMC : Mq = 8148 * (Mq / 8148) := by ring
  have hMlt : Mq < 2 ^ 128 := by
    have := finite_lt M hM
    rw [hMq, abs_of_pos hMpos] at this
    exact this
  have hX1lt : |X1| < 2 ^ 128 := by
    have := finite_lt _ hx1
    rwa [hX1] at this
  -- step 1: the product `p * 8148.0`, divided by 8148
  have c1 : |X1 * (1 / 8148) - P| ≤ 1 / 2 ^ 24 * |P| + 1 / 2 ^ 150 := by
    have h := scaled_err X1 (P * 8148) (1 / 8148) (by norm_num) r1
    have e : P * 8148 * (1 / 8148) = P := by ring
    rw [e] at h
    have : (1 : ℚ) / 8148 / 2 ^ 150 ≤ 1 / 2 ^ 150 := by norm_num
    linarith only [h, this]
  -- step 2: the quotient by `mmPerRotation`, in millimetres
  have c2 : |X2 * (Mq / 8148) - X1 * (1 / 8148)|
      ≤ 1 / 2 ^ 24 * |X1 * (1 / 8148)| + Mq / 8148 / 2 ^ 150 := by
    have h := scaled_err X2 (X1 / Mq) (Mq / 8148) hCpos r2
    have e : X1 / Mq * (Mq / 8148) = X1 * (1 / 8148) := by field_simp
    rw [e] at h
    exact h
  -- step 3: the conversion to `long`
  have c3 : |(n : ℚ) * (Mq / 8148) - X2 * (Mq / 8148)| ≤ 0 * |X2 * (Mq / 8148)| + Mq / 8148 := by
    have e : (n : ℚ) * (Mq / 8148) - X2 * (Mq / 8148) = ((n : ℚ) - X2) * (Mq / 8148) := by ring
    rw [e, abs_mul, abs_of_nonneg hCpos, zero_mul, zero_add]
    calc |(n : ℚ) - X2| * (Mq / 8148) ≤ 1 * (Mq / 8148) :=
          mul_le_mul_of_nonneg_right (le_of_lt ht1) hCpos
      _ = Mq / 8148 := one_mul _
  -- step 4: the conversion of the count to `float`
  have c4 : |F * (Mq / 8148) - (n : ℚ) * (Mq / 8148)|
      ≤ 1 / 2 ^ 24 * |(n : ℚ) * (Mq / 8148)| + 0 := by
    have e : F * (Mq / 8148) - (n : ℚ) * (Mq / 8148) = (F - (n : ℚ)) * (Mq / 8148) := by ring
    rw [e, abs_mul, abs_mul, abs_of_nonneg hCpos, add_zero]
    have := mul_le_mul_of_nonneg_right r3 hCpos
    calc |F - (n : ℚ)| * (Mq / 8148) ≤ |(n : ℚ)| / 2 ^ 24 * (Mq / 8148) := this
      _ = 1 / 2 ^ 24 * (|(n : ℚ)| * (Mq / 8148)) := by ring
  -- the chain up to the count as a `float`
  have k2 := chain_step_le P _ _ _ _ (1 / 2 ^ 24) _ (9 / 2 ^ 26) (1 / 2 ^ 150 * (Mq / 8148) + 2 / 2 ^ 150)
    (by norm_num) c1 c2 (by norm_num) (by linarith only [hCpos])
  have k3 := chain_step_le P _ _ _ _ 0 _ (9 / 2 ^ 26) ((1 + 1 / 2 ^ 150) * (Mq / 8148) + 2 / 2 ^ 150)
    (le_refl 0) k2 c3 (by norm_num) (by linarith only [hCpos])
  have k4 := chain_step_le P _ _ _ _ (1 / 2 ^ 24) _ (14 / 2 ^ 26)
    ((1 + 2 / 2 ^ 24) * (Mq / 8148) + 3 / 2 ^ 150)
    (by norm_num) k3 c4 (by norm_num) (by linarith only [hCpos])
  -- magnitudes
  have hPle : |P| ≤ 2 ^ 116 := by
    have h1 : |P| ≤ |X1 * (1 / 8148)| + |X1 * (1 / 8148) - P| := by
      have := abs_sub_abs_le_abs_sub P (X1 * (1 / 8148))
      rw [abs_sub_comm P] at this
      linarith only [this]
    have h2 : |X1 * (1 / 8148)| < 2 ^ 128 * (1 / 8148) := by
      rw [abs_mul, abs_of_pos (show (0 : ℚ) < 1 / 8148 by norm_num)]
      exact mul_lt_mul_of_pos_right hX1lt (by norm_num)
    linarith only [h1, h2, c1]
  have hCle : Mq / 8148 ≤ 2 ^ 116 := by linarith only [hMlt]
  have hFle : |F| ≤ 2 ^ 32 := by
    have h1 : |F| ≤ |(n : ℚ)| + |F - (n : ℚ)| := by
      have := abs_sub_abs_le_abs_sub F (n : ℚ)
      linarith only [this]
    have h1' : (-2147483648 : ℚ) ≤ n := by exact_mod_cast hr1
    have h2' : (n : ℚ) ≤ 2147483647 := by exact_mod_cast hr2
    have h3 : |(n : ℚ)| ≤ 2147483648 := by
      rw [abs_le]; constructor <;> linarith only [h1', h2']
    linarith only [h1, h3, r3]
  -- step 5: the quotient by `8148.0`
  have hy1 := div_spec (F32.ofInt n) F32.encoderSteps hf encoderSteps_isFinite
    (by rw [encoderSteps_toRat]; norm_num)
    (by
      rw [encoderSteps_toRat, hF, abs_div, abs_of_pos (show (0 : ℚ) < 8148 by norm_num)]
      have : |F| / 8148 ≤ 2 ^ 32 / 8148 := div_le_div_of_nonneg_right hFle (by norm_num)
      linarith only [this])
  have r4 := isRounded_err _ _ hy1
  rw [encoderSteps_toRat, hF] at r4
  generalize hY1 : (F32.div (F32.ofInt n) F32.encoderSteps).toRat = Y1 at r4
  have c5 : |Y1 * Mq - F * (Mq / 8148)| ≤ 1 / 2 ^ 24 * |F * (Mq / 8148)| + Mq / 2 ^ 150 := by
    have h := scaled_err Y1 (F / 8148) Mq (le_of_lt hMpos) r4
    have e : F / 8148 * Mq = F * (Mq / 8148) := by ring
    rw [e] at h
    exact h
  have k5 := chain_step_le P _ _ _ _ (1 / 2 ^ 24) _ (19 / 2 ^ 26)
    ((1 + 4 / 2 ^ 24) * (Mq / 8148) + 4 / 2 ^ 150)
    (by norm_num) k4 c5 (by norm_num) (by linarith only [hCpos, hMC])
  -- step 6: the product by `mmPerRotation`
  have hY1M : |Y1 * Mq| < 2 ^ 127 := by
    have := abs_le_of_chain P _ _ _ k5
    have hP' : (1 + 19 / 2 ^ 26) * |P| ≤ (1 + 19 / 2 ^ 26) * 2 ^ 116 :=
      mul_le_mul_of_nonneg_left hPle (by norm_num)
    have hC' : (1 + 4 / 2 ^ 24) * (Mq / 8148) ≤ (1 + 4 / 2 ^ 24) * 2 ^ 116 :=
      mul_le_mul_of_nonneg_left hCle (by norm_num)
    linarith only [this, hP', hC']
  rw [← hY1, ← hMq] at hY1M
  have hy2 := mul_spec _ M hy1.1 hM hY1M
  have r5 := isRounded_err _ _ hy2
  rw [hY1, hMq] at r5
  have c6 : |(F32.mul (F32.div (F32.ofInt n) F32.encoderSteps) M).toRat - Y1 * Mq|
      ≤ 1 / 2 ^ 24 * |Y1 * Mq| + 1 / 2 ^ 150 := by
    rw [one_div_mul_eq_div]; exact r5
  have k6 := chain_step_le P _ _ _ _ (1 / 2 ^ 24) _ (24 / 2 ^ 26)
    ((1 + 6 / 2 ^ 24) * (Mq / 8148) + 6 / 2 ^ 150)
    (by norm_num) k5 c6 (by norm_num) (by linarith only [hCpos])
  refine ⟨hy2.1, ?_⟩
  have hA : (0 : ℚ) ≤ |P| := abs_nonneg _
  linarith only [k6, hA, hCpos]

/-- The values of the `set`-then-`write` computation, in sensor counts and
rotations: with a seeded count of magnitude at most `2 ^ 28`, the quantity
that `write` compares with 20 is below 11. -/
theorem set32_write_chain (p M : F32) (n : Int) (hM : M.isFinite)
    (hpos : F32.lt (F32.zero false) M)
    (hn : (F32.div (F32.mul p F32.encoderSteps) M).toLong = some n)
    (hcount : |n| ≤ 268435456) :
    (F32.absMacro (F32.mul (F32.sub (F32.div (F32.ofInt n) F32.encoderSteps) (F32.div p M))
        (F32.ofInt 1000))).isFinite ∧
      (F32.absMacro (F32.mul (F32.sub (F32.div (F32.ofInt n) F32.encoderSteps) (F32.div p M))
        (F32.ofInt 1000))).toRat < 11 := by
  have hMpos := pos_of_lt_zero M hM hpos
  have hMne : M.toRat ≠ 0 := ne_of_gt hMpos
  have hMmin := units_pos_of_toRat_pos M hMpos
  obtain ⟨hx2, ht1, ht2, hr1, hr2⟩ := toLong_spec _ n hn
  have hx1 : (F32.mul p F32.encoderSteps).isFinite := div_finite_arg _ _ hx2
  have hp : p.isFinite := (mul_finite_args _ _ hx1).1
  have r1 := isRounded_err _ _ (mul_spec_fin p _ hp encoderSteps_isFinite hx1)
  have r2 := isRounded_err _ _ (div_spec_fin _ M hx1 hM hMne hx2)
  rw [encoderSteps_toRat] at r1
  have hN : |(n : ℚ)| ≤ 268435456 := by
    have : ((|n| : Int) : ℚ) ≤ ((268435456 : Int) : ℚ) := by exact_mod_cast hcount
    rwa [Int.cast_abs] at this
  obtain ⟨⟨hf, _⟩, r3⟩ := ofInt_spec n (lt_of_le_of_lt hN (by norm_num))
  generalize hP : p.toRat = P at r1 ⊢
  generalize hMq : M.toRat = Mq at r2 hMpos hMne hMmin ⊢
  generalize hX1 : (F32.mul p F32.encoderSteps).toRat = X1 at r1 r2
  generalize hX2 : (F32.div (F32.mul p F32.encoderSteps) M).toRat = X2 at r2 ht1 ht2
  generalize hF : (F32.ofInt n).toRat = F at r3
  -- the count computed by `set`, against the exact `8148 * p / mmPerRotation`
  have hinv : 1 / Mq / 2 ^ 150 ≤ 1 / 2 := by
    have h1 : 1 / Mq ≤ 2 ^ 149 := by
      rw [div_le_iff₀ hMpos]
      have := mul_le_mul_of_nonneg_left hMmin (show (0 : ℚ) ≤ 2 ^ 149 by norm_num)
      have e : (2 : ℚ) ^ 149 * (1 / 2 ^ 149) = 1 := by norm_num
      linarith only [this, e]
    have : 1 / Mq / 2 ^ 150 ≤ 2 ^ 149 / 2 ^ 150 := div_le_div_of_nonneg_right h1 (by norm_num)
    have e : (2 : ℚ) ^ 149 / 2 ^ 150 = 1 / 2 := by norm_num
    linarith only [this, e]
  have f1 : |X1 * (1 / Mq) - P * 8148 * (1 / Mq)| ≤ 1 / 2 ^ 24 * |P * 8148 * (1 / Mq)| + 1 / 2 := by
    have h := scaled_err X1 (P * 8148) (1 / Mq) (by rw [one_div]; exact inv_nonneg.mpr (le_of_lt hMpos)) r1
    linarith only [h, hinv]
  have f2 : |X2 - X1 * (1 / Mq)| ≤ 1 / 2 ^ 24 * |X1 * (1 / Mq)| + 1 / 2 ^ 150 := by
    have e : X1 * (1 / Mq) = X1 / Mq := by ring
    rw [e, one_div_mul_eq_div]; exact r2
  have hR : P / Mq = P * 8148 * (1 / Mq) / 8148 := by field_simp; ring
  generalize P * 8148 * (1 / Mq) = X at f1 hR
  generalize X1 * (1 / Mq) = A1 at f1 f2
  have hX2le : |X2| ≤ 268435457 := by
    have h := abs_le_add_of_sub X2 (n : ℚ)
    rw [abs_sub_comm] at h
    linarith only [h, hN, ht1]
  have hA1 : |A1| ≤ 268435474 := by
    have h := abs_le_add_of_sub A1 X2
    rw [abs_sub_comm] at h
    linarith only [h, hX2le, f2]
  have hX : |X| ≤ 268435491 := by
    have h := abs_le_add_of_sub X A1
    rw [abs_sub_comm] at h
    linarith only [h, hA1, f1]
  have hNX : |(n : ℚ) - X| ≤ 34 := by
    have h := abs_sub_le3 (n : ℚ) X2 A1 X
    linarith only [h, ht1, f2, f1, hA1, hX]
  -- the setpoint `p / mmPerRotation`
  have hRabs : |P / Mq| = |X| / 8148 := by
    rw [hR, abs_div, abs_of_pos (show (0 : ℚ) < 8148 by norm_num)]
  have hsp := div_spec p M hp hM (by rw [hMq]; exact hMne)
    (by rw [hP, hMq, hRabs]; linarith only [hX])
  have r4 := isRounded_err _ _ hsp
  rw [hP, hMq, hRabs] at r4
  generalize hSP : (F32.div p M).toRat = SP at r4
  -- the sensed rotations `count / 8148.0`
  have hFle : |F| ≤ 268435473 := by
    have h := abs_le_add_of_sub F (n : ℚ)
    linarith only [h, hN, r3]
  have hFabs : |F / 8148| = |F| / 8148 := by
    rw [abs_div, abs_of_pos (show (0 : ℚ) < 8148 by norm_num)]
  have hrot := div_spec (F32.ofInt n) F32.encoderSteps hf encoderSteps_isFinite
    (by rw [encoderSteps_toRat]; norm_num)
    (by rw [encoderSteps_toRat, hF, hFabs]; linarith only [hFle])
  have r5 := isRounded_err _ _ hrot
  rw [encoderSteps_toRat, hF, hFabs] at r5
  generalize hROT : (F32.div (F32.ofInt n) F32.encoderSteps).toRat = ROT at r5
  have hFN : |F / 8148 - (n : ℚ) / 8148| = |F - (n : ℚ)| / 8148 := by
    rw [← sub_div, abs_div, abs_of_pos (show (0 : ℚ) < 8148 by norm_num)]
  have hNXr : |(n : ℚ) / 8148 - P / Mq| = |(n : ℚ) - X| / 8148 := by
    rw [hR, ← sub_div, abs_div, abs_of_pos (show (0 : ℚ) < 8148 by norm_num)]
  have hdiff : |ROT - SP| ≤ 87 / 8148 + 2 / 2 ^ 150 := by
    have h1 := abs_sub_le3 ROT (F / 8148) ((n : ℚ) / 8148) (P / Mq)
    have h2 := abs_sub_le ROT (P / Mq) SP
    have h3 : |P / Mq - SP| = |SP - P / Mq| := abs_sub_comm _ _
    linarith only [h1, h2, h3, r5, hFN, r3, hNXr, hNX, r4, hN, hFle, hX]
  -- the difference and its product by 1000
  have hd := sub_spec _ _ hrot.1 hsp.1 (by rw [hROT, hSP]; linarith only [hdiff])
  have r6 := hd.2
  rw [hROT, hSP] at r6
  generalize hD : (F32.sub (F32.div (F32.ofInt n) F32.encoderSteps) (F32.div p M)).toRat = Dv
    at r6
  have hDle : |Dv| ≤ 88 / 8148 := by
    have h := abs_le_add_of_sub Dv (ROT - SP)
    linarith only [h, r6, hdiff]
  have h1000 : (F32.ofInt 1000).isFinite := by decide!
  have hDabs : |Dv * 1000| = |Dv| * 1000 := by
    rw [abs_mul, abs_of_pos (show (0 : ℚ) < 1000 by norm_num)]
  have hq := mul_spec _ (F32.ofInt 1000) hd.1.1 h1000
    (by rw [hD, ofInt_1000_toRat, hDabs]; linarith only [hDle])
  have r7 := isRounded_err _ _ hq
  rw [hD, ofInt_1000_toRat, hDabs] at r7
  obtain ⟨e1, e2, _⟩ := absMacro_spec _ hq.1
  refine ⟨e1, ?_⟩
  rw [e2]
  generalize (F32.mul (F32.sub (F32.div (F32.ofInt n) F32.encoderSteps) (F32.div p M))
    (F32.ofInt 1000)).toRat = Q at r7
  have h := abs_le_add_of_sub Q (Dv * 1000)
  rw [hDabs] at h
  linarith only [h, r7, hDle]

/-- The quantity that `write` compares with 20, against the exact
`|c / 8148 - t / mmPerRotation| * 1000`. -/
theorem write32_error_chain (c : Int) (t M : F32) (hc : |c| ≤ 2147483648) (hM : M.isFinite)
    (hpos : F32.lt (F32.zero false) M)
    (hfin : (F32.absMacro (F32.mul (F32.sub (F32.div (F32.ofInt c) F32.encoderSteps)
      (F32.div t M)) (F32.ofInt 1000))).isFinite) :
    |(F32.absMacro (F32.mul (F32.sub (F32.div (F32.ofInt c) F32.encoderSteps) (F32.div t M))
          (F32.ofInt 1000))).toRat - |(c : ℚ) / 8148 - t.toRat / M.toRat| * 1000|
      ≤ (|(c : ℚ)| / 8148 + |t.toRat / M.toRat|) * 1000 / 2 ^ 21 + 1 / 2 ^ 138 := by
  have hMpos := pos_of_lt_zero M hM hpos
  have hMne : M.toRat ≠ 0 := ne_of_gt hMpos
  have hq : (F32.mul (F32.sub (F32.div (F32.ofInt c) F32.encoderSteps) (F32.div t M))
      (F32.ofInt 1000)).isFinite := absMacro_finite_arg _ hfin
  have hd : (F32.sub (F32.div (F32.ofInt c) F32.encoderSteps) (F32.div t M)).isFinite :=
    (mul_finite_args _ _ hq).1
  obtain ⟨hrot, hsp⟩ := sub_finite_args _ _ hd
  have ht : t.isFinite := div_finite_arg _ _ hsp
  have hN : |(c : ℚ)| ≤ 2147483648 := by
    have : ((|c| : Int) : ℚ) ≤ ((2147483648 : Int) : ℚ) := by exact_mod_cast hc
    rwa [Int.cast_abs] at this
  obtain ⟨⟨hf, _⟩, r3⟩ := ofInt_spec c (lt_of_le_of_lt hN (by norm_num))
  have r4 := isRounded_err _ _ (div_spec_fin t M ht hM hMne hsp)
  have r5 := isRounded_err _ _ (div_spec_fin (F32.ofInt c) F32.encoderSteps hf
    encoderSteps_isFinite (by rw [encoderSteps_toRat]; norm_num) hrot)
  have r6 := (sub_spec_fin _ _ hrot hsp hd).2
  have r7 := isRounded_err _ _ (mul_spec_fin _ _ hd (by decide!) hq)
  obtain ⟨_, e2, _⟩ := absMacro_spec _ hq
  rw [e2]
  rw [encoderSteps_toRat] at r5
  rw [ofInt_1000_toRat] at r7
  generalize (F32.mul (F32.sub (F32.div (F32.ofInt c) F32.encoderSteps) (F32.div t M))
    (F32.ofInt 1000)).toRat = Q at r7 ⊢
  generalize (F32.sub (F32.div (F32.ofInt c) F32.encoderSteps) (F32.div t M)).toRat = Dv
    at r6 r7
  generalize (F32.div (F32.ofInt c) F32.encoderSteps).toRat = ROT at r5 r6
  generalize (F32.div t M).toRat = SP at r4 r6
  generalize (F32.ofInt c).toRat = F at r3 r5
  generalize t.toRat / M.toRat = R at r4 ⊢
  -- the sensed rotations
  have hFabs : |F / 8148| = |F| / 8148 := by
    rw [abs_div, abs_of_pos (show (0 : ℚ) < 8148 by norm_num)]
  have hFN : |F / 8148 - (c : ℚ) / 8148| = |F - (c : ℚ)| / 8148 := by
    rw [← sub_div, abs_div, abs_of_pos (show (0 : ℚ) < 8148 by norm_num)]
  have hFle : |F| ≤ |(c : ℚ)| + |F - (c : ℚ)| := abs_le_add_of_sub F (c : ℚ)
  have hA : (0 : ℚ) ≤ |(c : ℚ)| := abs_nonneg _
  have hB : (0 : ℚ) ≤ |R| := abs_nonneg _
  rw [hFabs] at r5
  have hrotc : |ROT - (c : ℚ) / 8148| ≤ 9 / 2 ^ 26 * (|(c : ℚ)| / 8148) + 1 / 2 ^ 150 := by
    have h := abs_sub_le ROT (F / 8148) ((c : ℚ) / 8148)
    linarith only [h, r5, hFN, r3, hFle, hA]
  -- the difference
  have hΔ : |(c : ℚ) / 8148 - R| ≤ |(c : ℚ)| / 8148 + |R| := by
    have := abs_sub ((c : ℚ) / 8148) R
    rw [abs_div, abs_of_pos (show (0 : ℚ) < 8148 by norm_num)] at this
    exact this
  have hdiff : |ROT - SP - ((c : ℚ) / 8148 - R)|
      ≤ 9 / 2 ^ 26 * (|(c : ℚ)| / 8148) + 1 / 2 ^ 24 * |R| + 2 / 2 ^ 150 := by
    have e : ROT - SP - ((c : ℚ) / 8148 - R) = (ROT - (c : ℚ) / 8148) - (SP - R) := by ring
    rw [e]
    have := abs_sub (ROT - (c : ℚ) / 8148) (SP - R)
    linarith only [this, hrotc, r4]
  have hRS : |ROT - SP| ≤ |(c : ℚ) / 8148 - R| + |ROT - SP - ((c : ℚ) / 8148 - R)| :=
    abs_le_add_of_sub _ _
  have hDv : |Dv - ((c : ℚ) / 8148 - R)|
      ≤ 14 / 2 ^ 26 * (|(c : ℚ)| / 8148) + 9 / 2 ^ 26 * |R| + 3 / 2 ^ 150 := by
    have h := abs_sub_le Dv (ROT - SP) ((c : ℚ) / 8148 - R)
    linarith only [h, r6, hRS, hdiff, hΔ, hA, hB]
  have hDvle : |Dv| ≤ |(c : ℚ) / 8148 - R| + |Dv - ((c : ℚ) / 8148 - R)| :=
    abs_le_add_of_sub _ _
  have hDabs : |Dv * 1000| = |Dv| * 1000 := by
    rw [abs_mul, abs_of_pos (show (0 : ℚ) < 1000 by norm_num)]
  rw [hDabs] at r7
  have hQ : |Q - ((c : ℚ) / 8148 - R) * 1000|
      ≤ (|(c : ℚ)| / 8148 + |R|) * 1000 / 2 ^ 21 + 1 / 2 ^ 138 := by
    have h := abs_sub_le Q (Dv * 1000) (((c : ℚ) / 8148 - R) * 1000)
    have e : |Dv * 1000 - ((c : ℚ) / 8148 - R) * 1000| = |Dv - ((c : ℚ) / 8148 - R)| * 1000 := by
      rw [← sub_mul, abs_mul, abs_of_pos (show (0 : ℚ) < 1000 by norm_num)]
    linarith only [h, e, r7, hDvle, hDv, hΔ, hA, hB]
  have hE : |(c : ℚ) / 8148 - R| * 1000 = |((c : ℚ) / 8148 - R) * 1000| := by
    rw [abs_mul, abs_of_pos (show (0 : ℚ) < 1000 by norm_num)]
  rw [hE]
  exact le_trans (abs_abs_sub_le _ _) hQ

/-! ## C1: arrival test of `write` -/

/-- C1, as stated, fails: on the bench axis one count from zero
(`mmPerRotation = 10.0`), for the target `t = 13504135 / 2 ^ 26`, about
`0.2012273`, the exact quantity `|1 / 8148 - t / 10| * 1000` is below 20
(about `19.99999974`), yet `write(t)` returns 0: evaluated in single
precision the quantity comes out as exactly `20.0`. -/
theorem write32_reached_not_exact :
    oneCountAxis32._encoder = 1 ∧ oneCountAxis32._mmPerRotation.toRat = 10 ∧
      (⟨1045302919⟩ : F32).toRat = 13504135 / 2 ^ 26 ∧
      |((oneCountAxis32._encoder : Int) : ℚ) / 8148
          - (⟨1045302919⟩ : F32).toRat / oneCountAxis32._mmPerRotation.toRat| * 1000 < 20 ∧
      (oneCountAxis32.write ⟨1045302919⟩).2 = 0 ∧
      (oneCountAxis32.write ⟨1045302919⟩).1.writeError = F32.ofInt 20 := by
  have h1 : (⟨1045302919⟩ : F32).toRat = 13504135 / 2 ^ 26 := by
    have h : (⟨1045302919⟩ : F32).signedUnits = 13504135 * 2 ^ 123 := by decide!
    rw [F32.toRat, h]; norm_num
  have h2 : oneCountAxis32._mmPerRotation.toRat = 10 := ofInt_10_toRat
  refine ⟨rfl, h2, h1, ?_, by decide!, by decide!⟩
  rw [h1, h2, show oneCountAxis32._encoder = 1 from rfl]
  have e : (((1 : Int) : ℚ)) / 8148 - 13504135 / 2 ^ 26 / 10
      = -(5468030167 / 273401511936) := by norm_num
  rw [e, abs_neg, abs_of_pos (by norm_num)]
  norm_num

/-- C1, amended. For every sensor count `c` (a `long`), every target `t`
and every number `mmPerRotation > 0`, `write(t)` returns 1 when the
quantity `|c / 8148 - t / mmPerRotation| * 1000`, evaluated as the code
does in single precision with every operation rounded, is below 20, and 0
otherwise; in particular it returns 0 when the evaluated quantity equals
exactly 20.  When the evaluated quantity is a number, it is within
`(|c| / 8148 + |t / mmPerRotation|) * 1000 / 2 ^ 21 + 2 ^ -138` of the
exact quantity, so `write(t)` returns 1 whenever the exact quantity is
below 20 by more than that, and 0 whenever it is at least 20 plus that. -/
theorem write32_reached_iff (s : Axis32) (t : F32) (hc : |s._encoder| ≤ 2147483648)
    (hmm : s._mmPerRotation.isFinite) (hpos : F32.lt (F32.zero false) s._mmPerRotation) :
    (s.write t).1.writeError
        = F32.absMacro (F32.mul (F32.sub (F32.div (F32.ofInt s._encoder) F32.encoderSteps)
            (F32.div t s._mmPerRotation)) (F32.ofInt 1000)) ∧
      ((s.write t).2 = 1 ↔ F32.lt (s.write t).1.writeError (F32.ofInt 20)) ∧
      ((s.write t).2 = 0 ↔ ¬ F32.lt (s.write t).1.writeError (F32.ofInt 20)) ∧
      (F32.eq (s.write t).1.writeError (F32.ofInt 20) → (s.write t).2 = 0) ∧
      ((s.write t).1.writeError.isFinite →
        ((s.write t).2 = 1 ↔ (s.write t).1.writeError.toRat < 20) ∧
        |(s.write t).1.writeError.toRat
            - |(s._encoder : ℚ) / 8148 - t.toRat / s._mmPerRotation.toRat| * 1000|
          ≤ (|(s._encoder : ℚ)| / 8148 + |t.toRat / s._mmPerRotation.toRat|) * 1000 / 2 ^ 21
            + 1 / 2 ^ 138 ∧
        (|(s._encoder : ℚ) / 8148 - t.toRat / s._mmPerRotation.toRat| * 1000
            + ((|(s._encoder : ℚ)| / 8148 + |t.toRat / s._mmPerRotation.toRat|) * 1000 / 2 ^ 21
              + 1 / 2 ^ 138) < 20 → (s.write t).2 = 1) ∧
        (20 + ((|(s._encoder : ℚ)| / 8148 + |t.toRat / s._mmPerRotation.toRat|) * 1000 / 2 ^ 21
              + 1 / 2 ^ 138)
            ≤ |(s._encoder : ℚ) / 8148 - t.toRat / s._mmPerRotation.toRat| * 1000 →
          (s.write t).2 = 0)) := by
  have he : (s.write t).1.writeError
      = F32.absMacro (F32.mul (F32.sub (F32.div (F32.ofInt s._encoder) F32.encoderSteps)
          (F32.div t s._mmPerRotation)) (F32.ofInt 1000)) := by
    rw [write32_fst]; rfl
  have h1 : (s.write t).2 = 1 ↔ F32.lt (s.write t).1.writeError (F32.ofInt 20) := by
    rw [write32_snd]
    by_cases h : F32.lt (s.write t).1.writeError (F32.ofInt 20)
    · simp [h]
    · simp [h]
  have h0 : (s.write t).2 = 0 ↔ ¬ F32.lt (s.write t).1.writeError (F32.ofInt 20) := by
    rw [write32_snd]
    by_cases h : F32.lt (s.write t).1.writeError (F32.ofInt 20)
    · simp [h]
    · simp [h]
  refine ⟨he, h1, h0, ?_, fun hf => ?_⟩
  · intro heq
    rw [h0]
    intro hlt
    have := hlt.2.2
    rw [heq.2.2] at this
    exact lt_irrefl _ this
  · have hlt : F32.lt (s.write t).1.writeError (F32.ofInt 20)
        ↔ (s.write t).1.writeError.toRat < 20 := by
      rw [lt_spec _ _ hf (by decide!), ofInt_20_toRat]
    have hchain : |(s.write t).1.writeError.toRat
          - |(s._encoder : ℚ) / 8148 - t.toRat / s._mmPerRotation.toRat| * 1000|
        ≤ (|(s._encoder : ℚ)| / 8148 + |t.toRat / s._mmPerRotation.toRat|) * 1000 / 2 ^ 21
          + 1 / 2 ^ 138 := by
      rw [he] at hf ⊢
      exact write32_error_chain s._encoder t s._mmPerRotation hc hmm hpos hf
    refine ⟨h1.trans hlt, hchain, fun hlow => ?_, fun hhigh => ?_⟩
    · rw [h1, hlt]
      have := (abs_le.mp hchain).2
      linarith only [this, hlow]
    · rw [h0, hlt]
      have := (abs_le.mp hchain).1
      linarith only [this, hhigh]

/-- Instances of `write32_reached_iff` on the bench axis one count from
zero (`mmPerRotation = 10.0`): for the target `13504135 / 2 ^ 26` the
evaluated quantity is exactly `20.0` and `write` returns 0; for the target
`0.0` the exact quantity is `1000 / 8148`, far below 20, and `write`
returns 1. -/
theorem write32_reached_iff_witness :
    |oneCountAxis32._encoder| ≤ 2147483648 ∧ oneCountAxis32._mmPerRotation.isFinite ∧
      F32.lt (F32.zero false) oneCountAxis32._mmPerRotation ∧
      F32.eq (oneCountAxis32.write ⟨1045302919⟩).1.writeError (F32.ofInt 20) ∧
      (oneCountAxis32.write ⟨1045302919⟩).2 = 0 ∧
      (oneCountAxis32.write (F32.zero false)).1.writeError.isFinite ∧
      ((oneCountAxis32.write (F32.zero false)).2 = 1 ↔
        (oneCountAxis32.write (F32.zero false)).1.writeError.toRat < 20) :=
  ⟨by decide, by decide!, by decide!, by decide!,
    (write32_reached_iff oneCountAxis32 ⟨1045302919⟩ (by decide) (by decide!)
      (by decide!)).2.2.2.1 (by decide!),
    by decide!,
    ((write32_reached_iff oneCountAxis32 (F32.zero false) (by decide) (by decide!)
      (by decide!)).2.2.2.2 (by decide!)).1⟩

/-! ## C2: `set` followed by `read` -/

/-- C2, as stated, fails: on the bench axis (`mmPerRotation = 10.0`)
`set(1.0)` hands `814.8` to the sensor, which keeps the integer 814, and
`read()` then returns the float `0x3F7FBFA8 = 16760744 / 2 ^ 24`,
about `0.99901819`: more than `1 / 1024` away from 1, where the rounding
unit of a float is `2 ^ -24`. -/
theorem set32_read_not_roundtrip :
    benchAxis32._mmPerRotation = F32.ofInt 10 ∧
      (benchAxis32.set ⟨1065353216⟩).map (fun t => t._encoder) = some 814 ∧
      (benchAxis32.set ⟨1065353216⟩).map (fun t => t.read) = some ⟨1065336744⟩ ∧
      (⟨1065353216⟩ : F32).toRat = 1 ∧ (⟨1065336744⟩ : F32).toRat = 16760744 / 2 ^ 24 ∧
      1 / 1024 < |(⟨1065336744⟩ : F32).toRat - (⟨1065353216⟩ : F32).toRat| := by
  have h1 : (⟨1065353216⟩ : F32).toRat = 1 := by
    have h : (⟨1065353216⟩ : F32).signedUnits = 2 ^ 149 := by decide!
    rw [F32.toRat, h]; norm_num
  have h2 : (⟨1065336744⟩ : F32).toRat = 16760744 / 2 ^ 24 := by
    have h : (⟨1065336744⟩ : F32).signedUnits = 16760744 * 2 ^ 125 := by decide!
    rw [F32.toRat, h]; norm_num
  refine ⟨rfl, by decide!, by decide!, h1, h2, ?_⟩
  rw [h1, h2]
  norm_num [abs_lt, lt_abs]

/-- C2, amended. For every position `p` and every number
`mmPerRotation > 0` for which `set(p)` is defined (the count
`p * 8148.0 / mmPerRotation`, evaluated in single precision, fits the
sensor's `long`): `set(p)` then `read()` returns a number within one sensor
count and rounding of `p`, namely within
`mmPerRotation / 8148 * (1 + 2 ^ -21) + |p| / 2 ^ 21 + 2 ^ -147`; and for
`mmPerRotation = 10` and `p = 100` the result is exactly `100.0`. -/
theorem set32_read_within_one_count (s s' : Axis32) (p : F32)
    (hmm : s._mmPerRotation.isFinite) (hpos : F32.lt (F32.zero false) s._mmPerRotation)
    (hset : s.set p = some s') :
    s'.read.isFinite ∧
      |s'.read.toRat - p.toRat|
        ≤ s._mmPerRotation.toRat / 8148 * (1 + 1 / 2 ^ 21) + |p.toRat| / 2 ^ 21 + 1 / 2 ^ 147 ∧
      (∀ t : Axis32, t._mmPerRotation = F32.ofInt 10 →
        (t.set (F32.ofInt 100)).map (fun t' => t'.read) = some (F32.ofInt 100)) := by
  obtain ⟨h1, _, h3⟩ := set32_some s s' p hset
  rw [read32_eq, h3]
  obtain ⟨c1, c2⟩ := set32_read_chain p s._mmPerRotation s'._encoder hmm hpos h1
  refine ⟨c1, c2, fun t ht => ?_⟩
  have hl : (F32.div (F32.mul (F32.ofInt 100) F32.encoderSteps) t._mmPerRotation).toLong
      = some 81480 := by rw [ht]; decide!
  rw [set32_of_toLong t _ _ hl]
  simp only [Option.map_some', read32_eq, ht]
  decide!

/-- An instance of `set32_read_within_one_count` on the bench axis
(`mmPerRotation = 10.0`) and `p = 1.0`, where `set` stores 814 of 814.8. -/
theorem set32_read_within_one_count_witness :
    benchAxis32._mmPerRotation.isFinite ∧ F32.lt (F32.zero false) benchAxis32._mmPerRotation ∧
      benchAxis32.set ⟨1065353216⟩
        = some { benchAxis32 with
            _axisTarget := F32.div ⟨1065353216⟩ benchAxis32._mmPerRotation
            _encoder := 814 } ∧
      |({ benchAxis32 with
            _axisTarget := F32.div ⟨1065353216⟩ benchAxis32._mmPerRotation
            _encoder := 814 } : Axis32).read.toRat - (⟨1065353216⟩ : F32).toRat|
        ≤ benchAxis32._mmPerRotation.toRat / 8148 * (1 + 1 / 2 ^ 21)
          + |(⟨1065353216⟩ : F32).toRat| / 2 ^ 21 + 1 / 2 ^ 147 ∧
      (benchAxis32.set (F32.ofInt 100)).map (fun t' => t'.read) = some (F32.ofInt 100) :=
  ⟨by decide!, by decide!, set32_of_toLong benchAxis32 _ 814 (by decide!),
    (set32_read_within_one_count benchAxis32 _ ⟨1065353216⟩ (by decide!) (by decide!)
      (set32_of_toLong benchAxis32 _ 814 (by decide!))).2.1,
    (set32_read_within_one_count benchAxis32 _ ⟨1065353216⟩ (by decide!) (by decide!)
      (set32_of_toLong benchAxis32 _ 814 (by decide!))).2.2 benchAxis32 rfl⟩

/-! ## C3: integral gain selected by `computePID` -/

/-- The close gain is never in force. On the bench axis the previous output
is 0 and the pre-tick error is 0 (below `.02`), yet the gain handed to the
PID iteration is the mid gain 50, not the close gain 250: the `< .06` test
is not an `else` of the `< .02` test and overwrites its choice. -/
theorem computePID32_close_gain_overwritten :
    benchAxis32._disableAxisForTesting = false ∧
      ¬ F32.lt (F32.ofInt 20) (F32.absMacro benchAxis32._pidOutput) ∧
      F32.lt (F32.absMacro (F32.sub benchAxis32._pidInput benchAxis32._pidSetpoint)) F32.lit02 ∧
      benchAxis32.computePIDPrepare._pidController.ki = benchAxis32._KiMid ∧
      (benchAxis32.computePID benchLaw32)._pidController.ki = F32.ofInt 50 ∧
      benchAxis32._KiClose = F32.ofInt 250 := by
  refine ⟨rfl, by decide!, by decide!, by decide!, by decide!, rfl⟩

/-- C3, as stated, fails: on the drifted axis (not in test mode, previous
output 0, input 0, setpoint 1, so the pre-tick error is 1, not below `.06`)
the controller holds the mid gain 50 before the tick, and the gain handed
to the PID iteration is still 50, not the far gain 0: no branch of the
unsaturated case sets the far gain. -/
theorem computePID32_gain_stays_mid :
    driftedAxis32._disableAxisForTesting = false ∧
      ¬ F32.lt (F32.ofInt 20) (F32.absMacro driftedAxis32._pidOutput) ∧
      F32.absMacro (F32.sub driftedAxis32._pidInput driftedAxis32._pidSetpoint) = F32.ofInt 1 ∧
      ¬ F32.lt (F32.absMacro (F32.sub driftedAxis32._pidInput driftedAxis32._pidSetpoint))
        F32.lit06 ∧
      driftedAxis32._pidController.ki = F32.ofInt 50 ∧
      driftedAxis32.computePIDPrepare._pidController.ki = F32.ofInt 50 ∧
      (driftedAxis32.computePID benchLaw32)._pidController.ki = F32.ofInt 50 ∧
      driftedAxis32._KiFar = F32.zero false ∧ F32.ofInt 50 ≠ F32.zero false := by
  refine ⟨rfl, by decide!, by decide!, by decide!, rfl, by decide!, by decide!, rfl, by decide!⟩

/-- C3, amended. On a non-test-mode tick whose previous output does not
exceed 20 in magnitude, with the pre-tick error `e = |input - setpoint|` and
the comparisons evaluated as the code does, in single precision (`.02` and
`.06` are the floats `5368709 / 2 ^ 28` and `16106127 / 2 ^ 28`): if `e`
is not below `.02` and is below `.06`, the integral gain handed to the PID
iteration (and left in the controller by the tick) is the mid gain; if `e`
is not below `.06`, it is the gain that was in force before the tick.  For
numbers, `e` is within `|input - setpoint| / 2 ^ 24` of the exact
`|input - setpoint|`. -/
theorem computePID32_unsaturated_gain (law : PIDLaw32) (s : Axis32)
    (htest : s._disableAxisForTesting = false)
    (hout : ¬ F32.lt (F32.ofInt 20) (F32.absMacro s._pidOutput)) :
    (¬ F32.lt (F32.absMacro (F32.sub s._pidInput s._pidSetpoint)) F32.lit02 →
        F32.lt (F32.absMacro (F32.sub s._pidInput s._pidSetpoint)) F32.lit06 →
        s.computePIDPrepare._pidController.ki = s._KiMid ∧
        (s.computePID law)._pidController.ki = s._KiMid) ∧
      (¬ F32.lt (F32.absMacro (F32.sub s._pidInput s._pidSetpoint)) F32.lit06 →
        s.computePIDPrepare._pidController.ki = s._pidController.ki ∧
        (s.computePID law)._pidController.ki = s._pidController.ki) ∧
      (s._pidInput.isFinite → s._pidSetpoint.isFinite →
        (F32.sub s._pidInput s._pidSetpoint).isFinite →
        (F32.lt (F32.absMacro (F32.sub s._pidInput s._pidSetpoint)) F32.lit02 ↔
          (F32.absMacro (F32.sub s._pidInput s._pidSetpoint)).toRat < 5368709 / 2 ^ 28) ∧
        (F32.lt (F32.absMacro (F32.sub s._pidInput s._pidSetpoint)) F32.lit06 ↔
          (F32.absMacro (F32.sub s._pidInput s._pidSetpoint)).toRat < 16106127 / 2 ^ 28) ∧
        |(F32.absMacro (F32.sub s._pidInput s._pidSetpoint)).toRat
            - abs (s._pidInput.toRat - s._pidSetpoint.toRat)|
          ≤ |s._pidInput.toRat - s._pidSetpoint.toRat| / 2 ^ 24) := by
  rw [computePID32_ki law s htest, computePIDPrepare32_ki, if_neg hout]
  refine ⟨fun _ h6 => ?_, fun h6 => ?_, fun hi hs hf => ?_⟩
  · rw [if_pos h6]; exact ⟨rfl, rfl⟩
  · rw [if_neg h6, if_neg (fun h2 => h6 (lt_lit02_lit06 _ h2))]; exact ⟨rfl, rfl⟩
  · obtain ⟨a1, a2, _⟩ := absMacro_spec _ hf
    have h2f : F32.lit02.isFinite := by decide!
    have h6f : F32.lit06.isFinite := by decide!
    refine ⟨?_, ?_, ?_⟩
    · rw [lt_spec _ _ a1 h2f, lit02_toRat]; norm_num
    · rw [lt_spec _ _ a1 h6f, lit06_toRat]; norm_num
    · rw [a2]
      have := (sub_spec_fin _ _ hi hs hf).2
      exact le_trans (abs_abs_sub_abs_le_abs_sub _ _) this

/-- Instances of `computePID32_unsaturated_gain`: the mid axis (previous
output 0, error the float nearest 0.04) gets the mid gain; the drifted axis
(previous output 0, error 1, mid gain in force) keeps its gain; the edge
axis (input 0, setpoint the float `.06`, close gain in force) has an error
not below `.06` and keeps its gain. -/
theorem computePID32_unsaturated_gain_witness :
    midAxis32._disableAxisForTesting = false ∧
      ¬ F32.lt (F32.ofInt 20) (F32.absMacro midAxis32._pidOutput) ∧
      ¬ F32.lt (F32.absMacro (F32.sub midAxis32._pidInput midAxis32._pidSetpoint)) F32.lit02 ∧
      F32.lt (F32.absMacro (F32.sub midAxis32._pidInput midAxis32._pidSetpoint)) F32.lit06 ∧
      (midAxis32.computePID benchLaw32)._pidController.ki = midAxis32._KiMid ∧
      ¬ F32.lt (F32.absMacro (F32.sub driftedAxis32._pidInput driftedAxis32._pidSetpoint))
        F32.lit06 ∧
      (driftedAxis32.computePID benchLaw32)._pidController.ki = driftedAxis32._pidController.ki ∧
      ¬ F32.lt (F32.absMacro (F32.sub edgeAxis32._pidInput edgeAxis32._pidSetpoint)) F32.lit06 ∧
      (edgeAxis32.computePID benchLaw32)._pidController.ki = edgeAxis32._pidController.ki :=
  ⟨rfl, by decide!, by decide!, by decide!,
    ((computePID32_unsaturated_gain benchLaw32 midAxis32 rfl (by decide!)).1
      (by decide!) (by decide!)).2,
    by decide!,
    ((computePID32_unsaturated_gain benchLaw32 driftedAxis32 rfl (by decide!)).2.1
      (by decide!)).2,
    by decide!,
    ((computePID32_unsaturated_gain benchLaw32 edgeAxis32 rfl (by decide!)).2.1
      (by decide!)).2⟩

/-! ## C7: `detach` followed by construction -/

/-- C7, as stated, fails, in two ways.  On the axis at 31 counts
(`mmPerRotation = 10.0`, store address 0) `read()` is the float
`0x3D1BD646`, about `0.038046`; `detach()` stores it and the constructor
hands it to `set`, which computes `30.999998` counts and keeps 30, so the
new `read()` is `0x3D16CF5D`, about `0.036819`: a whole count is lost where
the new target is the old position.  On the axis at 8148 counts with store
address 15, the four bytes of `read() = 10.0` (`00 00 20 41`) reach the
marker address 18, where `detach()` then writes 56: the constructor decodes
`00 00 20 38`, about `0.000038`, and the new axis has count 0. -/
theorem detach32_construct_loses_count :
    creptAxis32._motor.attached = true ∧ creptAxis32._eepromAdr = 0 ∧
      creptAxis32.read = ⟨1025234502⟩ ∧
      (Axis32.construct benchAxis32 creptAxis32.detach.EEPROM "bench" creptAxis32._eepromAdr
          creptAxis32._mmPerRotation).map (fun t => (t._encoder, t.read, t.target))
        = some (30, ⟨1024905053⟩, ⟨1025234502⟩) ∧
      (⟨1024905053⟩ : F32) ≠ ⟨1025234502⟩ ∧
      overlapAxis32._motor.attached = true ∧ overlapAxis32._eepromAdr = 15 ∧
      overlapAxis32.read = F32.ofInt 10 ∧
      Axis32._readFloat overlapAxis32.detach.EEPROM 15 = ⟨941621248⟩ ∧
      (Axis32.construct benchAxis32 overlapAxis32.detach.EEPROM "bench" overlapAxis32._eepromAdr
          overlapAxis32._mmPerRotation).map (fun t => (t._encoder, t.read))
        = some (0, F32.zero false) := by
  refine ⟨rfl, rfl, by decide!, by decide!, by decide, rfl, rfl, by decide!, by decide!,
    by decide!⟩

/-- C7, amended. For every attached axis (any sensor count, any number
`mmPerRotation > 0`) whose four float addresses `eepromAdr .. eepromAdr + 3`
do not include the marker address 18, with `p` the float that `read()`
returns: after `detach()`, constructing a new axis over the resulting store
with the same `eepromAdr` and `mmPerRotation` performs `set(p)` with that
very float; so, when that `set` is defined, the new axis's `read()` is
within one sensor count and rounding of `p`
(`mmPerRotation / 8148 * (1 + 2 ^ -21) + |p| / 2 ^ 21 + 2 ^ -147`), and its
`target()` is `p / mmPerRotation * mmPerRotation` evaluated in single
precision, which, when it is a number, is within
`|p| / 2 ^ 22 + mmPerRotation / 2 ^ 149 + 2 ^ -150` of `p`. -/
theorem detach32_construct_roundtrip (s mem s' : Axis32) (axisName : String)
    (hatt : s._motor.attached = true) (hmm : s._mmPerRotation.isFinite)
    (hpos : F32.lt (F32.zero false) s._mmPerRotation)
    (hadr : ∀ i : Fin 4, addrPlus s._eepromAdr i.val ≠ EEPROMFLAG)
    (hnew : Axis32.construct mem s.detach.EEPROM axisName s._eepromAdr s._mmPerRotation
      = some s') :
    Axis32.construct mem s.detach.EEPROM axisName s._eepromAdr s._mmPerRotation
        = (Axis32.constructMembers mem s.detach.EEPROM axisName s._eepromAdr
            s._mmPerRotation).set s.read ∧
      s'.read.isFinite ∧
      |s'.read.toRat - s.read.toRat|
        ≤ s._mmPerRotation.toRat / 8148 * (1 + 1 / 2 ^ 21) + |s.read.toRat| / 2 ^ 21
          + 1 / 2 ^ 147 ∧
      s'.target = F32.mul (F32.div s.read s._mmPerRotation) s._mmPerRotation ∧
      (s'.target.isFinite →
        |s'.target.toRat - s.read.toRat|
          ≤ |s.read.toRat| / 2 ^ 22 + s._mmPerRotation.toRat / 2 ^ 149 + 1 / 2 ^ 150) := by
  obtain ⟨hflag, hread⟩ := detach32_readFloat s hatt hadr
  have he : Axis32.construct mem s.detach.EEPROM axisName s._eepromAdr s._mmPerRotation
      = (Axis32.constructMembers mem s.detach.EEPROM axisName s._eepromAdr
          s._mmPerRotation).set s.read := by
    rw [construct32_eq, if_pos hflag, hread]
  rw [he] at hnew
  have hM : (Axis32.constructMembers mem s.detach.EEPROM axisName s._eepromAdr
      s._mmPerRotation)._mmPerRotation = s._mmPerRotation := rfl
  obtain ⟨h1, h2, h3⟩ := set32_some _ s' s.read hnew
  rw [hM] at h1 h2 h3
  obtain ⟨c1, c2⟩ := set32_read_chain s.read s._mmPerRotation s'._encoder hmm hpos h1
  have hr : s'.read
      = F32.mul (F32.div (F32.ofInt s'._encoder) F32.encoderSteps) s._mmPerRotation := by
    rw [read32_eq, h3]
  rw [← hr] at c1 c2
  have ht : s'.target = F32.mul (F32.div s.read s._mmPerRotation) s._mmPerRotation := by
    unfold Axis32.target
    rw [h2, h3]
  refine ⟨he, c1, c2, ht, fun hf => ?_⟩
  rw [ht] at hf ⊢
  exact div_mul_roundtrip s.read _ hmm hpos hf

theorem creptAxis32_reload :
    Axis32.construct benchAxis32 creptAxis32.detach.EEPROM "bench" creptAxis32._eepromAdr
        creptAxis32._mmPerRotation
      = some { Axis32.constructMembers benchAxis32 creptAxis32.detach.EEPROM "bench"
            creptAxis32._eepromAdr creptAxis32._mmPerRotation with
          _axisTarget := F32.div (Axis32._readFloat creptAxis32.detach.EEPROM
            creptAxis32._eepromAdr) creptAxis32._mmPerRotation
          _encoder := 30 } := by
  rw [construct32_eq, if_pos (by decide!)]
  exact set32_of_toLong _ _ 30 (by decide!)

/-- An instance of `detach32_construct_roundtrip`: the axis at 31 counts
(`mmPerRotation = 10.0`, store address 0), whose reloaded position is
within one count and rounding of the position stored. -/
theorem detach32_construct_roundtrip_witness :
    creptAxis32._motor.attached = true ∧ creptAxis32._mmPerRotation.isFinite ∧
      F32.lt (F32.zero false) creptAxis32._mmPerRotation ∧
      (∀ i : Fin 4, addrPlus creptAxis32._eepromAdr i.val ≠ EEPROMFLAG) ∧
      |({ Axis32.constructMembers benchAxis32 creptAxis32.detach.EEPROM "bench"
            creptAxis32._eepromAdr creptAxis32._mmPerRotation with
          _axisTarget := F32.div (Axis32._readFloat creptAxis32.detach.EEPROM
            creptAxis32._eepromAdr) creptAxis32._mmPerRotation
          _encoder := 30 } : Axis32).read.toRat - creptAxis32.read.toRat|
        ≤ creptAxis32._mmPerRotation.toRat / 8148 * (1 + 1 / 2 ^ 21)
          + |creptAxis32.read.toRat| / 2 ^ 21 + 1 / 2 ^ 147 :=
  ⟨rfl, by decide!, by decide!, by decide,
    (detach32_construct_roundtrip creptAxis32 benchAxis32 _ "bench" rfl (by decide!) (by decide!)
      (by decide) creptAxis32_reload).2.2.1⟩

/-! ## C15: the constructor and the validity marker -/

/-- C15. For every store, address and `mmPerRotation`: when the byte at
address 18 is not 56 the constructor leaves the members as it initialised
them, with target `+0.0` and sensor count 0 (so `target()` and `read()` are
zero for every number `mmPerRotation`); when the byte is 56 the constructor
ends with `set(v)`, where `v` is the float whose four bytes, least
significant first, are those at `eepromAdr + i`, `i = 0..3`, in the store:
the target becomes `v / mmPerRotation` and the sensor is seeded with
`v * 8148.0 / mmPerRotation` converted to `long`, both evaluated in single
precision, and where that conversion is undefined (the value is a NaN, an
infinity or outside the range of `long`) the construction has no defined
result. -/
theorem construct32_loads_iff_marker (mem : Axis32) (store : EEPROMClass) (axisName : String)
    (eepromAdr : Nat) (mmPerRotation : F32) :
    (store EEPROMFLAG ≠ EEPROMVALIDDATA →
        Axis32.construct mem store axisName eepromAdr mmPerRotation
          = some (Axis32.constructMembers mem store axisName eepromAdr mmPerRotation) ∧
        (Axis32.constructMembers mem store axisName eepromAdr mmPerRotation)._axisTarget
          = F32.zero false ∧
        (Axis32.constructMembers mem store axisName eepromAdr mmPerRotation)._encoder = 0 ∧
        (mmPerRotation.isFinite →
          (Axis32.constructMembers mem store axisName eepromAdr mmPerRotation).target.toRat = 0 ∧
          (Axis32.constructMembers mem store axisName eepromAdr mmPerRotation).read.toRat
            = 0)) ∧
      (store EEPROMFLAG = EEPROMVALIDDATA →
        Axis32.construct mem store axisName eepromAdr mmPerRotation
          = (Axis32.constructMembers mem store axisName eepromAdr mmPerRotation).set
              (Axis32._readFloat store eepromAdr) ∧
        (Axis32._readFloat store eepromAdr).bits
          = (store (addrPlus eepromAdr 0)).val + 256 * (store (addrPlus eepromAdr 1)).val
            + 65536 * (store (addrPlus eepromAdr 2)).val
            + 16777216 * (store (addrPlus eepromAdr 3)).val ∧
        (∀ count : Int,
          (F32.div (F32.mul (Axis32._readFloat store eepromAdr) F32.encoderSteps)
              mmPerRotation).toLong = some count →
          Axis32.construct mem store axisName eepromAdr mmPerRotation
            = some { Axis32.constructMembers mem store axisName eepromAdr mmPerRotation with
                _axisTarget := F32.div (Axis32._readFloat store eepromAdr) mmPerRotation
                _encoder := count }) ∧
        ((F32.div (F32.mul (Axis32._readFloat store eepromAdr) F32.encoderSteps)
              mmPerRotation).toLong = none →
          Axis32.construct mem store axisName eepromAdr mmPerRotation = none)) := by
  refine ⟨fun h => ⟨?_, rfl, rfl, fun hmm => ⟨?_, ?_⟩⟩, fun h => ⟨?_, rfl, fun count hc => ?_,
    fun hn => ?_⟩⟩
  · rw [construct32_eq, if_neg h]
  · exact (mul_zero_left _ _ (zero_isFinite false) hmm (zero_toRat false)).2
  · exact read32_zero _ rfl hmm
  · rw [construct32_eq, if_pos h]
  · rw [construct32_eq, if_pos h]
    simp only [Axis32.set, Axis32.constructMembers, hc]
  · rw [construct32_eq, if_pos h]
    simp only [Axis32.set, Axis32.constructMembers, hn]

/-- Instances of `construct32_loads_iff_marker`: over the erased store of
the bench axis (marker byte 255) the new axis has target and position zero;
over the store left by `detach()` of the axis at 31 counts (marker byte 56,
float `0.038046144`) the new axis is the result of `set` and holds 30
counts; over a store with the marker and the four bytes `FF` (a NaN) the
construction has no defined result. -/
theorem construct32_loads_iff_marker_witness :
    benchAxis32.EEPROM EEPROMFLAG ≠ EEPROMVALIDDATA ∧
      (Axis32.constructMembers benchAxis32 benchAxis32.EEPROM "bench" 0
        (F32.ofInt 10)).target.toRat = 0 ∧
      (Axis32.constructMembers benchAxis32 benchAxis32.EEPROM "bench" 0
        (F32.ofInt 10)).read.toRat = 0 ∧
      creptAxis32.detach.EEPROM EEPROMFLAG = EEPROMVALIDDATA ∧
      Axis32.construct benchAxis32 creptAxis32.detach.EEPROM "bench" 0 (F32.ofInt 10)
        = some { Axis32.constructMembers benchAxis32 creptAxis32.detach.EEPROM "bench" 0
              (F32.ofInt 10) with
            _axisTarget := F32.div (Axis32._readFloat creptAxis32.detach.EEPROM 0) (F32.ofInt 10)
            _encoder := 30 } ∧
      (fun a => if a = 18 then 56 else 255 : EEPROMClass) EEPROMFLAG = EEPROMVALIDDATA ∧
      Axis32.construct benchAxis32 (fun a => if a = 18 then 56 else 255) "bench" 0 (F32.ofInt 10)
        = none := by
  have hb : benchAxis32.EEPROM EEPROMFLAG ≠ EEPROMVALIDDATA := by decide
  have hl : creptAxis32.detach.EEPROM EEPROMFLAG = EEPROMVALIDDATA := by decide!
  have hn : (fun a => if a = 18 then 56 else 255 : EEPROMClass) EEPROMFLAG = EEPROMVALIDDATA := by
    decide
  exact ⟨hb,
    (((construct32_loads_iff_marker benchAxis32 benchAxis32.EEPROM "bench" 0 (F32.ofInt 10)).1
      hb).2.2.2 (by decide!)).1,
    (((construct32_loads_iff_marker benchAxis32 benchAxis32.EEPROM "bench" 0 (F32.ofInt 10)).1
      hb).2.2.2 (by decide!)).2,
    hl,
    ((construct32_loads_iff_marker benchAxis32 creptAxis32.detach.EEPROM "bench" 0
      (F32.ofInt 10)).2 hl).2.2.1 30 (by decide!),
    hn,
    ((construct32_loads_iff_marker benchAxis32 (fun a => if a = 18 then 56 else 255) "bench" 0
      (F32.ofInt 10)).2 hn).2.2.2 (by decide!)⟩

/-! ## C17: `write` and `endMove` -/

/-- C17, as stated, fails: on the bench axis (`mmPerRotation = 10.0`),
after `write(0.1f)` (the float `0x3DCCCCCD`) `setpoint()` returns the float
`0x3DCCCCCC`, one unit in the last place below the value written: the
setpoint is kept divided by `mmPerRotation` and multiplied back, and both
operations round. -/
theorem write32_setpoint_not_exact :
    benchAxis32._mmPerRotation = F32.ofInt 10 ∧
      (benchAxis32.write ⟨1036831949⟩).1.setpoint = ⟨1036831948⟩ ∧
      (benchAxis32.write ⟨1036831949⟩).1.setpoint ≠ ⟨1036831949⟩ ∧
      (benchAxis32.endMove 7 ⟨1036831949⟩).target = ⟨1036831948⟩ := by
  refine ⟨rfl, by decide!, by decide!, by decide!⟩

/-- C17, amended. For every state with a number `mmPerRotation > 0`:
`write(a)` changes the setpoint and nothing else (`target()`, the time
stamp, the sensor count, the attach state and the store are as before), and
afterwards `setpoint()` is `a / mmPerRotation * mmPerRotation` evaluated in
single precision, which, when it is a number, is within
`|a| / 2 ^ 22 + mmPerRotation / 2 ^ 149 + 2 ^ -150` of `a`; `endMove(b)`
changes the target and the time stamp and nothing else (`setpoint()` is as
before), and afterwards `target()` is `b / mmPerRotation * mmPerRotation`
evaluated in single precision, within the same distance of `b`; so after
`write(a)` and `endMove(b)`, in either order, `setpoint()` and `target()`
are those two values. -/
theorem write32_endMove_independent (s : Axis32) (a b : F32) (now : Nat)
    (hmm : s._mmPerRotation.isFinite) (hpos : F32.lt (F32.zero false) s._mmPerRotation) :
    ((s.write a).1 = { s with _pidSetpoint := F32.div a s._mmPerRotation } ∧
        (s.write a).1.setpoint = F32.mul (F32.div a s._mmPerRotation) s._mmPerRotation ∧
        ((s.write a).1.setpoint.isFinite →
          |(s.write a).1.setpoint.toRat - a.toRat|
            ≤ |a.toRat| / 2 ^ 22 + s._mmPerRotation.toRat / 2 ^ 149 + 1 / 2 ^ 150) ∧
        (s.write a).1.target = s.target ∧
        (s.write a).1._timeLastMoved = s._timeLastMoved ∧
        (s.write a).1._encoder = s._encoder ∧
        (s.write a).1._motor.attached = s._motor.attached ∧
        (s.write a).1.EEPROM = s.EEPROM) ∧
      (s.endMove now b
          = { s with _timeLastMoved := now, _axisTarget := F32.div b s._mmPerRotation } ∧
        (s.endMove now b).target = F32.mul (F32.div b s._mmPerRotation) s._mmPerRotation ∧
        ((s.endMove now b).target.isFinite →
          |(s.endMove now b).target.toRat - b.toRat|
            ≤ |b.toRat| / 2 ^ 22 + s._mmPerRotation.toRat / 2 ^ 149 + 1 / 2 ^ 150) ∧
        (s.endMove now b)._timeLastMoved = now ∧
        (s.endMove now b).setpoint = s.setpoint) ∧
      (((s.write a).1.endMove now b).setpoint = (s.write a).1.setpoint ∧
        ((s.write a).1.endMove now b).target = (s.endMove now b).target) ∧
      (((s.endMove now b).write a).1.setpoint = (s.write a).1.setpoint ∧
        ((s.endMove now b).write a).1.target = (s.endMove now b).target) := by
  have hw : (s.write a).1.setpoint = F32.mul (F32.div a s._mmPerRotation) s._mmPerRotation := by
    rw [write32_fst]; rfl
  refine ⟨⟨write32_fst s a, hw, ?_, ?_, ?_, ?_, ?_, ?_⟩, ⟨rfl, rfl, ?_, rfl, rfl⟩, ⟨?_, ?_⟩,
    ⟨?_, ?_⟩⟩
  · intro hf
    rw [hw] at hf ⊢
    exact div_mul_roundtrip a _ hmm hpos hf
  · rw [write32_fst]; rfl
  · rw [write32_fst]
  · rw [write32_fst]
  · rw [write32_fst]
  · rw [write32_fst]
  · intro hf
    exact div_mul_roundtrip b _ hmm hpos hf
  · rw [write32_fst]; rfl
  · rw [write32_fst]; rfl
  · rw [write32_fst, write32_fst]; rfl
  · rw [write32_fst]; rfl

/-- An instance of `write32_endMove_independent` on the bench axis:
`write(0.1f)` and `endMove(100)` at time 7; the setpoint read back is
within `0.1f / 2 ^ 22 + 10 / 2 ^ 149 + 2 ^ -150` of `0.1f`. -/
theorem write32_endMove_independent_witness :
    benchAxis32._mmPerRotation.isFinite ∧
      F32.lt (F32.zero false) benchAxis32._mmPerRotation ∧
      (benchAxis32.write ⟨1036831949⟩).1.setpoint.isFinite ∧
      |(benchAxis32.write ⟨1036831949⟩).1.setpoint.toRat - (⟨1036831949⟩ : F32).toRat|
        ≤ |(⟨1036831949⟩ : F32).toRat| / 2 ^ 22 + benchAxis32._mmPerRotation.toRat / 2 ^ 149
          + 1 / 2 ^ 150 ∧
      ((benchAxis32.write ⟨1036831949⟩).1.endMove 7 (F32.ofInt 100)).target
        = (benchAxis32.endMove 7 (F32.ofInt 100)).target :=
  ⟨by decide!, by decide!, by decide!,
    (write32_endMove_independent benchAxis32 ⟨1036831949⟩ (F32.ofInt 100) 7 (by decide!)
      (by decide!)).1.2.2.1 (by decide!),
    (write32_endMove_independent benchAxis32 ⟨1036831949⟩ (F32.ofInt 100) 7 (by decide!)
      (by decide!)).2.2.1.2⟩

/-! ## C18: `set` followed by `write` -/

/-- C18, as stated, fails: on the bench axis (`mmPerRotation = 10.0`)
`set(2621545.75)` seeds the count 2136035584, inside the range of `long`,
and `write(2621545.75)` right after it returns 0: near 262154 rotations
neighbouring floats are `1 / 32` apart, and the quantity the code compares
with 20 comes out as `31.25`. -/
theorem set32_then_write_not_reached :
    benchAxis32._mmPerRotation = F32.ofInt 10 ∧
      (benchAxis32.set ⟨1243611559⟩).map (fun t => t._encoder) = some 2136035584 ∧
      (2136035584 : Int) ≤ 2147483647 ∧
      (benchAxis32.set ⟨1243611559⟩).map (fun t => (t.write ⟨1243611559⟩).2) = some 0 ∧
      (benchAxis32.set ⟨1243611559⟩).map (fun t => (t.write ⟨1243611559⟩).1.writeError)
        = some ⟨1106903040⟩ ∧
      (⟨1243611559⟩ : F32).toRat = 2621545.75 ∧ (⟨1106903040⟩ : F32).toRat = 31.25 := by
  have h1 : (⟨1243611559⟩ : F32).toRat = 2621545.75 := by
    have h : (⟨1243611559⟩ : F32).signedUnits = 10486183 * 2 ^ 147 := by decide!
    rw [F32.toRat, h]; norm_num
  have h2 : (⟨1106903040⟩ : F32).toRat = 31.25 := by
    have h : (⟨1106903040⟩ : F32).signedUnits = 125 * 2 ^ 147 := by decide!
    rw [F32.toRat, h]; norm_num
  exact ⟨rfl, by decide!, by decide, by decide!, by decide!, h1, h2⟩

/-- C18, amended. For every position `p` and every number
`mmPerRotation > 0` for which `set(p)` is defined and seeds a count of
magnitude at most `2 ^ 28` (268435456 counts, about 32945 rotations),
`set(p)` immediately followed by `write(p)` returns 1: the truncation of
the seeded count and the rounding of the single-precision operations
together leave the quantity that `write` compares with 20 below 11. -/
theorem set32_then_write_reached (s s' : Axis32) (p : F32)
    (hmm : s._mmPerRotation.isFinite) (hpos : F32.lt (F32.zero false) s._mmPerRotation)
    (hset : s.set p = some s') (hcount : |s'._encoder| ≤ 268435456) :
    (s'.write p).2 = 1 ∧ (s'.write p).1.writeError.isFinite ∧
      (s'.write p).1.writeError.toRat < 11 := by
  obtain ⟨h1, _, h3⟩ := set32_some s s' p hset
  have he : (s'.write p).1.writeError
      = F32.absMacro (F32.mul (F32.sub (F32.div (F32.ofInt s'._encoder) F32.encoderSteps)
          (F32.div p s._mmPerRotation)) (F32.ofInt 1000)) := by
    rw [write32_fst]
    simp only [Axis32.writeError, h3]
  obtain ⟨c1, c2⟩ := set32_write_chain p s._mmPerRotation s'._encoder hmm hpos h1 hcount
  rw [← he] at c1 c2
  refine ⟨?_, c1, c2⟩
  rw [write32_snd, if_pos]
  rw [lt_spec _ _ c1 (by decide!), ofInt_20_toRat]
  linarith only [c2]

/-- An instance of `set32_then_write_reached`: the bench axis
(`mmPerRotation = 10.0`) and `p = 1.0`, where `set` stores 814 of 814.8. -/
theorem set32_then_write_reached_witness :
    benchAxis32._mmPerRotation.isFinite ∧ F32.lt (F32.zero false) benchAxis32._mmPerRotation ∧
      benchAxis32.set ⟨1065353216⟩
        = some { benchAxis32 with
            _axisTarget := F32.div ⟨1065353216⟩ benchAxis32._mmPerRotation
            _encoder := 814 } ∧
      |(814 : Int)| ≤ 268435456 ∧
      (({ benchAxis32 with
            _axisTarget := F32.div ⟨1065353216⟩ benchAxis32._mmPerRotation
            _encoder := 814 } : Axis32).write ⟨1065353216⟩).2 = 1 :=
  ⟨by decide!, by decide!, set32_of_toLong benchAxis32 _ 814 (by decide!), by decide,
    (set32_then_write_reached benchAxis32 _ ⟨1065353216⟩ (by decide!) (by decide!)
      (set32_of_toLong benchAxis32 _ 814 (by decide!)) (by decide)).1⟩
